import Mathlib

/-!
# Iterator inlining (`src/transformer/iterator.c`)

A shallow embedding of the iterator-inlining pass of the Rune compiler
middle-end, and theorems about it.

## Modelling conventions

* A block is the ordered list of its statements; a statement handle inside a
  block is its position in that list, and a handle to a statement nested in
  sub-blocks is the path of positions leading to it.  `deStatementNull` and the
  other null handles are `none`.
* `deError` and `utExit` abort the compilation, so every function that can reach
  them returns `Except deError _`.  Reading a field through a null handle, and
  using the handle of a destroyed statement, are undefined in the C code; the
  embedding reports them as `deError.nullHandle` and `deError.destroyedHandle`.
* `uint32` arithmetic is done on `Nat` with an explicit `% 2 ^ 32` at the two
  subtractions of `assignIteratorParameters` that can wrap.
* Deep copies (`deCopyExpression`, `deCopyBlockStatementsAfterStatement`) are
  the identity on values: a copy is an equal tree at a new place.
* The AST accessors of `de.h` are not part of the source file; their models
  carry a doc comment saying so.
* The sweep `inlineBlockIterators` loops until a pass inlines nothing and
  recurses into sub-blocks; its embedding takes a bound on the number of passes
  of each `do` loop and on the depth of the recursion, and returns `none` when
  the bound is reached.  The block it sweeps is kept apart from the function
  arena that holds the iterator templates.
-/

namespace Rune

/-! ## Data model -/

abbrev utSym := String

abbrev deLine := Nat

/-- Expression tags.  Only the tags named by `iterator.c` are listed; every
other tag of `de.h` is `DE_EXPR_OTHER n`. -/
inductive deExpressionType
  | DE_EXPR_IDENT
  | DE_EXPR_CALL
  | DE_EXPR_EQUALS
  | DE_EXPR_DOT
  | DE_EXPR_LIST
  | DE_EXPR_OTHER (tag : Nat)
  deriving DecidableEq, Repr

/-- Statement tags.  Only the tags named by `iterator.c` are listed; every
other tag of `de.h` is `DE_STATEMENT_OTHER n`. -/
inductive deStatementType
  | DE_STATEMENT_ASSIGN
  | DE_STATEMENT_FOREACH
  | DE_STATEMENT_YIELD
  | DE_STATEMENT_SWITCH
  | DE_STATEMENT_OTHER (tag : Nat)
  deriving DecidableEq, Repr

/-- Function tags: `DE_FUNC_ITERATOR` and everything else. -/
inductive deFunctionType
  | DE_FUNC_ITERATOR
  | DE_FUNC_OTHER (tag : Nat)
  deriving DecidableEq, Repr

/-- An expression node: tag, source line, symbol (for identifiers), the
`IsType` bit set by the binder, the handle of the signature a call resolved
to, and the ordered child expressions. -/
inductive deExpression
  | mk (type : deExpressionType) (line : deLine) (name : Option utSym)
      (isType : Bool) (signature : Option Nat) (children : List deExpression)

namespace deExpression

def type : deExpression → deExpressionType
  | mk t _ _ _ _ _ => t

def line : deExpression → deLine
  | mk _ l _ _ _ _ => l

def name : deExpression → Option utSym
  | mk _ _ n _ _ _ => n

def isType : deExpression → Bool
  | mk _ _ _ b _ _ => b

def signature : deExpression → Option Nat
  | mk _ _ _ _ s _ => s

def children : deExpression → List deExpression
  | mk _ _ _ _ _ c => c

/-- Replace the child list of an expression node. -/
def setChildren : deExpression → List deExpression → deExpression
  | mk t l n b s _, c => mk t l n b s c

end deExpression

/-- A statement: tag, the `instantiated` bit, source line, at most one
expression and at most one owned sub-block. -/
inductive deStatement
  | mk (type : deStatementType) (instantiated : Bool) (line : deLine)
      (expression : Option deExpression) (subBlock : Option (List deStatement))

namespace deStatement

def type : deStatement → deStatementType
  | mk t _ _ _ _ => t

def instantiated : deStatement → Bool
  | mk _ i _ _ _ => i

def line : deStatement → deLine
  | mk _ _ l _ _ => l

def expression : deStatement → Option deExpression
  | mk _ _ _ e _ => e

def subBlock : deStatement → Option (List deStatement)
  | mk _ _ _ _ b => b

end deStatement

/-- A variable of a block: its symbol, whether it is a parameter
(`DE_VAR_PARAMETER`), its default-value (initializer) expression, and the name
saved by the scope-conflict resolver while the variable is renamed. -/
structure deVariable where
  sym : utSym
  isParameter : Bool
  initializerExpression : Option deExpression
  savedName : Option utSym

/-- A scope block: its variables (parameters first, then locals, in
declaration order) and its statements. -/
structure deBlock where
  vars : List deVariable
  statements : List deStatement

/-- A function: its tag and its body block. -/
structure deFunction where
  type : deFunctionType
  subBlock : deBlock

/-- A signature: the handle of its uniquified function and its
`instantiated` bit. -/
structure deSignature where
  uniquifiedFunction : Nat
  instantiated : Bool

/-- The failures the pass can end in. -/
inductive deError
  /-- The deError "Only one yield statement per iterator is currently supported". -/
  | multipleYields (line : deLine)
  /-- The deError "No yield statement found in iterator"; the line is that of the
  statement the range ends at, when there is one. -/
  | noYield (line : Option deLine)
  /-- The deError "Expecting call to iterator here". -/
  | notIterator (line : deLine)
  /-- The utExit "Could not find instantiated case statement". -/
  | noInstantiatedCase
  /-- A failed utAssert. -/
  | assertion
  /-- A field read through a null handle (undefined in C). -/
  | nullHandle
  /-- A use of a statement handle after deStatementDestroy (undefined in C). -/
  | destroyedHandle

/-- The process-wide state the pass reads and writes: the `deInIterator` flag,
`deCurrentSignature`, the function and signature arenas of the root, the
statements queued for binding, and the statements the binder has been run on. -/
structure deState where
  deInIterator : Bool
  deCurrentSignature : Option Nat
  functions : List deFunction
  signatures : List deSignature
  bindQueue : List deStatement
  bound : List deStatement

/-! ## AST operations of `de.h` used by the pass -/

/-- Modelled from the spec: `deCopyExpression` is not in the source file; a
deep copy is an equal tree. -/
def deCopyExpression (value : deExpression) : deExpression := value

/-- Modelled from the spec: `deIdentExpressionCreate` is not in the source
file; it builds an identifier expression for a symbol. -/
def deIdentExpressionCreate (sym : utSym) (line : deLine) : deExpression :=
  .mk .DE_EXPR_IDENT line (some sym) false none []

/-- Modelled from the spec: `deBinaryExpressionCreate` is not in the source
file; it builds a node with the two operands as its children. -/
def deBinaryExpressionCreate (type : deExpressionType) (left right : deExpression)
    (line : deLine) : deExpression :=
  .mk type line none false none [left, right]

/-- Modelled from the spec: `deBlockInsertAfterStatement` is not in the source
file; the new statement becomes the successor of the statement at position
`statement`. -/
def deBlockInsertAfterStatement (block : List deStatement) (statement : Nat)
    (newStatement : deStatement) : List deStatement :=
  block.take (statement + 1) ++ newStatement :: block.drop (statement + 1)

/-- Modelled from the spec: `deBlockCountParameterVariables` is not in the
source file; parameters come first in a block's variable list, and this counts
them. -/
def deBlockCountParameterVariables (block : deBlock) : Nat :=
  (block.vars.takeWhile (fun v => v.isParameter)).length

/-- Modelled from the spec: `deBlockIndexVariable` is not in the source file;
the handle of the `index`-th variable of the block, null when there is none. -/
def deBlockIndexVariable (block : deBlock) (index : Nat) : Option Nat :=
  if index < block.vars.length then some index else none

/-- Modelled from the spec: `deVariableGetPrevBlockVariable` is not in the
source file; the handle before this one in the block's variable list. -/
def deVariableGetPrevBlockVariable : Nat → Option Nat
  | 0 => none
  | v + 1 => some v

/-- Modelled from the spec: `deExpressionCountExpressions` is not in the
source file; the number of child expressions. -/
def deExpressionCountExpressions (parameters : deExpression) : Nat :=
  parameters.children.length

/-- Modelled from the spec: `deExpresssionIndexExpression` is not in the
source file; the handle of the `index`-th child, null when there is none. -/
def deExpresssionIndexExpression (parameters : deExpression) (index : Nat) : Option Nat :=
  if index < parameters.children.length then some index else none

/-- Modelled from the spec: `deExpressionGetPrevExpression` is not in the
source file; the handle of the previous sibling in the parent's child list. -/
def deExpressionGetPrevExpression : Nat → Option Nat
  | 0 => none
  | p + 1 => some p

/-! ## Parameter binder -/

/-- Modelled from the spec: `deStatementCreate` is not in the source file; a new
statement has the given type and line, no expression, no sub-block, and is not
instantiated. -/
def deStatementCreate (type : deStatementType) (line : deLine) : deStatement :=
  .mk type false line none none

/-- Modelled from the spec: `deStatementInsertExpression` is not in the source
file; the expression becomes the expression of the statement. -/
def deStatementInsertExpression : deStatement → deExpression → deStatement
  | .mk type instantiated line _ subBlock, expression =>
    .mk type instantiated line (some expression) subBlock

/-- Source: `assignVariable`.  Generate an assignment statement after the
statement at position `statement`; returns the block and the position of the
new statement.  The value and the variable are dereferenced, so a null one is
`nullHandle`. -/
def assignVariable (block : List deStatement) (statement : Nat)
    (var : Option deVariable) (value : Option deExpression) :
    Except deError (List deStatement × Nat) :=
  match value, block.get? statement, var with
  | some value, some anchor, some var =>
    let valueCopy := deCopyExpression value
    let line := anchor.line
    let assignmentState := deStatementCreate .DE_STATEMENT_ASSIGN line
    let identExpr := deIdentExpressionCreate var.sym line
    let assignmentExpr :=
      deBinaryExpressionCreate .DE_EXPR_EQUALS identExpr valueCopy line
    .ok (deBlockInsertAfterStatement block statement
      (deStatementInsertExpression assignmentState assignmentExpr), statement + 1)
  | _, _, _ => .error .nullHandle

/-- The `for` loop of `assignIteratorParameters`: `remaining` iterations are
left, `i` is the loop counter, `var` and `param` are the two cursors that
walk backwards through the formals and the arguments. -/
def assignIteratorParametersLoop (iteratorBlock : deBlock) (parameters : deExpression)
    (numParamVars numParamExprs : Nat) :
    Nat → Nat → List deStatement → Nat → Option Nat → Option Nat →
      Except deError (List deStatement × Nat)
  | 0, _, block, statement, _, _ => .ok (block, statement)
  | remaining + 1, i, block, statement, var, param =>
    match var with
    | none => .error .nullHandle
    | some v =>
      if i < (numParamVars + 2 ^ 32 - numParamExprs) % 2 ^ 32 then
        -- Use default value.
        match assignVariable block statement (iteratorBlock.vars.get? v)
            ((iteratorBlock.vars.get? v).bind (fun x => x.initializerExpression)) with
        | .error e => .error e
        | .ok (block1, statement1) =>
          assignIteratorParametersLoop iteratorBlock parameters numParamVars numParamExprs
            remaining (i + 1) block1 statement1 (deVariableGetPrevBlockVariable v) param
      else
        match assignVariable block statement (iteratorBlock.vars.get? v)
            (param.bind (fun p => parameters.children.get? p)) with
        | .error e => .error e
        | .ok (block1, statement1) =>
          match param with
          | none => .error .nullHandle
          | some p =>
            assignIteratorParametersLoop iteratorBlock parameters numParamVars numParamExprs
              remaining (i + 1) block1 statement1 (deVariableGetPrevBlockVariable v)
              (deExpressionGetPrevExpression p)

/-- Source: `assignIteratorParameters`.  Create assign statements to set the
iterator's parameters, after the statement at position `statement`. -/
def assignIteratorParameters (block : List deStatement) (statement : Nat)
    (iteratorBlock : deBlock) (parameters : deExpression) (isMethodCall : Bool) :
    Except deError (List deStatement × Nat) :=
  let numParamExprs := deExpressionCountExpressions parameters
  let numParamVars := deBlockCountParameterVariables iteratorBlock
  if numParamVars = 0 then
    .ok (block, statement)
  else
    let var := deBlockIndexVariable iteratorBlock (numParamVars - 1)
    -- Deal with self separately.
    let numParamVars := if isMethodCall then numParamVars - 1 else numParamVars
    let param :=
      if numParamVars ≠ 0 then
        deExpresssionIndexExpression parameters ((numParamExprs + 2 ^ 32 - 1) % 2 ^ 32)
      else none
    assignIteratorParametersLoop iteratorBlock parameters numParamVars numParamExprs
      numParamVars 0 block statement var param

/-! ## Yield locator -/

mutual
/-- Source: `findStatementYieldStatement`.  Recursively search for a yield
statement in the statement.  The returned handle is the path from the statement
to the yield (the empty path is the statement itself), paired with the yield
statement found there. -/
def findStatementYieldStatement :
    deStatement → Except deError (Option (List Nat × deStatement))
  | .mk type instantiated line expression subBlock =>
    if type = .DE_STATEMENT_YIELD ∧ instantiated = true then
      .ok (some ([], .mk type instantiated line expression subBlock))
    else
      match subBlock with
      | none => .ok none
      | some subStatements => findSubBlockYieldStatement instantiated subStatements 0 none
/-- The `deForeachBlockStatement` loop of `findStatementYieldStatement` over the
sub-block of a statement whose `instantiated` bit is the first argument; `index`
is the position of the next sub-statement and `firstYieldStatement` the
loop variable of that name. -/
def findSubBlockYieldStatement (instantiated : Bool) :
    List deStatement → Nat → Option (List Nat × deStatement) →
      Except deError (Option (List Nat × deStatement))
  | [], _, firstYieldStatement => .ok firstYieldStatement
  | subStatement :: rest, index, firstYieldStatement =>
    match findStatementYieldStatement subStatement with
    | .error e => .error e
    | .ok none => findSubBlockYieldStatement instantiated rest (index + 1) firstYieldStatement
    | .ok (some (path, yieldStatement)) =>
      if instantiated = true then
        match firstYieldStatement with
        | some _ => .error (.multipleYields yieldStatement.line)
        | none =>
          findSubBlockYieldStatement instantiated rest (index + 1)
            (some (index :: path, yieldStatement))
      else findSubBlockYieldStatement instantiated rest (index + 1) firstYieldStatement
end

/-- The `while` loop of `findYieldStatement` over the statements of the range. -/
def findYieldStatementLoop :
    List deStatement → Nat → Option (List Nat × deStatement) →
      Except deError (Option (List Nat × deStatement))
  | [], _, firstYieldStatement => .ok firstYieldStatement
  | firstStatement :: rest, index, firstYieldStatement =>
    match findStatementYieldStatement firstStatement with
    | .error e => .error e
    | .ok none => findYieldStatementLoop rest (index + 1) firstYieldStatement
    | .ok (some (path, yieldStatement)) =>
      match firstYieldStatement with
      | some _ => .error (.multipleYields yieldStatement.line)
      | none => findYieldStatementLoop rest (index + 1) (some (index :: path, yieldStatement))

/-- Source: `findYieldStatement`.  Recursively search for a yield statement in
the range of statements `range`, which ends just before `lastStatement`.  Report
an error if multiple yield statements are found, or none. -/
def findYieldStatement (range : List deStatement) (lastStatement : Option deStatement) :
    Except deError (List Nat × deStatement) :=
  match findYieldStatementLoop range 0 none with
  | .error e => .error e
  | .ok none => .error (.noYield (lastStatement.map deStatement.line))
  | .ok (some found) => .ok found

/-! ## Statement paths -/

/-- The statement a path leads to inside a statement list. -/
def statementAtPath : List Nat → List deStatement → Option deStatement
  | [], _ => none
  | [i], statements => statements.get? i
  | i :: j :: path, statements =>
    match statements.get? i with
    | some (.mk _ _ _ _ (some subStatements)) => statementAtPath (j :: path) subStatements
    | _ => none

/-- Replace the statement a path leads to by the statements `f` makes of it,
inside the block that holds it. -/
def updateAtPath (f : deStatement → List deStatement) :
    List Nat → List deStatement → Option (List deStatement)
  | [], _ => none
  | [i], statements =>
    match statements.get? i with
    | some s => some (statements.take i ++ f s ++ statements.drop (i + 1))
    | none => none
  | i :: j :: path, statements =>
    match statements.get? i with
    | some (.mk type instantiated line expression (some subStatements)) =>
      match updateAtPath f (j :: path) subStatements with
      | some subStatements1 =>
        some (statements.set i (.mk type instantiated line expression (some subStatements1)))
      | none => none
    | _ => none

/-! ## Yield rewriter -/

/-- Source: `turnYieldIntLoopVarAssignment`.  Turn the yield statement into an
assignment: the call (second child of the foreach's expression) is destroyed,
the yielded value is appended in its place, and the expression moves to the
yield statement, whose type becomes `DE_STATEMENT_ASSIGN`. -/
def turnYieldIntLoopVarAssignment (yieldStatement : deStatement)
    (assignment : deExpression) : Except deError deStatement :=
  match assignment.children, yieldStatement.expression with
  | access :: _call :: rest, some yieldValue =>
    .ok (.mk .DE_STATEMENT_ASSIGN yieldStatement.instantiated yieldStatement.line
      (some (assignment.setChildren (access :: rest ++ [yieldValue])))
      yieldStatement.subBlock)
  | _, _ => .error .nullHandle

/-- Modelled from the spec: `deMoveBlockStatementsAfterStatement` is not in the
source file; the statements of `body` become, in order, the successors of the
statement the path leads to. -/
def deMoveBlockStatementsAfterStatement (body : List deStatement) (statement : List Nat)
    (block : List deStatement) : Option (List deStatement) :=
  updateAtPath (fun s => s :: body) statement block

/-! ## Switch flattener -/

/-- Whether a statement is a type-valued switch, the test at the head of
`flattenSwitchTypeStatement`; a switch without expression has none to test. -/
def isSwitchType (statement : deStatement) : Except deError Bool :=
  if statement.type ≠ .DE_STATEMENT_SWITCH then .ok false
  else
    match statement.expression with
    | none => .error .nullHandle
    | some expression => .ok expression.isType

/-- Source: `findSelectedCase`.  Find the selected case statement in a
switch-type statement: the first instantiated statement of its sub-block. -/
def findSelectedCase (switchStatement : deStatement) : Except deError deStatement :=
  match switchStatement.subBlock with
  | none => .error .nullHandle
  | some caseStatements =>
    match caseStatements.find? (fun caseStatement => caseStatement.instantiated) with
    | some caseStatement => .ok caseStatement
    | none => .error .noInstantiatedCase

mutual
/-- Source: `flattenSwitchTypeStatement`.  The statements that stand in place
of `statement` afterwards: the statement itself unless it is a switch-type
statement, else the flattened contents of the selected case block. -/
def flattenSwitchTypeStatement : deStatement → Except deError (List deStatement)
  | .mk type instantiated line expression subBlock =>
    if type ≠ .DE_STATEMENT_SWITCH then
      .ok [.mk type instantiated line expression subBlock]
    else
      match expression with
      | none => .error .nullHandle
      | some e =>
        if e.isType = false then .ok [.mk type instantiated line expression subBlock]
        else
          match subBlock with
          | none => .error .nullHandle
          | some caseStatements => flattenSelectedCase caseStatements
/-- The call of `findSelectedCase` in `flattenSwitchTypeStatement` together with
what is done to the case found: walk the case statements up to the first
instantiated one and flatten its body (an empty body leaves nothing). -/
def flattenSelectedCase : List deStatement → Except deError (List deStatement)
  | [] => .error .noInstantiatedCase
  | .mk _ instantiated _ _ subBlock :: rest =>
    if instantiated = true then
      match subBlock with
      | none => .error .nullHandle
      | some body => flattenSwitchTypeStatements body
    else flattenSelectedCase rest
/-- Source: `flattenSwitchTypeStatements`.  The statements the range consists
of after every statement of it went through `flattenSwitchTypeStatement`. -/
def flattenSwitchTypeStatements : List deStatement → Except deError (List deStatement)
  | [] => .ok []
  | statement :: rest =>
    match flattenSwitchTypeStatement statement with
    | .error e => .error e
    | .ok flattened =>
      match flattenSwitchTypeStatements rest with
      | .error e => .error e
      | .ok flattenedRest => .ok (flattened ++ flattenedRest)
end

/-! ## Scope conflict resolver and rebind trigger (consumed) -/

/-- Modelled from the spec: `deExpressionIsMethodCall` and the generator of
unique names are not in the source file; they are taken as parameters: the
test whether an access expression is a method call, and the name, unique in a
scope block, that a colliding variable is renamed to. -/
structure deExternals where
  deExpressionIsMethodCall : deExpression → Bool
  deBlockCreateUniqueName : deBlock → utSym → utSym

/-- Modelled from the spec: one step of `deResolveBlockVariableNameConfligts`,
which is not in the source file.  Rename one variable if its name collides with
a variable of the destination scope, remembering the original name. -/
def renameConflictingVariable (ext : deExternals) (oldBlock : deBlock)
    (v : deVariable) : deVariable :=
  if oldBlock.vars.any (fun w => w.sym == v.sym) then
    ⟨ext.deBlockCreateUniqueName oldBlock v.sym, v.isParameter, v.initializerExpression,
      some v.sym⟩
  else v

/-- Modelled from the spec: `deResolveBlockVariableNameConfligts` is not in the
source file; it renames every variable of the iterator block whose name
collides with one visible in the destination scope.  Identifiers inside the
expressions of the statements are kept as text, not as links to the variables,
so the rename leaves the statements as they are. -/
def deResolveBlockVariableNameConfligts (ext : deExternals)
    (newBlock oldBlock : deBlock) : deBlock :=
  ⟨newBlock.vars.map (renameConflictingVariable ext oldBlock), newBlock.statements⟩

/-- Modelled from the spec: one step of `deRestoreBlockVariableNames`, which is
not in the source file.  Give one variable its saved name back, if it has
one. -/
def restoreVariableName (v : deVariable) : deVariable :=
  match v.savedName with
  | some savedName => ⟨savedName, v.isParameter, v.initializerExpression, none⟩
  | none => v

/-- Modelled from the spec: `deRestoreBlockVariableNames` is not in the source
file; it restores the original names of the iterator template. -/
def deRestoreBlockVariableNames (block : deBlock) : deBlock :=
  ⟨block.vars.map restoreVariableName, block.statements⟩

/-- Modelled from the spec: `deQueueStatement` is not in the source file; it
marks a statement for rebinding. -/
def deQueueStatement (st : deState) (statement : deStatement) : deState :=
  ⟨st.deInIterator, st.deCurrentSignature, st.functions, st.signatures,
    st.bindQueue ++ [statement], st.bound⟩

/-- Modelled from the spec: `deBindAllSignatures` is not in the source file; it
runs the binder over the queued statements and leaves the queue empty.  The
binder resolves types and call targets; it does not restructure blocks. -/
def deBindAllSignatures (st : deState) : deState :=
  ⟨st.deInIterator, st.deCurrentSignature, st.functions, st.signatures,
    [], st.bound ++ st.bindQueue⟩

/-- Source: `queueStatements`.  Queue statements from firstStatement to
lastStatement for binding; `range` is the list of statements between the two
handles, the first of which the `do` loop queues before any test. -/
def queueStatements (st : deState) (range : List deStatement) : deState :=
  range.foldl deQueueStatement st

/-- Modelled from the spec: `deCopyBlockStatementsAfterStatement` is not in the
source file; copies of the statements of the iterator block become, in order,
the successors of the statement at position `statement`. -/
def deCopyBlockStatementsAfterStatement (iteratorBlock : deBlock)
    (block : List deStatement) (statement : Nat) : List deStatement :=
  block.take (statement + 1) ++ iteratorBlock.statements ++ block.drop (statement + 1)

/-! ## Inliner driver: one call site -/

/-- Read through a handle: a null handle is `nullHandle`. -/
def deref {α : Type} : Option α → Except deError α
  | some a => .ok a
  | none => .error .nullHandle

/-- Store a block as the body of the function with handle `iterator`. -/
def setFunctionSubBlock (st : deState) (iterator : Nat) (iteratorFn : deFunction)
    (subBlock : deBlock) : deState :=
  ⟨st.deInIterator, st.deCurrentSignature,
    st.functions.set iterator ⟨iteratorFn.type, subBlock⟩, st.signatures,
    st.bindQueue, st.bound⟩

/-- Assign the `deInIterator` flag. -/
def setInIterator (st : deState) (value : Bool) : deState :=
  ⟨value, st.deCurrentSignature, st.functions, st.signatures, st.bindQueue, st.bound⟩

/-- Lines 207 to 213 of `deInlineIterator`: the call of
`assignIteratorParameters` and, for a method call, the assignment of the
receiver (first child of the access expression) to the first variable of the
iterator block. -/
def bindIteratorParameters (block : List deStatement) (statement : Nat)
    (iteratorBlock : deBlock) (iteratorAccess parameters : deExpression)
    (isMethodCall : Bool) : Except deError (List deStatement × Nat) :=
  match assignIteratorParameters block statement iteratorBlock parameters isMethodCall with
  | .error e => .error e
  | .ok (block1, lastAssignState) =>
    if isMethodCall = true then
      let selfAccess := iteratorAccess.children.head?
      let selfVar := iteratorBlock.vars.head?
      assignVariable block1 lastAssignState selfVar selfAccess
    else .ok (block1, lastAssignState)

/-- Lines 185 to 198 of `deInlineIterator`: read the foreach's expression pair
and check that the call resolves to an iterator.  Returns the foreach's
expression, the call, and the handle and value of the iterator function. -/
def checkIteratorCall (st : deState) (foreachStatement : deStatement) :
    Except deError (deExpression × deExpression × Nat × deFunction) := do
  let assignment ← deref foreachStatement.expression
  let _access ← deref assignment.children.head?
  let call ← deref (assignment.children.get? 1)
  let line := call.line
  if call.type ≠ .DE_EXPR_CALL then
    throw (.notIterator line)
  let signature ←
    match call.signature with
    | some signature => pure signature
    | none => throw deError.assertion
  let iterator := (← deref (st.signatures.get? signature)).uniquifiedFunction
  let iteratorFn ← deref (st.functions.get? iterator)
  if iteratorFn.type ≠ .DE_FUNC_ITERATOR then
    throw (.notIterator line)
  pure (assignment, call, iterator, iteratorFn)

/-- Lines 214 to 224 of `deInlineIterator`, on the range of statements between
the foreach and its former successor: locate the yield, turn it into the
loop-variable assignment, move the loop body after it, flatten the switch-type
statements.  Returns the range before and after flattening. -/
def spliceLoopBody (range body : List deStatement) (lastStatement : Option deStatement)
    (assignment : deExpression) : Except deError (List deStatement × List deStatement) := do
  let (path, yieldStatement) ← findYieldStatement range lastStatement
  let loopVarAssignment ← turnYieldIntLoopVarAssignment yieldStatement assignment
  let range1 ← deref (updateAtPath (fun _ => [loopVarAssignment]) path range)
  -- Insert body after the yield statement, which is now the loop var assignment.
  let range2 ← deref (deMoveBlockStatementsAfterStatement body path range1)
  let range3 ← flattenSwitchTypeStatements range2
  pure (range2, range3)

/-- Source: `deInlineIterator`.  Inline the iterator called by the foreach at
position `statement` of `block`.  Returns the state, the block, and the handle
of the statement replacing the foreach. -/
def deInlineIterator (ext : deExternals) (st : deState) (scopeBlock : deBlock)
    (block : List deStatement) (statement : Nat) :
    Except deError (deState × List deStatement × Option Nat) := do
  let savedInIterator := st.deInIterator
  let st := setInIterator st true
  let foreachStatement ← deref (block.get? statement)
  let (assignment, call, iterator, iteratorFn) ← checkIteratorCall st foreachStatement
  let prevStatement := if statement = 0 then none else some (statement - 1)
  let iteratorBlock := iteratorFn.subBlock
  let iteratorAccess ← deref call.children.head?
  let parameters ← deref (call.children.get? 1)
  -- The statements from lastStatement on: they stay the tail of the block.
  let numAfter := block.length - (statement + 1)
  let lastStatement := block.get? (statement + 1)
  let isMethodCall := ext.deExpressionIsMethodCall iteratorAccess
  let iteratorBlock := deResolveBlockVariableNameConfligts ext iteratorBlock scopeBlock
  let st := setFunctionSubBlock st iterator iteratorFn iteratorBlock
  let (block, lastAssignState) ←
    bindIteratorParameters block statement iteratorBlock iteratorAccess parameters isMethodCall
  let block := deCopyBlockStatementsAfterStatement iteratorBlock block lastAssignState
  -- firstStatement is the successor of the foreach; the range runs from it to lastStatement.
  let range := (block.drop (statement + 1)).take (block.length - numAfter - (statement + 1))
  let body ← deref foreachStatement.subBlock
  let firstStatement := (block.drop (statement + 1)).head?
  let (range2, range3) ← spliceLoopBody range body lastStatement assignment
  -- The foreach is destroyed: the block is what precedes it, the range, and the tail.
  let block := block.take statement ++ range3 ++ block.drop (block.length - numAfter)
  let st ←
    match firstStatement with
    | none => pure st
    | some _ =>
      -- firstStatement is read again: it must have survived the flattening.
      match range2.head? with
      | none => throw deError.destroyedHandle
      | some first =>
        if (← isSwitchType first) = true then
          throw deError.destroyedHandle
        else
          pure (deBindAllSignatures (queueStatements st range3))
  let st := setFunctionSubBlock st iterator iteratorFn (deRestoreBlockVariableNames iteratorBlock)
  match prevStatement with
  | none => pure (st, block, if block.length = 0 then none else some 0)
  | some prev =>
    let st := setInIterator st savedInIterator
    pure (st, block, if prev + 1 < block.length then some (prev + 1) else none)

/-! ## Descriptions used by the theorems on the parameter binder -/

/-- The assignment statement `assignVariable` builds for a symbol and a value
at a line. -/
def assignmentStatement (line : deLine) (sym : utSym) (value : deExpression) : deStatement :=
  .mk .DE_STATEMENT_ASSIGN false line
    (some (deBinaryExpressionCreate .DE_EXPR_EQUALS (deIdentExpressionCreate sym line)
      value line)) none

/-- The assignment emitted for the formal at position `j` of the iterator
block, where `off` is 1 for a method call (whose formal 0 is the receiver) and
0 otherwise: the formal takes the argument `j - off` when there is one and its
own default value otherwise. -/
def plannedAssignment (line : deLine) (iteratorBlock : deBlock) (parameters : deExpression)
    (off j : Nat) : Option deStatement :=
  match iteratorBlock.vars.get? j with
  | none => none
  | some v =>
    (if j < parameters.children.length + off then parameters.children.get? (j - off)
      else v.initializerExpression).map
        (fun value => assignmentStatement line v.sym (deCopyExpression value))

/-- The value the formal at position `j` receives: the argument `j - off` when
there is one, its own default value otherwise. -/
def boundValue (iteratorBlock : deBlock) (parameters : deExpression) (off j : Nat) :
    Option deExpression :=
  if j < parameters.children.length + off then parameters.children.get? (j - off)
  else (iteratorBlock.vars.get? j).bind (fun v => v.initializerExpression)

/-- The symbol an assignment statement assigns to: the name of the first child
of its expression. -/
def assignmentTarget (s : deStatement) : Option utSym :=
  (s.expression.bind (fun e => e.children.head?)).bind (fun e => e.name)

/-- The value an assignment statement assigns: the second child of its
expression. -/
def assignmentValue (s : deStatement) : Option deExpression :=
  s.expression.bind (fun e => e.children.get? 1)

/-- The (target, value) pairs of a run of assignment statements. -/
def emittedBindings (es : List deStatement) : List (Option utSym × Option deExpression) :=
  es.map (fun s => (assignmentTarget s, assignmentValue s))

/-- The binding in which the arguments go to the first formals, in order, and
the remaining formals take their own default values, listed in declaration
order of the formals. -/
def argumentsFirstBindings (iteratorBlock : deBlock) (parameters : deExpression) :
    List (Option utSym × Option deExpression) :=
  (List.range (deBlockCountParameterVariables iteratorBlock)).map
    (fun j => ((iteratorBlock.vars.get? j).map (fun v => v.sym),
      boundValue iteratorBlock parameters 0 j))

/-- The binding in which the first `N - K` formals take their own default
values and the `j`-th argument goes to formal `N - K + j`, listed in
declaration order of the formals. -/
def defaultsFirstBindings (iteratorBlock : deBlock) (parameters : deExpression) :
    List (Option utSym × Option deExpression) :=
  (List.range (deBlockCountParameterVariables iteratorBlock)).map
    (fun j => ((iteratorBlock.vars.get? j).map (fun v => v.sym),
      if j < deBlockCountParameterVariables iteratorBlock - parameters.children.length then
        (iteratorBlock.vars.get? j).bind (fun v => v.initializerExpression)
      else parameters.children.get?
        (j - (deBlockCountParameterVariables iteratorBlock - parameters.children.length))))

/-- A literal with the given text, at line 1. -/
def exampleLiteral (text : String) : deExpression :=
  .mk (.DE_EXPR_OTHER 0) 1 (some text) false none []

/-- The block of `iterator range(start: int, step: int = 1)`, whose body is
`yield start`. -/
def rangeIteratorBlock : deBlock :=
  ⟨[⟨"start", true, none, none⟩, ⟨"step", true, some (exampleLiteral "1"), none⟩],
    [.mk .DE_STATEMENT_YIELD true 2 (some (deIdentExpressionCreate "start" 2)) none]⟩

/-- The argument list of the call `range(3)`. -/
def rangeCallParameters : deExpression :=
  .mk .DE_EXPR_LIST 1 none false none [exampleLiteral "3"]

/-- The call `range(3)`, resolved to signature 0. -/
def rangeCall : deExpression :=
  .mk .DE_EXPR_CALL 1 none false (some 0)
    [deIdentExpressionCreate "range" 1, rangeCallParameters]

/-- A loop body of one statement that is no switch. -/
def exampleLoopBody : List deStatement :=
  [.mk (.DE_STATEMENT_OTHER 0) true 2 (some (deIdentExpressionCreate "x" 2)) none]

/-- The statement `foreach x in range(3): body`. -/
def rangeForeach : deStatement :=
  .mk .DE_STATEMENT_FOREACH true 1
    (some (.mk (.DE_EXPR_OTHER 1) 1 none false none [deIdentExpressionCreate "x" 1, rangeCall]))
    (some exampleLoopBody)

/-- The block of the method iterator `iterator List.items(self)`, whose body is
`yield self`. -/
def itemsIteratorBlock : deBlock :=
  ⟨[⟨"self", true, none, none⟩],
    [.mk .DE_STATEMENT_YIELD true 2 (some (deIdentExpressionCreate "self" 2)) none]⟩

/-- The access expression `myList.items` of a method call; its first child is
the receiver. -/
def itemsAccess : deExpression :=
  .mk .DE_EXPR_DOT 1 none false none
    [deIdentExpressionCreate "myList" 1, deIdentExpressionCreate "items" 1]

/-- An empty argument list. -/
def emptyParameters : deExpression :=
  .mk .DE_EXPR_LIST 1 none false none []

/-- The block of a method iterator `iterator List.skip(self, n)`. -/
def skipIteratorBlock : deBlock :=
  ⟨[⟨"self", true, none, none⟩, ⟨"n", true, none, none⟩],
    [.mk .DE_STATEMENT_YIELD true 2 (some (deIdentExpressionCreate "self" 2)) none]⟩

/-- The access expression `myList.skip` of a method call. -/
def skipAccess : deExpression :=
  .mk .DE_EXPR_DOT 1 none false none
    [deIdentExpressionCreate "myList" 1, deIdentExpressionCreate "skip" 1]

/-- The argument list of the call `myList.skip(5)`. -/
def skipCallParameters : deExpression :=
  .mk .DE_EXPR_LIST 1 none false none [exampleLiteral "5"]

/-! ## Descriptions used by the theorems on the yield locator -/

mutual
/-- The reachable yields of a statement, each with its path from the statement:
the instantiated yield statements in it, at any depth, all of whose enclosing
statements (the statement itself included) are instantiated. -/
def reachableYieldsStatement : deStatement → List (List Nat × deStatement)
  | .mk type instantiated line expression subBlock =>
    (if type = .DE_STATEMENT_YIELD ∧ instantiated = true then
      [([], .mk type instantiated line expression subBlock)] else []) ++
    (if instantiated = true then
      match subBlock with
      | none => []
      | some subStatements => reachableYieldsBlock subStatements 0
    else [])
/-- The reachable yields of a statement list whose first statement has position
`index`, each with its path, in block order. -/
def reachableYieldsBlock : List deStatement → Nat → List (List Nat × deStatement)
  | [], _ => []
  | statement :: rest, index =>
    (reachableYieldsStatement statement).map (fun found => (index :: found.1, found.2))
      ++ reachableYieldsBlock rest (index + 1)
end

/-- The reachable yields of a statement range. -/
def reachableYields (range : List deStatement) : List (List Nat × deStatement) :=
  reachableYieldsBlock range 0

mutual
/-- A yield statement owns no sub-block, here and in every sub-block. -/
def yieldsAreLeavesStatement : deStatement → Bool
  | .mk type _ _ _ subBlock =>
    match subBlock with
    | none => true
    | some subStatements =>
      decide (type ≠ .DE_STATEMENT_YIELD) && yieldsAreLeavesBlock subStatements
/-- Every yield statement of the list, at any depth, owns no sub-block. -/
def yieldsAreLeavesBlock : List deStatement → Bool
  | [] => true
  | statement :: rest => yieldsAreLeavesStatement statement && yieldsAreLeavesBlock rest
end

/-! ## Descriptions used by the theorems on the yield rewriter -/

/-- Whether a statement is a switch whose expression is a type, as a plain
boolean (a switch without expression counts as none). -/
def isSwitchTypeStatement (statement : deStatement) : Bool :=
  decide (statement.type = .DE_STATEMENT_SWITCH) &&
    (statement.expression.map deExpression.isType == some true)

mutual
/-- Every type-valued switch in the statement, at any depth, has exactly one
instantiated case. -/
def switchCasesUniqueStatement : deStatement → Bool
  | .mk type instantiated line expression subBlock =>
    match subBlock with
    | none => !isSwitchTypeStatement (.mk type instantiated line expression none)
    | some caseStatements =>
      (!isSwitchTypeStatement (.mk type instantiated line expression none) ||
          decide (caseStatements.countP (fun c => c.instantiated) = 1)) &&
        switchCasesUniqueBlock caseStatements
/-- Every type-valued switch in the statement list, at any depth, has exactly
one instantiated case. -/
def switchCasesUniqueBlock : List deStatement → Bool
  | [] => true
  | statement :: rest => switchCasesUniqueStatement statement && switchCasesUniqueBlock rest
end

/-- A type expression, at line 3. -/
def exampleTypeExpression : deExpression :=
  .mk (.DE_EXPR_OTHER 2) 3 none true none []

/-- An instantiated yield of the identifier `sym`, at line 3. -/
def exampleYield (sym : utSym) : deStatement :=
  .mk .DE_STATEMENT_YIELD true 3 (some (deIdentExpressionCreate sym 3)) none

/-- A range whose second statement is a type-valued switch with two cases: the
first, not instantiated, yields `a`; the second, instantiated, yields `b`. -/
def switchedYieldRange : List deStatement :=
  [.mk (.DE_STATEMENT_OTHER 0) true 2 none none,
    .mk .DE_STATEMENT_SWITCH true 3 (some exampleTypeExpression)
      (some [.mk (.DE_STATEMENT_OTHER 1) false 3 (some exampleTypeExpression)
          (some [exampleYield "a"]),
        .mk (.DE_STATEMENT_OTHER 1) true 3 (some exampleTypeExpression)
          (some [exampleYield "b"])])]

/-- A range of one statement that is not instantiated and whose sub-block holds
one instantiated statement with two instantiated yields in its sub-block. -/
def skippedBranchRange : List deStatement :=
  [.mk (.DE_STATEMENT_OTHER 1) false 3 none
    (some [.mk (.DE_STATEMENT_OTHER 2) true 3 none
      (some [exampleYield "a", exampleYield "b"])])]

/-- The state in which signature 0 is an instantiated signature of the iterator
`range`, function 0. -/
def rangeState : deState :=
  ⟨false, some 0, [⟨.DE_FUNC_ITERATOR, rangeIteratorBlock⟩], [⟨0, true⟩], [], []⟩

/-- The externals of the examples: no access is a method call, and a unique
name is made by appending an underscore. -/
def exampleExternals : deExternals :=
  ⟨fun _ => false, fun _ name => name ++ "_"⟩

/-- A scope block with the one variable `x`. -/
def exampleScope : deBlock :=
  ⟨[⟨"x", false, none, none⟩], []⟩

/-- A loop body that consists of one type-valued switch whose single,
instantiated case holds one statement. -/
def switchLoopBody : List deStatement :=
  [.mk .DE_STATEMENT_SWITCH true 2 (some exampleTypeExpression)
    (some [.mk (.DE_STATEMENT_OTHER 1) true 2 (some exampleTypeExpression)
      (some exampleLoopBody)])]

/-- Whether a failure is the not-an-iterator error, "Expecting call to iterator
here". -/
def deError.isNotIterator : deError → Bool
  | .notIterator _ => true
  | _ => false
/-- The state in which signature 0 is a signature of function 0, which has the
block of `range` but is no iterator. -/
def plainFunctionState : deState :=
  ⟨false, some 0, [⟨.DE_FUNC_OTHER 0, rangeIteratorBlock⟩], [⟨0, true⟩], [], []⟩

/-- A scope block in which the names `x` and `step` are taken. -/
def collidingScope : deBlock :=
  ⟨[⟨"x", false, none, none⟩, ⟨"step", false, none, none⟩], []⟩

/-! ## Examples for the claims on the flattened range -/

/-- The type-valued switch, at line 3, whose single, instantiated case holds
`yield v`. -/
def yieldingSwitch : deStatement :=
  .mk .DE_STATEMENT_SWITCH true 3 (some exampleTypeExpression)
    (some [.mk (.DE_STATEMENT_OTHER 1) true 3 (some exampleTypeExpression)
      (some [exampleYield "v"])])

/-- The block of the parameterless iterator `iterator values()`, whose body is
the one statement `yieldingSwitch`. -/
def valuesIteratorBlock : deBlock :=
  ⟨[], [yieldingSwitch]⟩

/-- The call `values()`, resolved to signature 0. -/
def valuesCall : deExpression :=
  .mk .DE_EXPR_CALL 1 none false (some 0)
    [deIdentExpressionCreate "values" 1, emptyParameters]

/-- The expression pair `x`, `values()` of a foreach. -/
def valuesAssignment : deExpression :=
  .mk (.DE_EXPR_OTHER 1) 1 none false none [deIdentExpressionCreate "x" 1, valuesCall]

/-- The statement `foreach x in values(): body`. -/
def valuesForeach : deStatement :=
  .mk .DE_STATEMENT_FOREACH true 1 (some valuesAssignment) (some exampleLoopBody)

/-- The state in which signature 0 is an instantiated signature of the iterator
`values`, function 0. -/
def valuesState : deState :=
  ⟨false, some 0, [⟨.DE_FUNC_ITERATOR, valuesIteratorBlock⟩], [⟨0, true⟩], [], []⟩

/-- The assignment `x = v` the yield of `values` is turned into. -/
def valuesLoopVarAssignment : deStatement :=
  .mk .DE_STATEMENT_ASSIGN true 3
    (some (.mk (.DE_EXPR_OTHER 1) 1 none false none
      [deIdentExpressionCreate "x" 1, deIdentExpressionCreate "v" 3])) none

/-- A range of one statement that is no switch and whose sub-block is the loop
body `switchLoopBody`, one type-valued switch. -/
def nestedSwitchRange : List deStatement :=
  [.mk (.DE_STATEMENT_OTHER 3) true 2 none (some switchLoopBody)]

mutual
/-- Whether the statement is a type-valued switch or holds one in its
sub-block, at any depth. -/
def containsSwitchTypeStatement : deStatement → Bool
  | .mk type instantiated line expression subBlock =>
    isSwitchTypeStatement (.mk type instantiated line expression none) ||
      (match subBlock with
        | none => false
        | some subStatements => containsSwitchTypeBlock subStatements)
/-- Whether a type-valued switch lies in the statement list, at any depth. -/
def containsSwitchTypeBlock : List deStatement → Bool
  | [] => false
  | statement :: rest => containsSwitchTypeStatement statement || containsSwitchTypeBlock rest
end

/-- Line 169 of `flattenSwitchTypeStatements`, `return firstStatement`: the
statement whose handle the function returns once the loop over the range has
completed.  It is the handle that was passed in, the one of the first statement
of the range as it was before the loop (for an empty range `firstStatement` is
`lastStatement`); the loop assigns `statement` and `nextStatement` only. -/
def flattenSwitchTypeStatementsReturned (range : List deStatement)
    (lastStatement : Option deStatement) : Except deError (Option deStatement) :=
  match flattenSwitchTypeStatements range with
  | .error e => .error e
  | .ok _ =>
    match range with
    | [] => .ok lastStatement
    | firstStatement :: _ => .ok (some firstStatement)

/-- The first non-destroyed statement in a range after the flattening: the first
statement of the flattened range, or what follows the range when nothing of it
is left. -/
def firstNonDestroyed (flattened : List deStatement) (lastStatement : Option deStatement) :
    Option deStatement :=
  match flattened with
  | [] => lastStatement
  | first :: _ => some first

/-- The sequence the flattening is described to leave in place of a range: each
top-level type-valued switch is replaced with the flattened body statements of
its instantiated case, the first one the case walk meets, and every other
statement is kept in place. -/
inductive FlattenedAs : List deStatement → List deStatement → Prop
  | nil : FlattenedAs [] []
  | keep (statement : deStatement) (rest flattenedRest : List deStatement) :
      isSwitchTypeStatement statement = false →
      (statement.type = .DE_STATEMENT_SWITCH → statement.expression ≠ none) →
      FlattenedAs rest flattenedRest →
      FlattenedAs (statement :: rest) (statement :: flattenedRest)
  | replace (statement selectedCase : deStatement)
      (caseStatements body flattenedBody rest flattenedRest : List deStatement) :
      isSwitchTypeStatement statement = true →
      statement.subBlock = some caseStatements →
      caseStatements.find? (fun caseStatement => caseStatement.instantiated)
        = some selectedCase →
      selectedCase.subBlock = some body →
      FlattenedAs body flattenedBody →
      FlattenedAs rest flattenedRest →
      FlattenedAs (statement :: rest) (flattenedBody ++ flattenedRest)

/-! ## Inliner driver: the sweep -/

/-- Lines 243 to 249 of `inlineBlockIterators`: one run of the
`deSafeForeachBlockStatement` loop over the block.  `done` are the statements
of the block before the cursor, `todo` the statements from the cursor on, and
the flag is `inlinedIterator`.  The macro reads the successor of the cursor
before the loop body runs, so after an inlining the walk goes on at the
statement that followed the foreach, past the statements that replaced it. -/
def inlineBlockIteratorsPass (ext : deExternals) (scopeBlock : deBlock) :
    List deStatement → List deStatement → deState → Bool →
      Except deError (deState × List deStatement × Bool)
  | done, [], st, inlinedIterator => .ok (st, done, inlinedIterator)
  | done, statement :: rest, st, inlinedIterator =>
    if statement.type = .DE_STATEMENT_FOREACH ∧ statement.instantiated = true then
      match deInlineIterator ext st scopeBlock (done ++ statement :: rest) done.length with
      | .error e => .error e
      | .ok (st1, block1, _) =>
        inlineBlockIteratorsPass ext scopeBlock (block1.take (block1.length - rest.length))
          rest st1 true
    else inlineBlockIteratorsPass ext scopeBlock (done ++ [statement]) rest st inlinedIterator

/-- Lines 241 to 250 of `inlineBlockIterators`: the `do` loop, which runs the
pass again as long as a pass inlined an iterator.  The first argument bounds
the number of passes; `none` says the bound was reached. -/
def inlineBlockIteratorsLoop (ext : deExternals) (scopeBlock : deBlock) :
    Nat → List deStatement → deState → Option (Except deError (deState × List deStatement))
  | 0, _, _ => none
  | fuel + 1, block, st =>
    match inlineBlockIteratorsPass ext scopeBlock [] block st false with
    | .error e => some (.error e)
    | .ok (st1, block1, true) => inlineBlockIteratorsLoop ext scopeBlock fuel block1 st1
    | .ok (st1, block1, false) => some (.ok (st1, block1))

/-- Lines 251 to 256 of `inlineBlockIterators`: the loop over the statements of
the block that calls `recurse`, the recursive call of `inlineBlockIterators`,
on the sub-block of every statement that has one. -/
def inlineSubBlockIterators
    (recurse : List deStatement → deState →
      Option (Except deError (deState × List deStatement))) :
    List deStatement → deState → Option (Except deError (deState × List deStatement))
  | [], st => some (.ok (st, []))
  | .mk type instantiated line expression subBlock :: rest, st =>
    match subBlock with
    | none =>
      match inlineSubBlockIterators recurse rest st with
      | none => none
      | some (.error e) => some (.error e)
      | some (.ok (st1, rest1)) =>
        some (.ok (st1, .mk type instantiated line expression none :: rest1))
    | some subStatements =>
      match recurse subStatements st with
      | none => none
      | some (.error e) => some (.error e)
      | some (.ok (st1, subStatements1)) =>
        match inlineSubBlockIterators recurse rest st1 with
        | none => none
        | some (.error e) => some (.error e)
        | some (.ok (st2, rest1)) =>
          some (.ok (st2, .mk type instantiated line expression (some subStatements1) :: rest1))

/-- Source: `inlineBlockIterators`.  Inline iterators in the block: inline the
instantiated foreach statements of the block until a pass finds none, then do
the same in the sub-block of every statement.  The first argument bounds the
number of passes of each `do` loop and the depth of the recursion; `none` says
the bound was reached. -/
def inlineBlockIterators (ext : deExternals) (scopeBlock : deBlock) :
    Nat → List deStatement → deState → Option (Except deError (deState × List deStatement))
  | 0, _, _ => none
  | fuel + 1, block, st =>
    match inlineBlockIteratorsLoop ext scopeBlock fuel block st with
    | none => none
    | some (.error e) => some (.error e)
    | some (.ok (st1, block1)) =>
      inlineSubBlockIterators (inlineBlockIterators ext scopeBlock fuel) block1 st1

/-! ## Descriptions used by the theorems on the sweep -/

/-- Whether a statement is an instantiated foreach, the test of line 244. -/
def isInstantiatedForeach (statement : deStatement) : Bool :=
  decide (statement.type = .DE_STATEMENT_FOREACH) && statement.instantiated

mutual
/-- Neither the statement nor a statement in its sub-block, at any depth, is an
instantiated foreach. -/
def noInstantiatedForeachStatement : deStatement → Bool
  | .mk type instantiated line expression subBlock =>
    !isInstantiatedForeach (.mk type instantiated line expression none) &&
      (match subBlock with
        | none => true
        | some subStatements => noInstantiatedForeachBlock subStatements)
/-- No instantiated foreach remains in the statement list or in a sub-block
reachable from it, at any depth. -/
def noInstantiatedForeachBlock : List deStatement → Bool
  | [] => true
  | statement :: rest =>
    noInstantiatedForeachStatement statement && noInstantiatedForeachBlock rest
end

/-- The block of `iterator evens(start: int)`, whose body is the loop
`foreach x in range(start): yield x`: an iterator that calls another one. -/
def evensIteratorBlock : deBlock :=
  ⟨[⟨"start", true, none, none⟩],
    [.mk .DE_STATEMENT_FOREACH true 4
      (some (.mk (.DE_EXPR_OTHER 1) 4 none false none
        [deIdentExpressionCreate "x" 4,
          .mk .DE_EXPR_CALL 4 none false (some 0)
            [deIdentExpressionCreate "range" 4,
              .mk .DE_EXPR_LIST 4 none false none [deIdentExpressionCreate "start" 4]]]))
      (some [exampleYield "x"])]⟩

/-- The statement `foreach y in evens(7): body`, its call resolved to
signature 1. -/
def evensForeach : deStatement :=
  .mk .DE_STATEMENT_FOREACH true 1
    (some (.mk (.DE_EXPR_OTHER 1) 1 none false none
      [deIdentExpressionCreate "y" 1,
        .mk .DE_EXPR_CALL 1 none false (some 1)
          [deIdentExpressionCreate "evens" 1,
            .mk .DE_EXPR_LIST 1 none false none [exampleLiteral "7"]]]))
    (some exampleLoopBody)

/-- The state with the iterators `range`, function 0 and signature 0, and
`evens`, function 1 and signature 1. -/
def nestedIteratorState : deState :=
  ⟨false, some 0,
    [⟨.DE_FUNC_ITERATOR, rangeIteratorBlock⟩, ⟨.DE_FUNC_ITERATOR, evensIteratorBlock⟩],
    [⟨0, true⟩, ⟨1, true⟩], [], []⟩

/-- A block whose second statement holds `foreach y in evens(7): body` in its
sub-block, after a statement without sub-block. -/
def nestedIteratorBlock : List deStatement :=
  [.mk (.DE_STATEMENT_OTHER 0) true 1 none none,
    .mk (.DE_STATEMENT_OTHER 3) true 1 none (some [evensForeach])]

/-- The iterator a foreach statement inlines: the function handle that
`checkIteratorCall` resolves the call of the statement to. -/
def foreachIterator (st : deState) (statement : deStatement) : Option Nat :=
  match checkIteratorCall st statement with
  | .ok (_, _, iterator, _) => some iterator
  | .error _ => none

mutual
/-- The instantiated foreach statements of a statement: itself if it is one,
and those in its sub-block, at any depth. -/
def instantiatedForeachStatement : deStatement → List deStatement
  | .mk type instantiated line expression subBlock =>
    (if isInstantiatedForeach (.mk type instantiated line expression none) = true then
      [.mk type instantiated line expression subBlock] else []) ++
    (match subBlock with
      | none => []
      | some subStatements => instantiatedForeachBlock subStatements)
/-- The instantiated foreach statements of a statement list, at any depth. -/
def instantiatedForeachBlock : List deStatement → List deStatement
  | [] => []
  | statement :: rest => instantiatedForeachStatement statement ++ instantiatedForeachBlock rest
end

/-- The relation "the body of iterator `f` contains a foreach over iterator
`g`": function `f` is an iterator and an instantiated foreach statement in its
body, at any depth, calls the iterator `g`. -/
def containsForeachOver (st : deState) (f g : Nat) : Prop :=
  ∃ iteratorFn statement,
    st.functions.get? f = some iteratorFn ∧
    iteratorFn.type = .DE_FUNC_ITERATOR ∧
    statement ∈ instantiatedForeachBlock iteratorFn.subBlock.statements ∧
    foreachIterator st statement = some g

/-- The weight of a statement list for a weight `W` on the iterators: the sum,
over the instantiated foreach statements in it, of the weight of the iterator
each one calls. -/
def foreachWeight (st : deState) (W : Nat → Nat) (block : List deStatement) : Nat :=
  ((instantiatedForeachBlock block).map
    (fun statement =>
      match foreachIterator st statement with
      | some g => W g
      | none => 0)).sum

mutual
/-- The nesting depth of a statement: zero without sub-block. -/
def statementDepth : deStatement → Nat
  | .mk _ _ _ _ subBlock =>
    match subBlock with
    | none => 0
    | some subStatements => blockDepth subStatements + 1
/-- The nesting depth of a statement list. -/
def blockDepth : List deStatement → Nat
  | [] => 0
  | statement :: rest => max (statementDepth statement) (blockDepth rest)
end
/-- Two states resolve calls alike and hold the same iterators with the same
body statements: the signatures are equal, and so are the types and the
statement sequences of the functions. -/
def sameTemplates (st0 st : deState) : Prop :=
  st.signatures = st0.signatures ∧
  st.functions.map (fun fn => (fn.type, fn.subBlock.statements))
    = st0.functions.map (fun fn => (fn.type, fn.subBlock.statements))

/-! # Theorems -/

/-! ## Parameter binder -/

/-- On a block split at the anchor, `assignVariable` puts the new assignment
right after the anchor and returns its position. -/
theorem assignVariable_append (pre post : List deStatement) (a : deStatement)
    (v : deVariable) (value : deExpression) :
    assignVariable (pre ++ a :: post) pre.length (some v) (some value) =
      .ok ((pre ++ [a]) ++ assignmentStatement a.line v.sym (deCopyExpression value) :: post,
        pre.length + 1) := by
  have hget : (pre ++ a :: post).get? pre.length = some a := by
    rw [List.get?_eq_getElem?, List.getElem?_append_right (le_refl _)]
    simp
  have hsplit : pre ++ a :: post = (pre ++ [a]) ++ post := by simp
  have hlen : (pre ++ [a]).length = pre.length + 1 := by simp
  unfold assignVariable
  rw [hget]
  simp only [deBlockInsertAfterStatement, assignmentStatement, deStatementCreate,
    deStatementInsertExpression]
  rw [hsplit, List.take_left' hlen, List.drop_left' hlen]

/-- The loop of `assignIteratorParameters`, started at counter `i` with `n`
iterations left and its two cursors where `i` iterations leave them, emits the
planned assignments of the formals `numParamVars + off - 1 - i` downwards. -/
theorem assignIteratorParametersLoop_spec (iteratorBlock : deBlock) (parameters : deExpression)
    (numParamVars off : Nat) (line : deLine)
    (hK : parameters.children.length ≤ numParamVars) (hN : numParamVars < 2 ^ 32) :
    ∀ (n i : Nat) (pre : List deStatement) (a : deStatement) (post es : List deStatement)
      (var param : Option Nat),
      i + n = numParamVars → a.line = line →
      es.map some = (List.range n).map
        (fun t => plannedAssignment line iteratorBlock parameters off
          (numParamVars + off - 1 - (i + t))) →
      (n ≠ 0 → var = some (numParamVars + off - 1 - i)) →
      (i - (numParamVars - parameters.children.length) < parameters.children.length →
        param = some (parameters.children.length - 1
          - (i - (numParamVars - parameters.children.length)))) →
      assignIteratorParametersLoop iteratorBlock parameters numParamVars
          parameters.children.length n i (pre ++ a :: post) pre.length var param
        = .ok (pre ++ a :: es ++ post, pre.length + n) := by
  have hD : (numParamVars + 2 ^ 32 - parameters.children.length) % 2 ^ 32
      = numParamVars - parameters.children.length := by
    have : numParamVars + 2 ^ 32 - parameters.children.length
        = (numParamVars - parameters.children.length) + 2 ^ 32 := by omega
    rw [this, Nat.add_mod_right]
    exact Nat.mod_eq_of_lt (by omega)
  intro n
  induction n with
  | zero =>
    intro i pre a post es var param _ _ hes _ _
    have : es = [] := by simpa using hes
    subst this
    simp [assignIteratorParametersLoop]
  | succ n ih =>
    intro i pre a post es var param hin hline hes hvar hparam
    rw [List.range_succ_eq_map, List.map_cons, List.map_map] at hes
    cases es with
    | nil => simp at hes
    | cons e es1 =>
      simp only [List.map_cons, List.cons.injEq, Nat.add_zero] at hes
      obtain ⟨he, hes1⟩ := hes
      rw [hvar (Nat.succ_ne_zero n)]
      unfold assignIteratorParametersLoop
      simp only [hD]
      unfold plannedAssignment at he
      cases hv : iteratorBlock.vars.get? (numParamVars + off - 1 - i) with
      | none => rw [hv] at he; simp at he
      | some v =>
        rw [hv] at he
        simp only at he
        have hsplit : (pre ++ [a]) ++ e :: es1 ++ post = pre ++ a :: (e :: es1) ++ post := by
          simp
        have hlen : (pre ++ [a]).length + n = pre.length + (n + 1) := by
          simp; omega
        have hvar1 : n ≠ 0 → deVariableGetPrevBlockVariable (numParamVars + off - 1 - i)
            = some (numParamVars + off - 1 - (i + 1)) := by
          intro hn
          have : numParamVars + off - 1 - i = (numParamVars + off - 1 - (i + 1)) + 1 := by omega
          rw [this]; rfl
        have hes2 : es1.map some = (List.range n).map
            (fun t => plannedAssignment line iteratorBlock parameters off
              (numParamVars + off - 1 - (i + 1 + t))) := by
          rw [hes1]
          apply List.map_congr_left
          intro t _
          simp only [Function.comp, Nat.succ_eq_add_one]
          congr 2
          omega
        by_cases hlt : i < numParamVars - parameters.children.length
        · have hj : ¬ (numParamVars + off - 1 - i < parameters.children.length + off) := by omega
          rw [if_neg hj] at he
          cases hinit : v.initializerExpression with
          | none => rw [hinit] at he; simp at he
          | some value =>
            rw [hinit] at he
            simp only [Option.map_some', Option.some.injEq] at he
            subst he
            have hl : pre.length + 1 = (pre ++ [a]).length := by simp
            simp only [if_pos hlt, Option.bind, hinit, assignVariable_append]
            rw [← hsplit, ← hlen, hline, hl]
            exact ih (i + 1) (pre ++ [a]) _ post es1 _ param (by omega) rfl hes2 hvar1
              (fun h => by rw [hparam (by omega)]; congr 2; omega)
        · have hj : numParamVars + off - 1 - i < parameters.children.length + off := by omega
          rw [if_pos hj] at he
          have hp := hparam (by omega)
          have hidx : parameters.children.length - 1
              - (i - (numParamVars - parameters.children.length))
              = numParamVars + off - 1 - i - off := by omega
          rw [hidx] at hp
          cases harg : parameters.children.get? (numParamVars + off - 1 - i - off) with
          | none => rw [harg] at he; simp at he
          | some value =>
            rw [harg] at he
            simp only [Option.map_some', Option.some.injEq] at he
            subst he
            have hl : pre.length + 1 = (pre ++ [a]).length := by simp
            simp only [if_neg hlt, hp, Option.bind, harg, assignVariable_append]
            rw [← hsplit, ← hlen, hline, hl]
            exact ih (i + 1) (pre ++ [a]) _ post es1 _ _ (by omega) rfl hes2 hvar1
              (fun h => by
                have : numParamVars + off - 1 - i - off = (parameters.children.length - 1
                    - (i + 1 - (numParamVars - parameters.children.length))) + 1 := by omega
                rw [this]; rfl)

/-- The parameters are among the variables of the block. -/
theorem deBlockCountParameterVariables_le (iteratorBlock : deBlock) :
    deBlockCountParameterVariables iteratorBlock ≤ iteratorBlock.vars.length := by
  unfold deBlockCountParameterVariables
  exact (List.takeWhile_sublist _).length_le

/-- With at most as many arguments as formals (the receiver apart),
`assignIteratorParameters` emits the planned assignments from the last formal
down, right after the anchor. -/

theorem assignIteratorParameters_spec (pre post : List deStatement) (a : deStatement)
    (iteratorBlock : deBlock) (parameters : deExpression) (isMethodCall : Bool)
    (off : Nat) (hoff : off = if isMethodCall = true then 1 else 0)
    (es : List deStatement)
    (hN : deBlockCountParameterVariables iteratorBlock < 2 ^ 32)
    (hK : parameters.children.length + off ≤ deBlockCountParameterVariables iteratorBlock)
    (hes : es.map some = (List.range (deBlockCountParameterVariables iteratorBlock - off)).map
      (fun t => plannedAssignment a.line iteratorBlock parameters off
        (deBlockCountParameterVariables iteratorBlock - 1 - t))) :
    assignIteratorParameters (pre ++ a :: post) pre.length iteratorBlock parameters isMethodCall
      = .ok (pre ++ a :: es ++ post,
          pre.length + (deBlockCountParameterVariables iteratorBlock - off)) := by
  unfold assignIteratorParameters
  by_cases h0 : deBlockCountParameterVariables iteratorBlock = 0
  · have : es = [] := by
      rw [h0] at hes
      simpa using hes
    subst this
    simp [h0]
  · simp only [if_neg h0, deExpressionCountExpressions]
    have hidx : deBlockIndexVariable iteratorBlock (deBlockCountParameterVariables iteratorBlock - 1)
        = some (deBlockCountParameterVariables iteratorBlock - 1) := by
      have := deBlockCountParameterVariables_le iteratorBlock
      unfold deBlockIndexVariable
      rw [if_pos (by omega)]
    have hnum : (if isMethodCall = true then deBlockCountParameterVariables iteratorBlock - 1
        else deBlockCountParameterVariables iteratorBlock)
        = deBlockCountParameterVariables iteratorBlock - off := by
      cases isMethodCall <;> simp [hoff]
    rw [hidx, hnum]
    apply assignIteratorParametersLoop_spec iteratorBlock parameters _ off a.line (by omega)
      (by omega) _ 0 pre a post es _ _ (by omega) rfl
    · rw [hes]
      apply List.map_congr_left
      intro t ht
      have : t < deBlockCountParameterVariables iteratorBlock - off := by simpa using ht
      congr 1
      omega
    · intro _
      congr 1
      omega
    · intro hlt
      have hKpos : 0 < parameters.children.length := by omega
      have hne : deBlockCountParameterVariables iteratorBlock - off ≠ 0 := by omega
      rw [if_pos hne]
      have hmod : (parameters.children.length + 2 ^ 32 - 1) % 2 ^ 32
          = parameters.children.length - 1 := by
        have : parameters.children.length + 2 ^ 32 - 1
            = (parameters.children.length - 1) + 2 ^ 32 := by omega
        rw [this, Nat.add_mod_right]
        exact Nat.mod_eq_of_lt (by omega)
      unfold deExpresssionIndexExpression
      rw [hmod, if_pos (by omega)]
      simp only [Nat.zero_sub, Nat.sub_zero]

/-- A call of `assignVariable` that returns had a variable and a value. -/
theorem assignVariable_ok (pre post : List deStatement) (a : deStatement)
    (var : Option deVariable) (value : Option deExpression) (blk : List deStatement) (pos : Nat)
    (h : assignVariable (pre ++ a :: post) pre.length var value = .ok (blk, pos)) :
    ∃ v val, var = some v ∧ value = some val ∧
      blk = (pre ++ [a]) ++ assignmentStatement a.line v.sym (deCopyExpression val) :: post ∧
      pos = pre.length + 1 := by
  cases var with
  | none =>
    cases value <;> simp [assignVariable] at h
  | some v =>
    cases value with
    | none => simp [assignVariable] at h
    | some val =>
      rw [assignVariable_append] at h
      simp only [Except.ok.injEq, Prod.mk.injEq] at h
      exact ⟨v, val, rfl, rfl, h.1.symm, h.2.symm⟩

theorem assignmentStatement_type (line : deLine) (sym : utSym) (value : deExpression) :
    (assignmentStatement line sym value).type = .DE_STATEMENT_ASSIGN := rfl

theorem assignmentStatement_line (line : deLine) (sym : utSym) (value : deExpression) :
    (assignmentStatement line sym value).line = line := rfl

/-- Whatever the counts, a run of the loop that returns has inserted one
assignment per iteration right after the anchor, all on the anchor's line. -/
theorem assignIteratorParametersLoop_shape (iteratorBlock : deBlock) (parameters : deExpression)
    (numParamVars numParamExprs : Nat) :
    ∀ (n i : Nat) (pre : List deStatement) (a : deStatement) (post : List deStatement)
      (var param : Option Nat) (blk : List deStatement) (pos : Nat),
      assignIteratorParametersLoop iteratorBlock parameters numParamVars numParamExprs
          n i (pre ++ a :: post) pre.length var param = .ok (blk, pos) →
      ∃ es, blk = pre ++ a :: es ++ post ∧ es.length = n ∧ pos = pre.length + n ∧
        ∀ e ∈ es, e.type = .DE_STATEMENT_ASSIGN ∧ e.line = a.line ∧ e.subBlock = none := by
  intro n
  induction n with
  | zero =>
    intro i pre a post var param blk pos h
    simp only [assignIteratorParametersLoop, Except.ok.injEq, Prod.mk.injEq] at h
    exact ⟨[], by simp [h.1.symm], rfl, by simp [h.2.symm], by simp⟩
  | succ n ih =>
    intro i pre a post var param blk pos h
    unfold assignIteratorParametersLoop at h
    cases var with
    | none => simp at h
    | some v =>
      simp only at h
      split at h
      · split at h
        · simp at h
        · rename_i block1 statement1 hav
          obtain ⟨w, val, _, _, hb, hs⟩ := assignVariable_ok _ _ _ _ _ _ _ hav
          subst hb hs
          have hl : pre.length + 1 = (pre ++ [a]).length := by simp
          rw [hl] at h
          obtain ⟨es, hblk, hlen, hpos, hall⟩ := ih _ _ _ _ _ _ _ _ h
          refine ⟨assignmentStatement a.line w.sym (deCopyExpression val) :: es, by simp [hblk], by simp [hlen],
            by simp [hpos]; omega, ?_⟩
          intro e he
          rcases List.mem_cons.mp he with rfl | he
          · exact ⟨rfl, rfl, rfl⟩
          · exact hall e he
      · split at h
        · simp at h
        · rename_i block1 statement1 hav
          obtain ⟨w, val, _, _, hb, hs⟩ := assignVariable_ok _ _ _ _ _ _ _ hav
          subst hb hs
          cases param with
          | none => simp at h
          | some p =>
            simp only at h
            have hl : pre.length + 1 = (pre ++ [a]).length := by simp
            rw [hl] at h
            obtain ⟨es, hblk, hlen, hpos, hall⟩ := ih _ _ _ _ _ _ _ _ h
            refine ⟨assignmentStatement a.line w.sym (deCopyExpression val) :: es, by simp [hblk], by simp [hlen],
              by simp [hpos]; omega, ?_⟩
            intro e he
            rcases List.mem_cons.mp he with rfl | he
            · exact ⟨rfl, rfl, rfl⟩
            · exact hall e he

/-- A finite sequence of defined values is the image of a list. -/
theorem exists_list_of_forall_some {α : Type} (f : Nat → Option α) :
    ∀ n, (∀ t, t < n → (f t).isSome = true) →
      ∃ es : List α, es.map some = (List.range n).map f := by
  intro n
  induction n with
  | zero => intro _; exact ⟨[], rfl⟩
  | succ n ih =>
    intro h
    obtain ⟨es, hes⟩ := ih (fun t ht => h t (by omega))
    obtain ⟨x, hx⟩ := Option.isSome_iff_exists.mp (h n (by omega))
    exact ⟨es ++ [x], by simp [List.range_succ, hes, hx]⟩

/-- When every formal beyond the arguments has a default value, all planned
assignments exist. -/
theorem exists_plannedAssignments (line : deLine) (iteratorBlock : deBlock)
    (parameters : deExpression) (off : Nat)
    (hdef : ((iteratorBlock.vars.take (deBlockCountParameterVariables iteratorBlock)).drop
      (parameters.children.length + off)).all
        (fun v => v.initializerExpression.isSome) = true) :
    ∃ es : List deStatement, es.map some =
      (List.range (deBlockCountParameterVariables iteratorBlock - off)).map
        (fun t => plannedAssignment line iteratorBlock parameters off
          (deBlockCountParameterVariables iteratorBlock - 1 - t)) := by
  apply exists_list_of_forall_some
  intro t ht
  have hle := deBlockCountParameterVariables_le iteratorBlock
  have hj : deBlockCountParameterVariables iteratorBlock - 1 - t < iteratorBlock.vars.length := by
    omega
  unfold plannedAssignment
  rw [List.get?_eq_getElem?, List.getElem?_eq_getElem hj]
  simp only
  by_cases hlt : deBlockCountParameterVariables iteratorBlock - 1 - t
      < parameters.children.length + off
  · rw [if_pos hlt]
    have : deBlockCountParameterVariables iteratorBlock - 1 - t - off
        < parameters.children.length := by omega
    rw [List.get?_eq_getElem?, List.getElem?_eq_getElem this]
    rfl
  · rw [if_neg hlt]
    rw [List.all_eq_true] at hdef
    have hmem : iteratorBlock.vars[deBlockCountParameterVariables iteratorBlock - 1 - t]
        ∈ (iteratorBlock.vars.take (deBlockCountParameterVariables iteratorBlock)).drop
          (parameters.children.length + off) := by
      rw [List.mem_iff_getElem?]
      refine ⟨deBlockCountParameterVariables iteratorBlock - 1 - t
        - (parameters.children.length + off), ?_⟩
      rw [List.getElem?_drop, List.getElem?_take]
      have : parameters.children.length + off + (deBlockCountParameterVariables iteratorBlock - 1 - t
        - (parameters.children.length + off)) = deBlockCountParameterVariables iteratorBlock - 1 - t := by omega
      rw [this, if_pos (by omega)]
      exact List.getElem?_eq_getElem hj
    have := hdef _ hmem
    simpa using this

/-- Reading a list of planned statements position by position. -/
theorem plannedAssignments_get (f : Nat → Option deStatement) (n : Nat) (es : List deStatement)
    (hes : es.map some = (List.range n).map f) :
    es.length = n ∧ ∀ t, t < n → (es.get? t) = f t := by
  have hlen : es.length = n := by
    have := congrArg List.length hes
    simpa using this
  refine ⟨hlen, ?_⟩
  intro t ht
  have := congrArg (fun l => l.get? t) hes
  simp only [List.get?_eq_getElem?, List.getElem?_map] at this
  rw [List.getElem?_range ht] at this
  rw [List.get?_eq_getElem?, List.getElem?_eq_getElem (by omega)]
  rw [List.getElem?_eq_getElem (by omega)] at this
  simpa using this

/-- The planned assignment of a formal that exists. -/
theorem plannedAssignment_of_var (line : deLine) (iteratorBlock : deBlock)
    (parameters : deExpression) (off j : Nat) (v : deVariable)
    (hv : iteratorBlock.vars.get? j = some v) :
    plannedAssignment line iteratorBlock parameters off j =
      (if j < parameters.children.length + off then parameters.children.get? (j - off)
        else v.initializerExpression).map
        (fun value => assignmentStatement line v.sym (deCopyExpression value)) := by
  unfold plannedAssignment
  rw [hv]

/-- With the arity right and defaults for the formals beyond the arguments,
`assignIteratorParameters` returns, and the statement it has put at distance
`N - j` after the anchor assigns to formal `j` the value that formal is to
receive (`N` the number of formals, `off` 1 for a method call, else 0). -/
theorem assignIteratorParameters_pointwise
    (pre post : List deStatement) (a : deStatement) (iteratorBlock : deBlock)
    (parameters : deExpression) (isMethodCall : Bool) (off : Nat)
    (hoff : off = if isMethodCall = true then 1 else 0)
    (hK : parameters.children.length + off ≤ deBlockCountParameterVariables iteratorBlock)
    (hN : deBlockCountParameterVariables iteratorBlock < 2 ^ 32)
    (hdef : ((iteratorBlock.vars.take (deBlockCountParameterVariables iteratorBlock)).drop
      (parameters.children.length + off)).all (fun v => v.initializerExpression.isSome) = true) :
    ∃ es : List deStatement,
      assignIteratorParameters (pre ++ a :: post) pre.length iteratorBlock parameters isMethodCall
        = .ok (pre ++ a :: es ++ post,
            pre.length + (deBlockCountParameterVariables iteratorBlock - off)) ∧
      es.length = deBlockCountParameterVariables iteratorBlock - off ∧
      ∀ j, off ≤ j → j < deBlockCountParameterVariables iteratorBlock →
        ∃ v value, iteratorBlock.vars.get? j = some v ∧
          boundValue iteratorBlock parameters off j = some value ∧
          es.get? (deBlockCountParameterVariables iteratorBlock - 1 - j)
            = some (assignmentStatement a.line v.sym (deCopyExpression value)) := by
  obtain ⟨es, hes⟩ := exists_plannedAssignments a.line iteratorBlock parameters off hdef
  have hrun := assignIteratorParameters_spec pre post a iteratorBlock parameters isMethodCall
    off hoff es hN hK hes
  obtain ⟨hlen, hget⟩ := plannedAssignments_get _ _ es hes
  have hle := deBlockCountParameterVariables_le iteratorBlock
  refine ⟨es, hrun, hlen, ?_⟩
  intro j hj1 hj2
  have hj3 : j < iteratorBlock.vars.length := by omega
  have h := hget (deBlockCountParameterVariables iteratorBlock - 1 - j) (by omega)
  have hidx : deBlockCountParameterVariables iteratorBlock - 1
      - (deBlockCountParameterVariables iteratorBlock - 1 - j) = j := by omega
  have hv : iteratorBlock.vars.get? j = some iteratorBlock.vars[j] := by
    rw [List.get?_eq_getElem?, List.getElem?_eq_getElem hj3]
  have hlt : deBlockCountParameterVariables iteratorBlock - 1 - j < es.length := by omega
  rw [hidx, plannedAssignment_of_var _ _ _ _ _ _ hv] at h
  have hb : boundValue iteratorBlock parameters off j
      = (if j < parameters.children.length + off then parameters.children.get? (j - off)
        else (iteratorBlock.vars[j]).initializerExpression) := by
    unfold boundValue
    rw [hv]
    rfl
  rw [← hb] at h
  cases hval : boundValue iteratorBlock parameters off j with
  | none =>
    rw [hval, List.get?_eq_getElem?, List.getElem?_eq_getElem hlt] at h
    simp at h
  | some value =>
    rw [hval] at h
    exact ⟨iteratorBlock.vars[j], value, hv, rfl, h⟩

/-- Whatever the number of arguments, a call of `assignIteratorParameters` that
returns has inserted one assignment per formal (the receiver apart) right after
the anchor, all on the anchor's line, and returns the position of the last. -/
theorem assignIteratorParameters_shape (pre post : List deStatement) (a : deStatement)
    (iteratorBlock : deBlock) (parameters : deExpression) (isMethodCall : Bool)
    (blk : List deStatement) (pos : Nat)
    (h : assignIteratorParameters (pre ++ a :: post) pre.length iteratorBlock parameters
      isMethodCall = .ok (blk, pos))
    (hm : isMethodCall = true → 0 < deBlockCountParameterVariables iteratorBlock) :
    ∃ es, blk = pre ++ a :: es ++ post ∧
      es.length = deBlockCountParameterVariables iteratorBlock
        - (if isMethodCall = true then 1 else 0) ∧
      pos = pre.length + es.length ∧
      ∀ e ∈ es, e.type = .DE_STATEMENT_ASSIGN ∧ e.line = a.line ∧ e.subBlock = none := by
  unfold assignIteratorParameters at h
  by_cases h0 : deBlockCountParameterVariables iteratorBlock = 0
  · simp only [h0, if_true, Except.ok.injEq, Prod.mk.injEq] at h
    have hf : isMethodCall = false := by
      cases isMethodCall
      · rfl
      · exact absurd (hm rfl) (by omega)
    refine ⟨[], by simp [h.1.symm], by simp [h0], by simp [h.2.symm], by simp⟩
  · simp only [if_neg h0] at h
    obtain ⟨es, hblk, hlen, hpos, hall⟩ :=
      assignIteratorParametersLoop_shape _ _ _ _ _ _ _ _ _ _ _ _ _ h
    refine ⟨es, hblk, ?_, by rw [hpos, hlen], hall⟩
    rw [hlen]
    cases isMethodCall <;> simp

/-- A block that ends its first part with the anchor and a run of statements
on the anchor's line splits at the last statement of that run. -/
theorem split_at_last (pre : List deStatement) (a : deStatement) (es : List deStatement)
    (hall : ∀ e ∈ es, e.line = a.line) :
    ∃ pre1 a1, pre ++ a :: es = pre1 ++ [a1] ∧ pre1.length = pre.length + es.length ∧
      a1.line = a.line := by
  induction es using List.reverseRecOn with
  | nil => exact ⟨pre, a, rfl, by simp, rfl⟩
  | append_singleton es e _ =>
    refine ⟨pre ++ a :: es, e, by simp, by simp, ?_⟩
    exact hall e (by simp)

/-- Whatever the number of arguments, a parameter binding that returns has
inserted one assignment per formal right after the anchor and returns the
position of the last; for a method call the last one assigns the receiver to
the first variable of the iterator block. -/
theorem bindIteratorParameters_shape (pre post : List deStatement) (a : deStatement)
    (iteratorBlock : deBlock) (iteratorAccess parameters : deExpression) (isMethodCall : Bool)
    (blk : List deStatement) (pos : Nat)
    (h : bindIteratorParameters (pre ++ a :: post) pre.length iteratorBlock iteratorAccess
      parameters isMethodCall = .ok (blk, pos))
    (hm : isMethodCall = true → 0 < deBlockCountParameterVariables iteratorBlock) :
    ∃ es, blk = pre ++ a :: es ++ post ∧
      es.length = deBlockCountParameterVariables iteratorBlock ∧
      pos = pre.length + es.length ∧
      (∀ e ∈ es, e.type = .DE_STATEMENT_ASSIGN ∧ e.line = a.line ∧ e.subBlock = none) ∧
      (isMethodCall = true → ∃ es0 self receiver,
        iteratorBlock.vars.head? = some self ∧ iteratorAccess.children.head? = some receiver ∧
        es = es0 ++ [assignmentStatement a.line self.sym (deCopyExpression receiver)]) := by
  unfold bindIteratorParameters at h
  split at h
  · simp at h
  · rename_i block1 lastAssignState hrun
    obtain ⟨es, hblk, hlen, hpos, hall⟩ :=
      assignIteratorParameters_shape _ _ _ _ _ _ _ _ hrun hm
    cases isMethodCall with
    | false =>
      simp only [Bool.false_eq_true, if_false, Except.ok.injEq, Prod.mk.injEq] at h
      obtain ⟨h1, h2⟩ := h
      subst h1 h2
      exact ⟨es, hblk, by simpa using hlen, hpos, hall, by simp⟩
    | true =>
      simp only [if_true] at h
      obtain ⟨pre1, a1, hsplit, hlen1, hline1⟩ := split_at_last pre a es (fun e he => (hall e he).2.1)
      have hb1 : block1 = pre1 ++ a1 :: post := by
        rw [hblk]
        have : pre ++ a :: es ++ post = (pre ++ a :: es) ++ post := by simp
        rw [this, hsplit]
        simp
      rw [hb1, hpos, ← hlen1] at h
      obtain ⟨v, val, hv, hval, hb, hp⟩ := assignVariable_ok _ _ _ _ _ _ _ h
      have hN := hm rfl
      simp only [if_true] at hlen
      refine ⟨es ++ [assignmentStatement a.line v.sym (deCopyExpression val)], ?_, ?_, ?_, ?_, ?_⟩
      · rw [hb, ← hsplit, hline1]
        simp
      · simp [hlen]; omega
      · rw [hp, hlen1]; simp; omega
      · intro e he
        rcases List.mem_append.mp he with he | he
        · exact hall e he
        · have : e = assignmentStatement a.line v.sym (deCopyExpression val) := by simpa using he
          subst this
          exact ⟨rfl, rfl, rfl⟩
      · intro _
        exact ⟨es, v, val, hv, hval, rfl⟩

/-- A block with a parameter has a first variable. -/
theorem exists_first_variable (iteratorBlock : deBlock)
    (hN : 0 < deBlockCountParameterVariables iteratorBlock) :
    ∃ self, iteratorBlock.vars.head? = some self := by
  have hle := deBlockCountParameterVariables_le iteratorBlock
  cases hv : iteratorBlock.vars with
  | nil => rw [hv] at hle; simp at hle; omega
  | cons v rest => exact ⟨v, rfl⟩

/-- For a method call with the arity right, the parameter binding returns: the
formals after the first get their arguments or defaults, and the first formal
gets the receiver, in the last assignment. -/
theorem bindIteratorParameters_method_pointwise
    (pre post : List deStatement) (a : deStatement) (iteratorBlock : deBlock)
    (iteratorAccess parameters receiver : deExpression)
    (hK : parameters.children.length + 1 ≤ deBlockCountParameterVariables iteratorBlock)
    (hN : deBlockCountParameterVariables iteratorBlock < 2 ^ 32)
    (hdef : ((iteratorBlock.vars.take (deBlockCountParameterVariables iteratorBlock)).drop
      (parameters.children.length + 1)).all (fun v => v.initializerExpression.isSome) = true)
    (hrecv : iteratorAccess.children.head? = some receiver) :
    ∃ (es : List deStatement) (self : deVariable),
      iteratorBlock.vars.head? = some self ∧
      bindIteratorParameters (pre ++ a :: post) pre.length iteratorBlock iteratorAccess
          parameters true
        = .ok (pre ++ a :: es
            ++ assignmentStatement a.line self.sym (deCopyExpression receiver) :: post,
            pre.length + deBlockCountParameterVariables iteratorBlock) ∧
      es.length = deBlockCountParameterVariables iteratorBlock - 1 ∧
      ∀ j, 1 ≤ j → j < deBlockCountParameterVariables iteratorBlock →
        ∃ v value, iteratorBlock.vars.get? j = some v ∧
          boundValue iteratorBlock parameters 1 j = some value ∧
          es.get? (deBlockCountParameterVariables iteratorBlock - 1 - j)
            = some (assignmentStatement a.line v.sym (deCopyExpression value)) := by
  obtain ⟨es, hrun, hlen, hpt⟩ := assignIteratorParameters_pointwise pre post a iteratorBlock
    parameters true 1 rfl hK hN hdef
  obtain ⟨self, hself⟩ := exists_first_variable iteratorBlock (by omega)
  obtain ⟨es1, hblk, _, _, hall⟩ :=
    assignIteratorParameters_shape _ _ _ _ _ _ _ _ hrun (fun _ => by omega)
  have hes : es = es1 := by
    have h1 : pre ++ (a :: es ++ post) = pre ++ (a :: es1 ++ post) := by simpa using hblk
    have h2 := List.append_cancel_left h1
    simp only [List.cons_append, List.cons.injEq, true_and] at h2
    exact List.append_cancel_right h2
  subst hes
  obtain ⟨pre1, a1, hsplit, hlen1, hline1⟩ := split_at_last pre a es (fun e he => (hall e he).2.1)
  refine ⟨es, self, hself, ?_, hlen, hpt⟩
  unfold bindIteratorParameters
  rw [hrun]
  simp only [if_true, hself, hrecv]
  have hb1 : pre ++ a :: es ++ post = pre1 ++ a1 :: post := by
    have : pre ++ a :: es ++ post = (pre ++ a :: es) ++ post := by simp
    rw [this, hsplit]
    simp
  have hp1 : pre.length + (deBlockCountParameterVariables iteratorBlock - 1) = pre1.length := by
    rw [hlen1, hlen]
  rw [hb1, hp1, assignVariable_append, hline1]
  have hb2 : pre1 ++ [a1] = pre ++ a :: es := hsplit.symm
  rw [hb2, hlen1, hlen]
  simp only [List.append_assoc, List.cons_append, Except.ok.injEq, Prod.mk.injEq, true_and]
  omega

/-- C7, as corrected.  For a method-style iterator call whose iterator has at
least one formal: whatever the number of supplied arguments, a parameter
binding that returns has bound the iterator's first formal parameter (the
first variable of its block) to a copy of the call's receiver sub-expression, in the
last of the assignments, after the `N - 1` assignments of the other formals;
when the arity is right the binding does return and the other formals take the
arguments and defaults, so that no argument is consumed for the receiver; and
when the receiver is the only formal exactly one assignment, receiver formal =
receiver expression, is emitted. -/
theorem bindIteratorParameters_receiver_to_first_formal
    (pre post : List deStatement) (a : deStatement) (iteratorBlock : deBlock)
    (iteratorAccess parameters : deExpression)
    (hN : 0 < deBlockCountParameterVariables iteratorBlock) :
    (∀ blk pos,
      bindIteratorParameters (pre ++ a :: post) pre.length iteratorBlock iteratorAccess
          parameters true = .ok (blk, pos) →
      ∃ es self receiver,
        iteratorBlock.vars.head? = some self ∧ iteratorAccess.children.head? = some receiver ∧
        blk = pre ++ a :: es
          ++ assignmentStatement a.line self.sym (deCopyExpression receiver) :: post ∧
        es.length = deBlockCountParameterVariables iteratorBlock - 1 ∧
        pos = pre.length + deBlockCountParameterVariables iteratorBlock) ∧
    (∀ receiver, iteratorAccess.children.head? = some receiver →
      parameters.children.length + 1 ≤ deBlockCountParameterVariables iteratorBlock →
      deBlockCountParameterVariables iteratorBlock < 2 ^ 32 →
      ((iteratorBlock.vars.take (deBlockCountParameterVariables iteratorBlock)).drop
        (parameters.children.length + 1)).all (fun v => v.initializerExpression.isSome) = true →
      ∃ es self,
        iteratorBlock.vars.head? = some self ∧
        bindIteratorParameters (pre ++ a :: post) pre.length iteratorBlock iteratorAccess
            parameters true
          = .ok (pre ++ a :: es
              ++ assignmentStatement a.line self.sym (deCopyExpression receiver) :: post,
              pre.length + deBlockCountParameterVariables iteratorBlock) ∧
        es.length = deBlockCountParameterVariables iteratorBlock - 1 ∧
        ∀ j, 1 ≤ j → j < deBlockCountParameterVariables iteratorBlock →
          ∃ v value, iteratorBlock.vars.get? j = some v ∧
            boundValue iteratorBlock parameters 1 j = some value ∧
            es.get? (deBlockCountParameterVariables iteratorBlock - 1 - j)
              = some (assignmentStatement a.line v.sym (deCopyExpression value))) ∧
    (deBlockCountParameterVariables iteratorBlock = 1 →
      ∀ receiver, iteratorAccess.children.head? = some receiver →
      ∃ self, iteratorBlock.vars.head? = some self ∧
        bindIteratorParameters (pre ++ a :: post) pre.length iteratorBlock iteratorAccess
            parameters true
          = .ok (pre ++ a
              :: assignmentStatement a.line self.sym (deCopyExpression receiver) :: post,
              pre.length + 1)) := by
  refine ⟨?_, ?_, ?_⟩
  · intro blk pos h
    obtain ⟨es, hblk, hlen, hpos, _, hself⟩ :=
      bindIteratorParameters_shape _ _ _ _ _ _ _ _ _ h (fun _ => hN)
    obtain ⟨es0, self, receiver, h1, h2, h3⟩ := hself rfl
    subst h3
    refine ⟨es0, self, receiver, h1, h2, by simp [hblk], ?_, by rw [hpos, hlen]⟩
    simp at hlen
    omega
  · intro receiver hrecv hK hN2 hdef
    exact bindIteratorParameters_method_pointwise pre post a iteratorBlock iteratorAccess
      parameters receiver hK hN2 hdef hrecv
  · intro h1 receiver hrecv
    obtain ⟨self, hself⟩ := exists_first_variable iteratorBlock hN
    refine ⟨self, hself, ?_⟩
    unfold bindIteratorParameters assignIteratorParameters
    simp only [h1, Nat.one_ne_zero, if_false, if_true, Nat.sub_self, ne_eq, not_true_eq_false,
      assignIteratorParametersLoop, hself, hrecv, assignVariable_append]
    simp
/-- Witness of C7 as corrected, the example of the specification:
`iterator List.items(self)` called as `myList.items()` emits exactly one
assignment, `self = myList`. -/
theorem bindIteratorParameters_receiver_to_first_formal_witness :
    0 < deBlockCountParameterVariables itemsIteratorBlock ∧
    ∃ self, itemsIteratorBlock.vars.head? = some self ∧
      bindIteratorParameters ([] ++ rangeForeach :: []) 0 itemsIteratorBlock itemsAccess
          emptyParameters true
        = .ok ([] ++ rangeForeach
            :: assignmentStatement 1 self.sym
              (deCopyExpression (deIdentExpressionCreate "myList" 1)) :: [], 0 + 1) :=
  ⟨by decide,
    (bindIteratorParameters_receiver_to_first_formal [] [] rangeForeach itemsIteratorBlock
      itemsAccess emptyParameters (by decide)).2.2 rfl (deIdentExpressionCreate "myList" 1) rfl⟩

/-- Counterexample to C7 as stated.  For the method iterator
`List.skip(self, n)` called as `myList.skip(5)`, the last formal is `n`, and it
is bound to the argument `5`; the receiver `myList` is bound to the first
formal, `self`, by the last assignment. -/
theorem bindIteratorParameters_receiver_not_to_last_formal :
    bindIteratorParameters [rangeForeach] 0 skipIteratorBlock skipAccess skipCallParameters true
      = .ok ([rangeForeach, assignmentStatement 1 "n" (exampleLiteral "5"),
          assignmentStatement 1 "self" (deIdentExpressionCreate "myList" 1)], 2) ∧
    skipIteratorBlock.vars.getLast?.map (fun v => v.sym) = some "n" ∧
    emittedBindings [assignmentStatement 1 "n" (exampleLiteral "5"),
        assignmentStatement 1 "self" (deIdentExpressionCreate "myList" 1)]
      = [(some "n", some (exampleLiteral "5")),
          (some "self", some (deIdentExpressionCreate "myList" 1))] ∧
    skipAccess.children.head? = some (deIdentExpressionCreate "myList" 1) ∧
    exampleLiteral "5" ≠ deIdentExpressionCreate "myList" 1 := by
  refine ⟨rfl, rfl, rfl, rfl, ?_⟩
  intro h
  simp [exampleLiteral, deIdentExpressionCreate] at h

/-- C8.  For an iterator call (a method iterator having at least its receiver
formal): a parameter binding that returns has inserted exactly one assignment
statement per formal parameter, whatever the number of supplied arguments, as
one run starting immediately after the anchor, and returns the position of the
last statement it inserted; it does return when the arity is right, the formals
beyond the arguments have defaults and a method call has a receiver; and for an
iterator without formals `assignIteratorParameters` inserts nothing and returns
the anchor itself. -/
theorem bindIteratorParameters_one_assignment_per_formal
    (pre post : List deStatement) (a : deStatement) (iteratorBlock : deBlock)
    (iteratorAccess parameters : deExpression) (isMethodCall : Bool)
    (hm : isMethodCall = true → 0 < deBlockCountParameterVariables iteratorBlock) :
    (∀ blk pos,
      bindIteratorParameters (pre ++ a :: post) pre.length iteratorBlock iteratorAccess
          parameters isMethodCall = .ok (blk, pos) →
      ∃ es, blk = pre ++ a :: es ++ post ∧
        es.length = deBlockCountParameterVariables iteratorBlock ∧
        (∀ e ∈ es, e.type = .DE_STATEMENT_ASSIGN) ∧
        pos = pre.length + deBlockCountParameterVariables iteratorBlock) ∧
    (parameters.children.length + (if isMethodCall = true then 1 else 0)
        ≤ deBlockCountParameterVariables iteratorBlock →
      deBlockCountParameterVariables iteratorBlock < 2 ^ 32 →
      ((iteratorBlock.vars.take (deBlockCountParameterVariables iteratorBlock)).drop
        (parameters.children.length + (if isMethodCall = true then 1 else 0))).all
          (fun v => v.initializerExpression.isSome) = true →
      (isMethodCall = true → iteratorAccess.children.head?.isSome = true) →
      ∃ blk pos,
        bindIteratorParameters (pre ++ a :: post) pre.length iteratorBlock iteratorAccess
          parameters isMethodCall = .ok (blk, pos)) ∧
    (deBlockCountParameterVariables iteratorBlock = 0 →
      assignIteratorParameters (pre ++ a :: post) pre.length iteratorBlock parameters
        isMethodCall = .ok (pre ++ a :: post, pre.length)) := by
  refine ⟨?_, ?_, ?_⟩
  · intro blk pos h
    obtain ⟨es, hblk, hlen, hpos, hall, _⟩ :=
      bindIteratorParameters_shape _ _ _ _ _ _ _ _ _ h hm
    exact ⟨es, hblk, hlen, fun e he => (hall e he).1, by rw [hpos, hlen]⟩
  · intro hK hN hdef hrecv
    cases isMethodCall with
    | false =>
      obtain ⟨es, hrun, _, _⟩ := assignIteratorParameters_pointwise pre post a iteratorBlock
        parameters false 0 rfl hK hN hdef
      refine ⟨pre ++ a :: es ++ post,
        pre.length + (deBlockCountParameterVariables iteratorBlock - 0), ?_⟩
      unfold bindIteratorParameters
      rw [hrun]
      rfl
    | true =>
      obtain ⟨receiver, hreceiver⟩ := Option.isSome_iff_exists.mp (hrecv rfl)
      obtain ⟨es, self, _, hrun, _, _⟩ := bindIteratorParameters_method_pointwise pre post a
        iteratorBlock iteratorAccess parameters receiver hK hN hdef hreceiver
      exact ⟨_, _, hrun⟩
  · intro h0
    unfold assignIteratorParameters
    simp [h0]

/-- Witness of C8, on the method call `myList.items()`. -/
theorem bindIteratorParameters_one_assignment_per_formal_witness :
    (true = true → 0 < deBlockCountParameterVariables itemsIteratorBlock) ∧
    ∃ blk pos,
      bindIteratorParameters ([] ++ rangeForeach :: []) 0 itemsIteratorBlock
        itemsAccess emptyParameters true = .ok (blk, pos) :=
  ⟨(fun _ => by decide),
    (bindIteratorParameters_one_assignment_per_formal [] [] rangeForeach itemsIteratorBlock
      itemsAccess emptyParameters true (fun _ => by decide)).2.1
      (by decide) (by decide) (by rfl) (fun _ => rfl)⟩
/-! ## Claims on the parameter binder -/

/-- C4, as corrected.  For a non-method iterator call with `N` formals,
`K ≤ N` arguments and a default value for every formal beyond the `K`-th,
`assignIteratorParameters` returns, and the bindings it has emitted are, read
in declaration order of the formals: the first `K` formals bound to the `K`
arguments in order (argument `j` to formal `j`), the last `N - K` formals bound
to copies of their own default values. -/
theorem assignIteratorParameters_arguments_first
    (pre post : List deStatement) (a : deStatement) (iteratorBlock : deBlock)
    (parameters : deExpression)
    (hK : parameters.children.length ≤ deBlockCountParameterVariables iteratorBlock)
    (hN : deBlockCountParameterVariables iteratorBlock < 2 ^ 32)
    (hdef : ((iteratorBlock.vars.take (deBlockCountParameterVariables iteratorBlock)).drop
      parameters.children.length).all (fun v => v.initializerExpression.isSome) = true) :
    ∃ es : List deStatement,
      assignIteratorParameters (pre ++ a :: post) pre.length iteratorBlock parameters false
        = .ok (pre ++ a :: es ++ post,
            pre.length + deBlockCountParameterVariables iteratorBlock) ∧
      (emittedBindings es).reverse = argumentsFirstBindings iteratorBlock parameters := by
  obtain ⟨es, hrun, hlen, hpt⟩ := assignIteratorParameters_pointwise pre post a iteratorBlock
    parameters false 0 rfl hK hN hdef
  refine ⟨es, hrun, ?_⟩
  apply List.ext_getElem?
  intro j
  by_cases hj : j < deBlockCountParameterVariables iteratorBlock
  · obtain ⟨v, value, hv, hb, he⟩ := hpt j (Nat.zero_le _) hj
    have hlt : j < (emittedBindings es).length := by
      simp [emittedBindings, hlen]; exact hj
    rw [List.getElem?_reverse hlt]
    have hidx : (emittedBindings es).length - 1 - j
        = deBlockCountParameterVariables iteratorBlock - 1 - j := by
      simp [emittedBindings, hlen]
    rw [hidx]
    rw [List.get?_eq_getElem?] at he
    simp only [emittedBindings, argumentsFirstBindings, List.getElem?_map, he,
      List.getElem?_range hj, Option.map_some', hv, hb]
    rfl
  · rw [List.getElem?_eq_none (by simp [emittedBindings, hlen]; omega),
      List.getElem?_eq_none (by simp [argumentsFirstBindings]; omega)]

/-- Witness of C4 as corrected, on `range(3)` for
`iterator range(start, step = 1)`. -/
theorem assignIteratorParameters_arguments_first_witness :
    rangeCallParameters.children.length ≤ deBlockCountParameterVariables rangeIteratorBlock ∧
    ∃ es : List deStatement,
      assignIteratorParameters ([] ++ rangeForeach :: []) 0 rangeIteratorBlock
          rangeCallParameters false
        = .ok ([] ++ rangeForeach :: es ++ [], 0 + 2) ∧
      (emittedBindings es).reverse = argumentsFirstBindings rangeIteratorBlock rangeCallParameters :=
  ⟨by decide,
    assignIteratorParameters_arguments_first [] [] rangeForeach
      rangeIteratorBlock rangeCallParameters (by decide) (by decide) (by rfl)⟩

/-- Counterexample to C4 as stated.  For formals `(start, step = 1)` and the
one argument `3` (`N = 2`, `K = 1`), the code binds `start` to `3` and `step` to
its default `1`, whereas the binding of the claim gives the first `N - K = 1`
formal, `start`, its own default (it has none) and gives the argument `3` to
the last formal, `step`. -/
theorem assignIteratorParameters_not_defaults_first :
    assignIteratorParameters [rangeForeach] 0 rangeIteratorBlock rangeCallParameters false
      = .ok ([rangeForeach, assignmentStatement 1 "step" (exampleLiteral "1"),
          assignmentStatement 1 "start" (exampleLiteral "3")], 2) ∧
    emittedBindings [assignmentStatement 1 "start" (exampleLiteral "3"),
        assignmentStatement 1 "step" (exampleLiteral "1")]
      = [(some "start", some (exampleLiteral "3")), (some "step", some (exampleLiteral "1"))] ∧
    defaultsFirstBindings rangeIteratorBlock rangeCallParameters
      = [(some "start", none), (some "step", some (exampleLiteral "3"))] ∧
    [(some "start", some (exampleLiteral "3")), (some "step", some (exampleLiteral "1"))]
      ≠ defaultsFirstBindings rangeIteratorBlock rangeCallParameters := by
  refine ⟨rfl, rfl, rfl, ?_⟩
  intro h
  have h1 : defaultsFirstBindings rangeIteratorBlock rangeCallParameters
      = [(some "start", none), (some "step", some (exampleLiteral "3"))] := rfl
  rw [h1] at h
  simp at h

/-- C5.  For a non-method iterator call with `N` formals, `K ≤ N` arguments and
a default value for every formal beyond the `K`-th, `assignIteratorParameters`
returns having inserted `N` assignments after the anchor; the one for formal
`i < K` assigns a copy of argument `i` to formal `i`, and the one for each
remaining, trailing formal `j ≥ K` assigns a copy of that formal's own default
value to it. -/
theorem assignIteratorParameters_binds_leading_formals_to_arguments
    (pre post : List deStatement) (a : deStatement) (iteratorBlock : deBlock)
    (parameters : deExpression)
    (hK : parameters.children.length ≤ deBlockCountParameterVariables iteratorBlock)
    (hN : deBlockCountParameterVariables iteratorBlock < 2 ^ 32)
    (hdef : ((iteratorBlock.vars.take (deBlockCountParameterVariables iteratorBlock)).drop
      parameters.children.length).all (fun v => v.initializerExpression.isSome) = true) :
    ∃ es : List deStatement,
      assignIteratorParameters (pre ++ a :: post) pre.length iteratorBlock parameters false
        = .ok (pre ++ a :: es ++ post,
            pre.length + deBlockCountParameterVariables iteratorBlock) ∧
      es.length = deBlockCountParameterVariables iteratorBlock ∧
      (∀ i, i < parameters.children.length →
        ∃ v arg, iteratorBlock.vars.get? i = some v ∧ parameters.children.get? i = some arg ∧
          es.get? (deBlockCountParameterVariables iteratorBlock - 1 - i)
            = some (assignmentStatement a.line v.sym (deCopyExpression arg))) ∧
      (∀ j, parameters.children.length ≤ j → j < deBlockCountParameterVariables iteratorBlock →
        ∃ v d, iteratorBlock.vars.get? j = some v ∧ v.initializerExpression = some d ∧
          es.get? (deBlockCountParameterVariables iteratorBlock - 1 - j)
            = some (assignmentStatement a.line v.sym (deCopyExpression d))) := by
  obtain ⟨es, hrun, hlen, hpt⟩ := assignIteratorParameters_pointwise pre post a iteratorBlock
    parameters false 0 rfl hK hN hdef
  refine ⟨es, hrun, hlen, ?_, ?_⟩
  · intro i hi
    obtain ⟨v, value, hv, hb, he⟩ := hpt i (Nat.zero_le _) (by omega)
    refine ⟨v, value, hv, ?_, he⟩
    unfold boundValue at hb
    rw [if_pos (by omega)] at hb
    exact hb
  · intro j hj1 hj2
    obtain ⟨v, value, hv, hb, he⟩ := hpt j (Nat.zero_le _) hj2
    refine ⟨v, value, hv, ?_, he⟩
    unfold boundValue at hb
    rw [if_neg (by omega), hv] at hb
    exact hb

/-- Witness of C5, the example of the specification: for formals
`(start, step = 1)` and the single argument `3`, `start` is assigned `3` and
`step` is assigned `1`. -/
theorem assignIteratorParameters_binds_leading_formals_to_arguments_witness :
    rangeCallParameters.children.length ≤ deBlockCountParameterVariables rangeIteratorBlock ∧
    ∃ es : List deStatement,
      assignIteratorParameters ([] ++ rangeForeach :: []) 0 rangeIteratorBlock
          rangeCallParameters false
        = .ok ([] ++ rangeForeach :: es ++ [], 0 + 2) ∧
      es.length = 2 ∧
      (∀ i, i < 1 →
        ∃ v arg, rangeIteratorBlock.vars.get? i = some v ∧
          rangeCallParameters.children.get? i = some arg ∧
          es.get? (2 - 1 - i) = some (assignmentStatement 1 v.sym (deCopyExpression arg))) ∧
      (∀ j, 1 ≤ j → j < 2 →
        ∃ v d, rangeIteratorBlock.vars.get? j = some v ∧ v.initializerExpression = some d ∧
          es.get? (2 - 1 - j) = some (assignmentStatement 1 v.sym (deCopyExpression d))) :=
  ⟨by decide,
    assignIteratorParameters_binds_leading_formals_to_arguments [] [] rangeForeach
      rangeIteratorBlock rangeCallParameters (by decide) (by decide) (by rfl)⟩

/-- A run of assignments that holds, at distance `N - j` after the anchor, the
assignment of formal `j`, for the formals from `off` on, assigns the formals in
the reverse of their declaration order. -/
theorem assignmentTargets_reverse (iteratorBlock : deBlock) (off : Nat) (line : deLine)
    (es : List deStatement)
    (hlen : es.length = deBlockCountParameterVariables iteratorBlock - off)
    (hpt : ∀ j, off ≤ j → j < deBlockCountParameterVariables iteratorBlock →
      ∃ v value, iteratorBlock.vars.get? j = some v ∧
        es.get? (deBlockCountParameterVariables iteratorBlock - 1 - j)
          = some (assignmentStatement line v.sym value)) :
    es.map assignmentTarget
      = (((iteratorBlock.vars.take (deBlockCountParameterVariables iteratorBlock)).drop off).map
          (fun v => some v.sym)).reverse := by
  have hle := deBlockCountParameterVariables_le iteratorBlock
  rw [← List.reverse_inj, List.reverse_reverse]
  apply List.ext_getElem?
  intro i
  by_cases hi : i + off < deBlockCountParameterVariables iteratorBlock
  · obtain ⟨v, value, hv, he⟩ := hpt (i + off) (by omega) hi
    have hlt : i < (es.map assignmentTarget).length := by
      simp [hlen]; omega
    rw [List.getElem?_reverse hlt]
    have hidx : (es.map assignmentTarget).length - 1 - i
        = deBlockCountParameterVariables iteratorBlock - 1 - (i + off) := by
      simp [hlen]; omega
    rw [hidx]
    rw [List.get?_eq_getElem?] at he hv
    have hio : off + i = i + off := by omega
    simp only [List.getElem?_map, he, List.getElem?_drop, List.getElem?_take, hio, if_pos hi, hv,
      Option.map_some']
    rfl
  · rw [List.getElem?_eq_none (by simp [hlen]; omega),
      List.getElem?_eq_none (by simp; omega)]

/-- C6, as corrected.  For an iterator call, method call or not, with the arity
right (`off` is 1 for a method call, whose first formal is the receiver, and 0
otherwise): the assignments emitted by `assignIteratorParameters` stand in the
caller's block as one run starting immediately after the anchor, in the reverse
of the declaration order of the formals they assign, the last declared formal's
assignment first; and so do all the assignments of the parameter binding, lines
207 to 213, which for a method call are those of `assignIteratorParameters`
followed by the assignment of the receiver to the first declared formal. -/
theorem assignIteratorParameters_reverse_declaration_order
    (pre post : List deStatement) (a : deStatement) (iteratorBlock : deBlock)
    (iteratorAccess parameters : deExpression) (isMethodCall : Bool) (off : Nat)
    (hoff : off = if isMethodCall = true then 1 else 0)
    (hK : parameters.children.length + off ≤ deBlockCountParameterVariables iteratorBlock)
    (hN : deBlockCountParameterVariables iteratorBlock < 2 ^ 32)
    (hdef : ((iteratorBlock.vars.take (deBlockCountParameterVariables iteratorBlock)).drop
      (parameters.children.length + off)).all (fun v => v.initializerExpression.isSome) = true)
    (hrecv : isMethodCall = true → iteratorAccess.children.head? ≠ none) :
    ∃ es0 es : List deStatement,
      assignIteratorParameters (pre ++ a :: post) pre.length iteratorBlock parameters isMethodCall
        = .ok (pre ++ a :: es0 ++ post,
            pre.length + (deBlockCountParameterVariables iteratorBlock - off)) ∧
      es0.map assignmentTarget
        = (((iteratorBlock.vars.take (deBlockCountParameterVariables iteratorBlock)).drop
            off).map (fun v => some v.sym)).reverse ∧
      bindIteratorParameters (pre ++ a :: post) pre.length iteratorBlock iteratorAccess
          parameters isMethodCall
        = .ok (pre ++ a :: es ++ post,
            pre.length + deBlockCountParameterVariables iteratorBlock) ∧
      es.map assignmentTarget
        = ((iteratorBlock.vars.take (deBlockCountParameterVariables iteratorBlock)).map
            (fun v => some v.sym)).reverse ∧
      es.take (deBlockCountParameterVariables iteratorBlock - off) = es0 := by
  obtain ⟨es0, hrun, hlen, hpt⟩ := assignIteratorParameters_pointwise pre post a iteratorBlock
    parameters isMethodCall off hoff hK hN hdef
  have htargets := assignmentTargets_reverse iteratorBlock off a.line es0 hlen
    (fun j hj1 hj2 => by
      obtain ⟨v, value, hv, _, he⟩ := hpt j hj1 hj2
      exact ⟨v, _, hv, he⟩)
  cases isMethodCall with
  | false =>
    simp only [Bool.false_eq_true, if_false] at hoff
    subst hoff
    refine ⟨es0, es0, hrun, htargets, ?_, by simpa using htargets, ?_⟩
    · unfold bindIteratorParameters
      rw [hrun]
      simp
    · rw [← hlen, List.take_length]
  | true =>
    simp only [if_true] at hoff
    subst hoff
    obtain ⟨self, hself⟩ := exists_first_variable iteratorBlock (by omega)
    cases hr : iteratorAccess.children.head? with
    | none => exact absurd hr (hrecv rfl)
    | some receiver =>
    obtain ⟨es1, hblk, _, _, hall⟩ :=
      assignIteratorParameters_shape _ _ _ _ _ _ _ _ hrun (fun _ => by omega)
    have hes : es0 = es1 := by
      have h1 : pre ++ (a :: es0 ++ post) = pre ++ (a :: es1 ++ post) := by simpa using hblk
      have h2 := List.append_cancel_left h1
      simp only [List.cons_append, List.cons.injEq, true_and] at h2
      exact List.append_cancel_right h2
    subst hes
    obtain ⟨pre1, a1, hsplit, hlen1, hline1⟩ :=
      split_at_last pre a es0 (fun e he => (hall e he).2.1)
    have hbind : bindIteratorParameters (pre ++ a :: post) pre.length iteratorBlock
        iteratorAccess parameters true
        = .ok (pre ++ a :: (es0
            ++ [assignmentStatement a.line self.sym (deCopyExpression receiver)]) ++ post,
            pre.length + deBlockCountParameterVariables iteratorBlock) := by
      unfold bindIteratorParameters
      rw [hrun]
      simp only [if_true, hself, hr]
      have hb1 : pre ++ a :: es0 ++ post = pre1 ++ a1 :: post := by
        have : pre ++ a :: es0 ++ post = (pre ++ a :: es0) ++ post := by simp
        rw [this, hsplit]
        simp
      have hp1 : pre.length + (deBlockCountParameterVariables iteratorBlock - 1)
          = pre1.length := by
        rw [hlen1, hlen]
      rw [hb1, hp1, assignVariable_append, hline1]
      have hb2 : pre1 ++ [a1] = pre ++ a :: es0 := hsplit.symm
      rw [hb2, hlen1, hlen]
      simp only [List.append_assoc, List.cons_append, Except.ok.injEq, Prod.mk.injEq,
        List.singleton_append, List.nil_append, true_and]
      omega
    refine ⟨es0, es0 ++ [assignmentStatement a.line self.sym (deCopyExpression receiver)],
      hrun, htargets, hbind, ?_, ?_⟩
    · rw [List.map_append, htargets]
      have hcount : 0 < deBlockCountParameterVariables iteratorBlock := by omega
      have hle := deBlockCountParameterVariables_le iteratorBlock
      cases hv : iteratorBlock.vars with
      | nil => rw [hv] at hself; simp at hself
      | cons v rest =>
        rw [hv] at hself
        simp only [List.head?_cons, Option.some.injEq] at hself
        subst hself
        obtain ⟨n, hn⟩ : ∃ n, deBlockCountParameterVariables iteratorBlock = n + 1 :=
          ⟨deBlockCountParameterVariables iteratorBlock - 1, by omega⟩
        rw [hn]
        simp only [List.take_succ_cons, List.drop_succ_cons, List.drop_zero, List.map_cons,
          List.reverse_cons, List.map_nil]
        rfl
    · rw [← hlen, List.take_left' rfl]

/-- Witness of C6 as corrected: `range(3)` for `iterator range(start, step = 1)`,
and the method call `myList.skip(5)` for `iterator List.skip(self, n)`. -/
theorem assignIteratorParameters_reverse_declaration_order_witness :
    (rangeCallParameters.children.length + 0 ≤ deBlockCountParameterVariables rangeIteratorBlock ∧
      ∃ es0 es : List deStatement,
        assignIteratorParameters ([] ++ rangeForeach :: []) 0 rangeIteratorBlock
            rangeCallParameters false
          = .ok ([] ++ rangeForeach :: es0 ++ [], 0 + (2 - 0)) ∧
        es0.map assignmentTarget = [some "step", some "start"] ∧
        bindIteratorParameters ([] ++ rangeForeach :: []) 0 rangeIteratorBlock
            (deIdentExpressionCreate "range" 1) rangeCallParameters false
          = .ok ([] ++ rangeForeach :: es ++ [], 0 + 2) ∧
        es.map assignmentTarget = [some "step", some "start"] ∧
        es.take (2 - 0) = es0) ∧
    (skipCallParameters.children.length + 1 ≤ deBlockCountParameterVariables skipIteratorBlock ∧
      ∃ es0 es : List deStatement,
        assignIteratorParameters ([] ++ rangeForeach :: []) 0 skipIteratorBlock
            skipCallParameters true
          = .ok ([] ++ rangeForeach :: es0 ++ [], 0 + (2 - 1)) ∧
        es0.map assignmentTarget = [some "n"] ∧
        bindIteratorParameters ([] ++ rangeForeach :: []) 0 skipIteratorBlock
            skipAccess skipCallParameters true
          = .ok ([] ++ rangeForeach :: es ++ [], 0 + 2) ∧
        es.map assignmentTarget = [some "n", some "self"] ∧
        es.take (2 - 1) = es0) :=
  ⟨⟨by decide,
      assignIteratorParameters_reverse_declaration_order [] [] rangeForeach
        rangeIteratorBlock (deIdentExpressionCreate "range" 1)
        rangeCallParameters false 0 rfl (by decide) (by decide) (by rfl)
        (by intro h; simp at h)⟩,
    ⟨by decide,
      assignIteratorParameters_reverse_declaration_order [] [] rangeForeach
        skipIteratorBlock skipAccess skipCallParameters true 1 rfl
        (by decide) (by decide) (by rfl)
        (by intro _ h; simp [skipAccess, deExpression.children] at h)⟩⟩

/-- Counterexample to C6 as stated.  For formals `(start, step = 1)` called
with the one argument `3`, the block reads `step = 1` and then `start = 3`:
the targets of the emitted assignments are not in the declaration order of the
formals. -/
theorem assignIteratorParameters_not_declaration_order :
    assignIteratorParameters [rangeForeach] 0 rangeIteratorBlock rangeCallParameters false
      = .ok ([rangeForeach, assignmentStatement 1 "step" (exampleLiteral "1"),
          assignmentStatement 1 "start" (exampleLiteral "3")], 2) ∧
    [assignmentStatement 1 "step" (exampleLiteral "1"),
        assignmentStatement 1 "start" (exampleLiteral "3")].map assignmentTarget
      = [some "step", some "start"] ∧
    rangeIteratorBlock.vars.map (fun v => some v.sym) = [some "start", some "step"] ∧
    [some "step", some "start"] ≠ rangeIteratorBlock.vars.map (fun v => some v.sym) := by
  refine ⟨rfl, rfl, rfl, ?_⟩
  decide

/-! ## Yield locator -/

/-- The loop of `findYieldStatement` is the loop of `findStatementYieldStatement`
for an instantiated statement. -/
theorem findYieldStatementLoop_eq (range : List deStatement) :
    ∀ (index : Nat) (firstYieldStatement : Option (List Nat × deStatement)),
      findYieldStatementLoop range index firstYieldStatement
        = findSubBlockYieldStatement true range index firstYieldStatement := by
  induction range with
  | nil => intro index first; simp [findYieldStatementLoop, findSubBlockYieldStatement]
  | cons s rest ih =>
    intro index first
    simp only [findYieldStatementLoop, findSubBlockYieldStatement]
    cases findStatementYieldStatement s with
    | error e => rfl
    | ok r =>
      cases r with
      | none => exact ih _ _
      | some found =>
        obtain ⟨path, y⟩ := found
        cases first with
        | some _ => simp
        | none => simp; exact ih _ _

mutual
/-- What `findStatementYieldStatement` returns is the list of the reachable
yields of the statement, which therefore has at most one element. -/
theorem findStatementYieldStatement_reachable :
    ∀ (s : deStatement), yieldsAreLeavesStatement s = true →
      ∀ r, findStatementYieldStatement s = .ok r → reachableYieldsStatement s = r.toList
  | .mk type instantiated line expression subBlock, hleaf, r, h => by
    unfold findStatementYieldStatement at h
    unfold reachableYieldsStatement
    unfold yieldsAreLeavesStatement at hleaf
    by_cases hy : type = .DE_STATEMENT_YIELD ∧ instantiated = true
    · rw [if_pos hy] at h
      rw [if_pos hy, if_pos hy.2]
      cases subBlock with
      | none =>
        simp only [Except.ok.injEq] at h
        subst h
        rfl
      | some subStatements =>
        simp [hy.1] at hleaf
    · rw [if_neg hy] at h
      rw [if_neg hy]
      cases subBlock with
      | none =>
        simp only [Except.ok.injEq] at h
        subst h
        simp
      | some subStatements =>
        simp only [Bool.and_eq_true] at hleaf
        have hsub := findSubBlockYieldStatement_reachable subStatements hleaf.2
          instantiated 0 none r h
        cases instantiated with
        | true => simpa using hsub.1 rfl
        | false =>
          have := hsub.2 rfl
          subst this
          simp
/-- What the loop over a sub-block returns: for an instantiated owner, the
yield held so far followed by the reachable yields of the statements looped
over; for a non-instantiated owner, the yield held so far. -/
theorem findSubBlockYieldStatement_reachable :
    ∀ (ss : List deStatement), yieldsAreLeavesBlock ss = true →
      ∀ (instantiated : Bool) (index : Nat) (first r : Option (List Nat × deStatement)),
        findSubBlockYieldStatement instantiated ss index first = .ok r →
        (instantiated = true → first.toList ++ reachableYieldsBlock ss index = r.toList) ∧
        (instantiated = false → r = first)
  | [], _, instantiated, index, first, r, h => by
    simp only [findSubBlockYieldStatement, Except.ok.injEq] at h
    subst h
    simp [reachableYieldsBlock]
  | s :: rest, hleaf, instantiated, index, first, r, h => by
    unfold yieldsAreLeavesBlock at hleaf
    simp only [Bool.and_eq_true] at hleaf
    unfold findSubBlockYieldStatement at h
    unfold reachableYieldsBlock
    cases hs : findStatementYieldStatement s with
    | error e => rw [hs] at h; simp at h
    | ok found =>
      have hreach := findStatementYieldStatement_reachable s hleaf.1 found hs
      rw [hs] at h
      cases found with
      | none =>
        simp only at h
        have ih := findSubBlockYieldStatement_reachable rest hleaf.2 instantiated (index + 1)
          first r h
        rw [hreach]
        simpa using ih
      | some py =>
        obtain ⟨path, y⟩ := py
        simp only at h
        rw [hreach]
        cases instantiated with
        | false =>
          simp only [Bool.false_eq_true, if_false] at h
          have ih := findSubBlockYieldStatement_reachable rest hleaf.2 false (index + 1)
            first r h
          exact ⟨fun hc => Bool.noConfusion hc, ih.2⟩
        | true =>
          simp only [if_true] at h
          cases first with
          | some _ => simp at h
          | none =>
            simp only at h
            have ih := findSubBlockYieldStatement_reachable rest hleaf.2 true (index + 1)
              _ r h
            refine ⟨fun _ => ?_, fun hc => Bool.noConfusion hc⟩
            simpa using ih.1 rfl
end
/-- A path into the tail of a list is the path into the list with its first
position one higher. -/
theorem statementAtPath_cons_succ (s : deStatement) (rest : List deStatement) (i : Nat)
    (q : List Nat) :
    statementAtPath ((i + 1) :: q) (s :: rest) = statementAtPath (i :: q) rest := by
  cases q with
  | nil => simp [statementAtPath]
  | cons j q => simp [statementAtPath]

mutual
/-- A reachable yield of a statement is an instantiated yield statement; its
path is empty when it is the statement itself and leads to it through the
sub-block otherwise. -/
theorem reachableYieldsStatement_at :
    ∀ (s : deStatement) (p : List Nat) (y : deStatement),
      (p, y) ∈ reachableYieldsStatement s →
      y.type = .DE_STATEMENT_YIELD ∧ y.instantiated = true ∧
        (p = [] → y = s) ∧
        (p ≠ [] → ∃ sub, s.subBlock = some sub ∧ statementAtPath p sub = some y)
  | .mk type instantiated line expression subBlock, p, y, h => by
    unfold reachableYieldsStatement at h
    rcases List.mem_append.mp h with h1 | h2
    · by_cases hy : type = .DE_STATEMENT_YIELD ∧ instantiated = true
      · rw [if_pos hy] at h1
        simp only [List.mem_singleton, Prod.mk.injEq] at h1
        obtain ⟨hp, hy2⟩ := h1
        subst hp hy2
        exact ⟨hy.1, hy.2, fun _ => rfl, fun hne => absurd rfl hne⟩
      · rw [if_neg hy] at h1
        simp at h1
    · cases instantiated with
      | false => simp at h2
      | true =>
        cases subBlock with
        | none => simp at h2
        | some sub =>
          simp only [if_true] at h2
          obtain ⟨hty, hin, i, q, hp, hat⟩ := reachableYieldsBlock_at sub 0 p y h2
          simp only [Nat.zero_add] at hp
          subst hp
          exact ⟨hty, hin, fun hc => List.noConfusion hc, fun _ => ⟨sub, rfl, hat⟩⟩
/-- A reachable yield of a statement list is an instantiated yield statement,
and its path leads to it. -/
theorem reachableYieldsBlock_at :
    ∀ (ss : List deStatement) (index : Nat) (p : List Nat) (y : deStatement),
      (p, y) ∈ reachableYieldsBlock ss index →
      y.type = .DE_STATEMENT_YIELD ∧ y.instantiated = true ∧
        ∃ i q, p = (index + i) :: q ∧ statementAtPath (i :: q) ss = some y
  | [], index, p, y, h => by simp [reachableYieldsBlock] at h
  | s :: rest, index, p, y, h => by
    unfold reachableYieldsBlock at h
    rcases List.mem_append.mp h with h1 | h2
    · obtain ⟨found, hfound, heq⟩ := List.mem_map.mp h1
      obtain ⟨q, y1⟩ := found
      simp only [Prod.mk.injEq] at heq
      obtain ⟨hp, hy⟩ := heq
      subst hp hy
      obtain ⟨hty, hin, hnil, hcons⟩ := reachableYieldsStatement_at s q y1 hfound
      refine ⟨hty, hin, 0, q, rfl, ?_⟩
      cases q with
      | nil =>
        rw [hnil rfl]
        simp [statementAtPath]
      | cons j q =>
        obtain ⟨sub, hsub, hat⟩ := hcons (by simp)
        cases s with
        | mk t i l e b =>
          simp only [deStatement.subBlock] at hsub
          subst hsub
          simpa [statementAtPath] using hat
    · obtain ⟨hty, hin, i, q, hp, hat⟩ := reachableYieldsBlock_at rest (index + 1) p y h2
      refine ⟨hty, hin, i + 1, q, by rw [hp]; congr 1; omega, ?_⟩
      rw [statementAtPath_cons_succ]
      exact hat
end

/-- On a range in which every yield statement is a leaf, a normal return of
`findYieldStatement` gives an instantiated yield statement at the returned
path, and the reachable yields of the range are exactly that one. -/
theorem findYieldStatement_ok_reachable
    (range : List deStatement) (lastStatement : Option deStatement)
    (path : List Nat) (y : deStatement)
    (hleaf : yieldsAreLeavesBlock range = true)
    (h : findYieldStatement range lastStatement = .ok (path, y)) :
    statementAtPath path range = some y ∧
      y.type = .DE_STATEMENT_YIELD ∧ y.instantiated = true ∧
      reachableYields range = [(path, y)] := by
  unfold findYieldStatement at h
  rw [findYieldStatementLoop_eq] at h
  cases hloop : findSubBlockYieldStatement true range 0 none with
  | error e => rw [hloop] at h; simp at h
  | ok r =>
    rw [hloop] at h
    cases r with
    | none => simp at h
    | some found =>
      simp only [Except.ok.injEq] at h
      subst h
      have hreach := (findSubBlockYieldStatement_reachable range hleaf true 0 none _ hloop).1 rfl
      have hreach1 : reachableYields range = [(path, y)] := by
        simpa [reachableYields] using hreach
      have hmem : (path, y) ∈ reachableYieldsBlock range 0 := by
        have := hreach1
        unfold reachableYields at this
        rw [this]
        simp
      obtain ⟨hty, hin, i, q, hp, hat⟩ := reachableYieldsBlock_at range 0 path y hmem
      simp only [Nat.zero_add] at hp
      subst hp
      exact ⟨hat, hty, hin, hreach1⟩

/-! ## Switch flattener -/

/-- A successful flattening of a range that starts with a statement splits
into the flattening of the statement and that of the rest. -/
theorem flattenSwitchTypeStatements_cons_ok (s : deStatement) (rest r : List deStatement)
    (h : flattenSwitchTypeStatements (s :: rest) = .ok r) :
    ∃ r1 r2, flattenSwitchTypeStatement s = .ok r1 ∧
      flattenSwitchTypeStatements rest = .ok r2 ∧ r = r1 ++ r2 := by
  unfold flattenSwitchTypeStatements at h
  cases h1 : flattenSwitchTypeStatement s with
  | error e => rw [h1] at h; simp at h
  | ok r1 =>
    cases h2 : flattenSwitchTypeStatements rest with
    | error e => rw [h1, h2] at h; simp at h
    | ok r2 =>
      rw [h1, h2] at h
      simp only [Except.ok.injEq] at h
      exact ⟨r1, r2, rfl, rfl, h.symm⟩

/-- A statement that is no type-valued switch is left in place. -/
theorem flattenSwitchTypeStatement_of_not_switchType (s : deStatement)
    (r : List deStatement) (hs : isSwitchTypeStatement s = false)
    (h : flattenSwitchTypeStatement s = .ok r) : r = [s] := by
  cases s with
  | mk t i l e b =>
    unfold flattenSwitchTypeStatement at h
    by_cases ht : t = .DE_STATEMENT_SWITCH
    · subst ht
      simp only [ne_eq, not_true_eq_false, if_false] at h
      cases e with
      | none => simp at h
      | some ex =>
        simp only at h
        cases hty : ex.isType with
        | false =>
          rw [hty] at h
          simp only [if_true, Except.ok.injEq] at h
          exact h.symm
        | true =>
          simp [isSwitchTypeStatement, deStatement.type, deStatement.expression, hty] at hs
    · rw [if_pos ht] at h
      simp only [Except.ok.injEq] at h
      exact h.symm

/-- A type-valued switch is replaced by the flattened body of its selected
case. -/
theorem flattenSwitchTypeStatement_of_switchType (t : deStatementType) (i : Bool) (l : deLine)
    (e : Option deExpression) (b : Option (List deStatement))
    (hs : isSwitchTypeStatement (.mk t i l e b) = true) :
    flattenSwitchTypeStatement (.mk t i l e b) =
      match b with
      | none => .error .nullHandle
      | some caseStatements => flattenSelectedCase caseStatements := by
  simp only [isSwitchTypeStatement, deStatement.type, deStatement.expression,
    Bool.and_eq_true, decide_eq_true_eq, beq_iff_eq] at hs
  obtain ⟨ht, he⟩ := hs
  subst ht
  cases e with
  | none => simp at he
  | some ex =>
    simp only [Option.map_some', Option.some.injEq] at he
    cases b with
    | none => simp [flattenSwitchTypeStatement, he]
    | some caseStatements => simp [flattenSwitchTypeStatement, he]

/-- A list splits at a position it has. -/
theorem split_at_position (l : List deStatement) (i : Nat) (s : deStatement)
    (h : l.get? i = some s) : ∃ pre post, l = pre ++ s :: post ∧ pre.length = i := by
  induction l generalizing i with
  | nil => simp at h
  | cons x rest ih =>
    cases i with
    | zero =>
      simp at h
      subst h
      exact ⟨[], rest, rfl, rfl⟩
    | succ i =>
      simp only [List.get?_cons_succ] at h
      obtain ⟨pre, post, hl, hlen⟩ := ih i h
      exact ⟨x :: pre, post, by simp [hl], by simp [hlen]⟩

/-- Reading the position right after a prefix. -/
theorem get_after_front (pre post : List deStatement) (s : deStatement) :
    (pre ++ s :: post).get? pre.length = some s := by
  rw [List.get?_eq_getElem?, List.getElem?_append_right (le_refl _)]
  simp

/-- Writing the position right after a prefix. -/
theorem set_after_front (pre post : List deStatement) (s s1 : deStatement) :
    (pre ++ s :: post).set pre.length s1 = pre ++ s1 :: post := by
  induction pre with
  | nil => rfl
  | cons x pre ih => simp [ih]

/-- An update at a path of one position replaces the statement there. -/
theorem updateAtPath_single (f : deStatement → List deStatement) (pre post : List deStatement)
    (s : deStatement) :
    updateAtPath f [pre.length] (pre ++ s :: post) = some (pre ++ f s ++ post) := by
  have hlen : (pre ++ [s]).length = pre.length + 1 := by simp
  have hsplit : pre ++ s :: post = (pre ++ [s]) ++ post := by simp
  unfold updateAtPath
  rw [get_after_front]
  simp only
  rw [List.take_left, hsplit, List.drop_left' hlen]

/-- An update at a longer path is the update of the sub-block of the statement
at its first position. -/
theorem updateAtPath_cons (f : deStatement → List deStatement) (pre post : List deStatement)
    (s : deStatement) (j : Nat) (q : List Nat) :
    updateAtPath f (pre.length :: j :: q) (pre ++ s :: post) =
      match s with
      | .mk t i l e (some sub) =>
        (updateAtPath f (j :: q) sub).map (fun sub2 => pre ++ .mk t i l e (some sub2) :: post)
      | _ => none := by
  cases s with
  | mk t i l e b =>
    cases b with
    | none =>
      unfold updateAtPath
      rw [get_after_front]
    | some sub =>
      simp only
      generalize hu : updateAtPath f (j :: q) sub = u
      unfold updateAtPath
      rw [get_after_front]
      simp only
      rw [hu]
      cases u with
      | none => rfl
      | some sub2 => simp only [Option.map_some', set_after_front]

/-- Updating twice at the same path, the first time putting one statement in
place, is updating once. -/
theorem updateAtPath_twice (a : deStatement) (g : deStatement → List deStatement) :
    ∀ (path : List Nat) (range range1 : List deStatement),
      updateAtPath (fun _ => [a]) path range = some range1 →
      updateAtPath g path range1 = updateAtPath (fun _ => g a) path range := by
  intro path
  induction path with
  | nil => intro range range1 h; simp [updateAtPath] at h
  | cons i q ih =>
    intro range range1 h
    cases hget : range.get? i with
    | none =>
      cases q with
      | nil => unfold updateAtPath at h; rw [hget] at h; simp at h
      | cons j q => unfold updateAtPath at h; rw [hget] at h; simp at h
    | some s =>
      obtain ⟨pre, post, hl, hlen⟩ := split_at_position range i s hget
      subst hl hlen
      cases q with
      | nil =>
        rw [updateAtPath_single] at h
        simp only [Option.some.injEq] at h
        subst h
        rw [updateAtPath_single]
        have : pre ++ [a] ++ post = pre ++ a :: post := by simp
        rw [this, updateAtPath_single]
      | cons j q =>
        rw [updateAtPath_cons] at h
        rw [updateAtPath_cons]
        cases s with
        | mk t i l e b =>
          cases b with
          | none => simp at h
          | some sub =>
            simp only at h
            cases hsub : updateAtPath (fun _ => [a]) (j :: q) sub with
            | none => rw [hsub] at h; simp at h
            | some sub1 =>
              rw [hsub] at h
              simp only [Option.map_some', Option.some.injEq] at h
              subst h
              rw [updateAtPath_cons]
              simp only
              rw [ih sub sub1 hsub]

/-- Reading through a handle succeeds exactly on a non-null handle. -/
theorem deref_ok {α : Type} (o : Option α) (a : α) (h : deref o = .ok a) : o = some a := by
  cases o with
  | none => simp [deref] at h
  | some b =>
    simp only [deref, Except.ok.injEq] at h
    rw [h]

/-- Queueing statements leaves the function arena and the flag alone. -/
theorem queueStatements_functions (range : List deStatement) :
    ∀ st : deState, (queueStatements st range).functions = st.functions ∧
      (queueStatements st range).deInIterator = st.deInIterator := by
  induction range with
  | nil => intro st; exact ⟨rfl, rfl⟩
  | cons s rest ih =>
    intro st
    have := ih (deQueueStatement st s)
    simp only [queueStatements, List.foldl_cons] at this ⊢
    exact this

/-- What a normal return of `deInlineIterator` went through: the foreach and
its expression pair, the iterator the call resolves to, the parameter binding,
the copy of the iterator body, the splice of the loop body; and what it leaves:
the block, the function arena and the `deInIterator` flag. -/
theorem deInlineIterator_ok_inv (ext : deExternals) (st : deState) (scopeBlock : deBlock)
    (block : List deStatement) (statement : Nat)
    (st1 : deState) (block1 : List deStatement) (resume : Option Nat)
    (h : deInlineIterator ext st scopeBlock block statement = .ok (st1, block1, resume)) :
    ∃ (foreachStatement : deStatement) (assignment call : deExpression) (iterator : Nat)
      (iteratorFn : deFunction) (iteratorAccess parameters : deExpression)
      (blockB : List deStatement) (lastAssignState : Nat)
      (body range2 range3 : List deStatement),
      block.get? statement = some foreachStatement ∧
      checkIteratorCall (setInIterator st true) foreachStatement
        = .ok (assignment, call, iterator, iteratorFn) ∧
      call.children.head? = some iteratorAccess ∧
      call.children.get? 1 = some parameters ∧
      bindIteratorParameters block statement
          (deResolveBlockVariableNameConfligts ext iteratorFn.subBlock scopeBlock)
          iteratorAccess parameters (ext.deExpressionIsMethodCall iteratorAccess)
        = .ok (blockB, lastAssignState) ∧
      foreachStatement.subBlock = some body ∧
      spliceLoopBody
          (((deCopyBlockStatementsAfterStatement
              (deResolveBlockVariableNameConfligts ext iteratorFn.subBlock scopeBlock)
              blockB lastAssignState).drop (statement + 1)).take
            ((deCopyBlockStatementsAfterStatement
              (deResolveBlockVariableNameConfligts ext iteratorFn.subBlock scopeBlock)
              blockB lastAssignState).length - (block.length - (statement + 1))
              - (statement + 1)))
          body (block.get? (statement + 1)) assignment
        = .ok (range2, range3) ∧
      block1 = (deCopyBlockStatementsAfterStatement
            (deResolveBlockVariableNameConfligts ext iteratorFn.subBlock scopeBlock)
            blockB lastAssignState).take statement ++ range3 ++
          (deCopyBlockStatementsAfterStatement
            (deResolveBlockVariableNameConfligts ext iteratorFn.subBlock scopeBlock)
            blockB lastAssignState).drop
            ((deCopyBlockStatementsAfterStatement
              (deResolveBlockVariableNameConfligts ext iteratorFn.subBlock scopeBlock)
              blockB lastAssignState).length - (block.length - (statement + 1))) ∧
      st1.functions = (st.functions.set iterator
          ⟨iteratorFn.type,
            deResolveBlockVariableNameConfligts ext iteratorFn.subBlock scopeBlock⟩).set iterator
          ⟨iteratorFn.type, deRestoreBlockVariableNames
            (deResolveBlockVariableNameConfligts ext iteratorFn.subBlock scopeBlock)⟩ ∧
      st1.deInIterator = (if statement = 0 then true else st.deInIterator) := by
  unfold deInlineIterator at h
  simp only [bind, Except.bind, pure, Except.pure] at h
  cases h1 : deref (block.get? statement) with
  | error e => rw [h1] at h; simp at h
  | ok foreachStatement =>
  rw [h1] at h
  simp only at h
  cases h2 : checkIteratorCall (setInIterator st true) foreachStatement with
  | error e => rw [h2] at h; simp at h
  | ok checked =>
  obtain ⟨assignment, call, iterator, iteratorFn⟩ := checked
  rw [h2] at h
  simp only at h
  cases h3 : deref call.children.head? with
  | error e => rw [h3] at h; simp at h
  | ok iteratorAccess =>
  rw [h3] at h
  simp only at h
  cases h4 : deref (call.children.get? 1) with
  | error e => rw [h4] at h; simp at h
  | ok parameters =>
  rw [h4] at h
  simp only at h
  cases h5 : bindIteratorParameters block statement
      (deResolveBlockVariableNameConfligts ext iteratorFn.subBlock scopeBlock)
      iteratorAccess parameters (ext.deExpressionIsMethodCall iteratorAccess) with
  | error e => rw [h5] at h; simp at h
  | ok bound =>
  obtain ⟨blockB, lastAssignState⟩ := bound
  rw [h5] at h
  simp only at h
  cases h6 : deref foreachStatement.subBlock with
  | error e => rw [h6] at h; simp at h
  | ok body =>
  rw [h6] at h
  simp only at h
  generalize hcopy : deCopyBlockStatementsAfterStatement
      (deResolveBlockVariableNameConfligts ext iteratorFn.subBlock scopeBlock)
      blockB lastAssignState = copy at h
  cases h7 : spliceLoopBody (List.take (copy.length - (block.length - (statement + 1))
      - (statement + 1)) (List.drop (statement + 1) copy)) body (block.get? (statement + 1))
      assignment with
  | error e => rw [h7] at h; simp at h
  | ok spliced =>
  obtain ⟨range2, range3⟩ := spliced
  rw [h7] at h
  simp only at h
  refine ⟨foreachStatement, assignment, call, iterator, iteratorFn, iteratorAccess, parameters,
    blockB, lastAssignState, body, range2, range3, deref_ok _ _ h1, h2, deref_ok _ _ h3,
    deref_ok _ _ h4, h5, deref_ok _ _ h6, ?_⟩
  rw [hcopy]
  refine ⟨h7, ?_⟩
  cases hfirst : (List.drop (statement + 1) copy).head? with
  | none =>
    rw [hfirst] at h
    simp only at h
    by_cases h0 : statement = 0
    · simp only [h0, if_true, Except.ok.injEq, Prod.mk.injEq] at h
      obtain ⟨hst, hb, _⟩ := h
      subst hst hb
      simp [h0, setFunctionSubBlock, setInIterator]
    · simp only [h0, if_false, Except.ok.injEq, Prod.mk.injEq] at h
      obtain ⟨hst, hb, _⟩ := h
      subst hst hb
      simp [h0, setFunctionSubBlock, setInIterator]
  | some first0 =>
    rw [hfirst] at h
    simp only at h
    cases hhead : range2.head? with
    | none => rw [hhead] at h; simp at h
    | some first =>
      rw [hhead] at h
      simp only at h
      cases hsw : isSwitchType first with
      | error e => rw [hsw] at h; simp at h
      | ok isSwitch =>
        rw [hsw] at h
        simp only at h
        cases isSwitch with
        | true => simp at h
        | false =>
          simp only [Bool.false_eq_true, if_false] at h
          by_cases h0 : statement = 0
          · simp only [h0, if_true, Except.ok.injEq, Prod.mk.injEq] at h
            obtain ⟨hst, hb, _⟩ := h
            subst hst hb
            simp [h0, setFunctionSubBlock, setInIterator, deBindAllSignatures, queueStatements_functions]
          · simp only [h0, if_false, Except.ok.injEq, Prod.mk.injEq] at h
            obtain ⟨hst, hb, _⟩ := h
            subst hst hb
            simp [h0, setFunctionSubBlock, setInIterator, deBindAllSignatures, queueStatements_functions]
/-- Whatever the counts, a call of `assignIteratorParameters` that returns has
inserted a run of assignment statements right after the anchor and returns the
position of the last. -/
theorem assignIteratorParameters_run (pre post : List deStatement) (a : deStatement)
    (iteratorBlock : deBlock) (parameters : deExpression) (isMethodCall : Bool)
    (blk : List deStatement) (pos : Nat)
    (h : assignIteratorParameters (pre ++ a :: post) pre.length iteratorBlock parameters
      isMethodCall = .ok (blk, pos)) :
    ∃ es, blk = pre ++ a :: es ++ post ∧ pos = pre.length + es.length ∧
      ∀ e ∈ es, e.type = .DE_STATEMENT_ASSIGN ∧ e.line = a.line ∧ e.subBlock = none := by
  unfold assignIteratorParameters at h
  by_cases hz : deBlockCountParameterVariables iteratorBlock = 0
  · simp only [hz, if_true, Except.ok.injEq, Prod.mk.injEq] at h
    exact ⟨[], by simp [h.1.symm], by simp [h.2.symm], by simp⟩
  · simp only [if_neg hz] at h
    obtain ⟨es, hblk, hlen, hpos, hall⟩ :=
      assignIteratorParametersLoop_shape _ _ _ _ _ _ _ _ _ _ _ _ _ h
    exact ⟨es, hblk, by rw [hpos, hlen], hall⟩

/-- Whatever the counts, a parameter binding that returns has inserted a run of
assignment statements right after the anchor and returns the position of the
last. -/
theorem bindIteratorParameters_run (pre post : List deStatement) (a : deStatement)
    (iteratorBlock : deBlock) (iteratorAccess parameters : deExpression) (isMethodCall : Bool)
    (blk : List deStatement) (pos : Nat)
    (h : bindIteratorParameters (pre ++ a :: post) pre.length iteratorBlock iteratorAccess
      parameters isMethodCall = .ok (blk, pos)) :
    ∃ es, blk = pre ++ a :: es ++ post ∧ pos = pre.length + es.length ∧
      ∀ e ∈ es, e.type = .DE_STATEMENT_ASSIGN ∧ e.line = a.line ∧ e.subBlock = none := by
  unfold bindIteratorParameters at h
  split at h
  · simp at h
  · rename_i block1 lastAssignState hrun
    obtain ⟨es, hblk, hpos, hall⟩ := assignIteratorParameters_run _ _ _ _ _ _ _ _ hrun
    cases isMethodCall with
    | false =>
      simp only [Bool.false_eq_true, if_false, Except.ok.injEq, Prod.mk.injEq] at h
      obtain ⟨h1, h2⟩ := h
      subst h1 h2
      exact ⟨es, hblk, hpos, hall⟩
    | true =>
      simp only [if_true] at h
      obtain ⟨pre1, a1, hsplit, hlen1, hline1⟩ :=
        split_at_last pre a es (fun e he => (hall e he).2.1)
      have hb1 : block1 = pre1 ++ a1 :: post := by
        rw [hblk]
        have : pre ++ a :: es ++ post = (pre ++ a :: es) ++ post := by simp
        rw [this, hsplit]
        simp
      rw [hb1, hpos, ← hlen1] at h
      obtain ⟨v, val, hv, hval, hb, hp⟩ := assignVariable_ok _ _ _ _ _ _ _ h
      refine ⟨es ++ [assignmentStatement a.line v.sym (deCopyExpression val)], ?_, ?_, ?_⟩
      · rw [hb, ← hsplit, hline1]
        simp
      · rw [hp, hlen1]; simp; omega
      · intro e he
        rcases List.mem_append.mp he with he | he
        · exact hall e he
        · have : e = assignmentStatement a.line v.sym (deCopyExpression val) := by simpa using he
          subst this
          exact ⟨rfl, rfl, rfl⟩

/-- What a normal return of `spliceLoopBody` went through. -/
theorem spliceLoopBody_ok_inv (range body : List deStatement)
    (lastStatement : Option deStatement) (assignment : deExpression)
    (range2 range3 : List deStatement)
    (h : spliceLoopBody range body lastStatement assignment = .ok (range2, range3)) :
    ∃ path y a,
      findYieldStatement range lastStatement = .ok (path, y) ∧
      turnYieldIntLoopVarAssignment y assignment = .ok a ∧
      updateAtPath (fun _ => a :: body) path range = some range2 ∧
      flattenSwitchTypeStatements range2 = .ok range3 := by
  unfold spliceLoopBody at h
  simp only [bind, Except.bind, pure, Except.pure] at h
  cases h1 : findYieldStatement range lastStatement with
  | error e => rw [h1] at h; simp at h
  | ok found =>
  obtain ⟨path, y⟩ := found
  rw [h1] at h
  simp only at h
  cases h2 : turnYieldIntLoopVarAssignment y assignment with
  | error e => rw [h2] at h; simp at h
  | ok a =>
  rw [h2] at h
  simp only at h
  cases h3 : deref (updateAtPath (fun _ => [a]) path range) with
  | error e => rw [h3] at h; simp at h
  | ok range1 =>
  rw [h3] at h
  simp only at h
  cases h4 : deref (deMoveBlockStatementsAfterStatement body path range1) with
  | error e => rw [h4] at h; simp at h
  | ok range2a =>
  rw [h4] at h
  simp only at h
  cases h5 : flattenSwitchTypeStatements range2a with
  | error e => rw [h5] at h; simp at h
  | ok range3a =>
  rw [h5] at h
  simp only [Except.ok.injEq, Prod.mk.injEq] at h
  obtain ⟨hr2, hr3⟩ := h
  subst hr2 hr3
  refine ⟨path, y, a, rfl, h2, ?_, h5⟩
  have h3a := deref_ok _ _ h3
  have h4a := deref_ok _ _ h4
  unfold deMoveBlockStatementsAfterStatement at h4a
  rw [updateAtPath_twice a (fun s => s :: body) path range range1 h3a] at h4a
  exact h4a

/-- What a normal return of `turnYieldIntLoopVarAssignment` yields. -/
theorem turnYieldIntLoopVarAssignment_ok_inv (y : deStatement) (assignment : deExpression)
    (a : deStatement) (h : turnYieldIntLoopVarAssignment y assignment = .ok a) :
    ∃ access call rest yieldValue,
      assignment.children = access :: call :: rest ∧ y.expression = some yieldValue ∧
      a = .mk .DE_STATEMENT_ASSIGN y.instantiated y.line
        (some (assignment.setChildren (access :: rest ++ [yieldValue]))) y.subBlock := by
  unfold turnYieldIntLoopVarAssignment at h
  split at h
  · rename_i access call rest yieldValue hc he
    simp only [Except.ok.injEq] at h
    exact ⟨access, call, rest, yieldValue, hc, he, h.symm⟩
  · simp at h
/-- C2, evaluated at a failing input.  The range holds no reachable yield (its
only top-level statement is not instantiated), yet `findYieldStatement` raises
the multiple-yields error, not the no-yield error: the two instantiated yields
lie in the sub-block of an instantiated statement inside the non-instantiated
one, and the recursive call on that statement raises the error before the
caller tests the `instantiated` bit of the enclosing statement. -/
theorem findYieldStatement_multipleYields_in_skipped_branch :
    reachableYields skippedBranchRange = [] ∧
    findYieldStatement skippedBranchRange none = .error (.multipleYields 3) :=
  ⟨rfl, rfl⟩

/-- C3.  When every yield statement is a leaf (owns no sub-block) and
`findYieldStatement` returns normally on a range, the statement it returns is a
yield statement located in that range, at the returned path, that is
instantiated and all of whose enclosing statements within the range are
instantiated; and it is the only statement of the range with that property:
the reachable yields of the range are exactly that one. -/
theorem findYieldStatement_returns_the_reachable_yield
    (range : List deStatement) (lastStatement : Option deStatement)
    (path : List Nat) (y : deStatement)
    (hleaf : yieldsAreLeavesBlock range = true)
    (h : findYieldStatement range lastStatement = .ok (path, y)) :
    statementAtPath path range = some y ∧
      y.type = .DE_STATEMENT_YIELD ∧ y.instantiated = true ∧
      reachableYields range = [(path, y)] :=
  findYieldStatement_ok_reachable range lastStatement path y hleaf h

/-- Witness of C3: a range whose yields lie in the cases of a type-valued
switch, the first of which is not instantiated. -/
theorem findYieldStatement_returns_the_reachable_yield_witness :
    yieldsAreLeavesBlock switchedYieldRange = true ∧
    findYieldStatement switchedYieldRange none = .ok ([1, 1, 0], exampleYield "b") ∧
    statementAtPath [1, 1, 0] switchedYieldRange = some (exampleYield "b") ∧
    (exampleYield "b").type = .DE_STATEMENT_YIELD ∧
    (exampleYield "b").instantiated = true ∧
    reachableYields switchedYieldRange = [([1, 1, 0], exampleYield "b")] :=
  ⟨rfl, rfl,
    findYieldStatement_returns_the_reachable_yield switchedYieldRange none [1, 1, 0]
      (exampleYield "b") rfl rfl⟩

/-! ## The not-an-iterator error -/

/-- No not-an-iterator error is raised by `assignVariable`. -/
theorem assignVariable_error (block : List deStatement) (statement : Nat)
    (var : Option deVariable) (value : Option deExpression) (e : deError)
    (h : assignVariable block statement var value = .error e) : e.isNotIterator = false := by
  unfold assignVariable at h
  split at h
  · simp at h
  · simp only [Except.error.injEq] at h
    subst h
    rfl

/-- The loop of `assignIteratorParameters` raises no not-an-iterator error. -/
theorem assignIteratorParametersLoop_error (iteratorBlock : deBlock) (parameters : deExpression)
    (numParamVars numParamExprs : Nat) :
    ∀ (n i : Nat) (block : List deStatement) (statement : Nat) (var param : Option Nat)
      (e : deError),
      assignIteratorParametersLoop iteratorBlock parameters numParamVars numParamExprs
        n i block statement var param = .error e → e.isNotIterator = false := by
  intro n
  induction n with
  | zero => intro i block statement var param e h; simp [assignIteratorParametersLoop] at h
  | succ n ih =>
    intro i block statement var param e h
    unfold assignIteratorParametersLoop at h
    cases var with
    | none =>
      simp only [Except.error.injEq] at h
      subst h
      rfl
    | some v =>
      simp only at h
      split at h
      · split at h
        · rename_i e1 hav
          simp only [Except.error.injEq] at h
          subst h
          exact assignVariable_error _ _ _ _ _ hav
        · exact ih _ _ _ _ _ _ h
      · split at h
        · rename_i e1 hav
          simp only [Except.error.injEq] at h
          subst h
          exact assignVariable_error _ _ _ _ _ hav
        · cases param with
          | none =>
            simp only [Except.error.injEq] at h
            subst h
            rfl
          | some p => exact ih _ _ _ _ _ _ h

/-- The parameter binding raises no not-an-iterator error. -/
theorem bindIteratorParameters_error (block : List deStatement) (statement : Nat)
    (iteratorBlock : deBlock) (iteratorAccess parameters : deExpression) (isMethodCall : Bool)
    (e : deError)
    (h : bindIteratorParameters block statement iteratorBlock iteratorAccess parameters
      isMethodCall = .error e) : e.isNotIterator = false := by
  unfold bindIteratorParameters at h
  split at h
  · rename_i e1 hrun
    simp only [Except.error.injEq] at h
    subst h
    unfold assignIteratorParameters at hrun
    by_cases hz : deBlockCountParameterVariables iteratorBlock = 0
    · simp [hz] at hrun
    · simp only [if_neg hz] at hrun
      exact assignIteratorParametersLoop_error _ _ _ _ _ _ _ _ _ _ _ hrun
  · split at h
    · exact assignVariable_error _ _ _ _ _ h
    · simp at h

mutual
/-- No not-an-iterator error is raised by `findStatementYieldStatement`. -/
theorem findStatementYieldStatement_error :
    ∀ (s : deStatement) (e : deError),
      findStatementYieldStatement s = .error e → e.isNotIterator = false
  | .mk type instantiated line expression subBlock, e, h => by
    unfold findStatementYieldStatement at h
    split at h
    · simp at h
    · cases subBlock with
      | none => simp at h
      | some sub => exact findSubBlockYieldStatement_error sub instantiated 0 none e h
/-- The loop of `findStatementYieldStatement` raises no not-an-iterator
error. -/
theorem findSubBlockYieldStatement_error :
    ∀ (ss : List deStatement) (instantiated : Bool) (index : Nat)
      (first : Option (List Nat × deStatement)) (e : deError),
      findSubBlockYieldStatement instantiated ss index first = .error e →
      e.isNotIterator = false
  | [], instantiated, index, first, e, h => by
    simp [findSubBlockYieldStatement] at h
  | s :: rest, instantiated, index, first, e, h => by
    unfold findSubBlockYieldStatement at h
    cases hs : findStatementYieldStatement s with
    | error e1 =>
      rw [hs] at h
      simp only [Except.error.injEq] at h
      subst h
      exact findStatementYieldStatement_error s e1 hs
    | ok found =>
      rw [hs] at h
      cases found with
      | none => exact findSubBlockYieldStatement_error rest _ _ _ e h
      | some py =>
        obtain ⟨path, y⟩ := py
        simp only at h
        split at h
        · cases first with
          | some _ =>
            simp only [Except.error.injEq] at h
            subst h
            rfl
          | none => exact findSubBlockYieldStatement_error rest _ _ _ e h
        · exact findSubBlockYieldStatement_error rest _ _ _ e h
end

/-- No not-an-iterator error is raised by `findYieldStatement`. -/
theorem findYieldStatement_error (range : List deStatement)
    (lastStatement : Option deStatement) (e : deError)
    (h : findYieldStatement range lastStatement = .error e) : e.isNotIterator = false := by
  unfold findYieldStatement at h
  rw [findYieldStatementLoop_eq] at h
  cases hloop : findSubBlockYieldStatement true range 0 none with
  | error e1 =>
    rw [hloop] at h
    simp only [Except.error.injEq] at h
    subst h
    exact findSubBlockYieldStatement_error _ _ _ _ _ hloop
  | ok r =>
    rw [hloop] at h
    cases r with
    | none =>
      simp only [Except.error.injEq] at h
      subst h
      rfl
    | some found => simp at h

mutual
/-- No not-an-iterator error is raised by `flattenSwitchTypeStatement`. -/
theorem flattenSwitchTypeStatement_error :
    ∀ (s : deStatement) (e : deError),
      flattenSwitchTypeStatement s = .error e → e.isNotIterator = false
  | .mk type instantiated line expression subBlock, e, h => by
    unfold flattenSwitchTypeStatement at h
    split at h
    · simp at h
    · cases expression with
      | none =>
        simp only [Except.error.injEq] at h
        subst h
        rfl
      | some ex =>
        simp only at h
        split at h
        · simp at h
        · cases subBlock with
          | none =>
            simp only [Except.error.injEq] at h
            subst h
            rfl
          | some cases => exact flattenSelectedCase_error cases e h
/-- The selection of the case raises no not-an-iterator error. -/
theorem flattenSelectedCase_error :
    ∀ (cases : List deStatement) (e : deError),
      flattenSelectedCase cases = .error e → e.isNotIterator = false
  | [], e, h => by
    simp only [flattenSelectedCase, Except.error.injEq] at h
    subst h
    rfl
  | .mk type instantiated line expression subBlock :: rest, e, h => by
    unfold flattenSelectedCase at h
    split at h
    · cases subBlock with
      | none =>
        simp only [Except.error.injEq] at h
        subst h
        rfl
      | some body => exact flattenSwitchTypeStatements_error body e h
    · exact flattenSelectedCase_error rest e h
/-- No not-an-iterator error is raised by `flattenSwitchTypeStatements`. -/
theorem flattenSwitchTypeStatements_error :
    ∀ (l : List deStatement) (e : deError),
      flattenSwitchTypeStatements l = .error e → e.isNotIterator = false
  | [], e, h => by simp [flattenSwitchTypeStatements] at h
  | s :: rest, e, h => by
    unfold flattenSwitchTypeStatements at h
    cases hs : flattenSwitchTypeStatement s with
    | error e1 =>
      rw [hs] at h
      simp only [Except.error.injEq] at h
      subst h
      exact flattenSwitchTypeStatement_error s e1 hs
    | ok r =>
      rw [hs] at h
      simp only at h
      cases hr : flattenSwitchTypeStatements rest with
      | error e1 =>
        rw [hr] at h
        simp only [Except.error.injEq] at h
        subst h
        exact flattenSwitchTypeStatements_error rest e1 hr
      | ok r2 => rw [hr] at h; simp at h
end

/-- Reading through a handle raises no not-an-iterator error. -/
theorem deref_error {α : Type} (o : Option α) (e : deError) (h : deref o = .error e) :
    e.isNotIterator = false := by
  cases o with
  | none =>
    simp only [deref, Except.error.injEq] at h
    subst h
    rfl
  | some a => simp [deref] at h

/-- No not-an-iterator error is raised by `spliceLoopBody`. -/
theorem spliceLoopBody_error (range body : List deStatement)
    (lastStatement : Option deStatement) (assignment : deExpression) (e : deError)
    (h : spliceLoopBody range body lastStatement assignment = .error e) :
    e.isNotIterator = false := by
  unfold spliceLoopBody at h
  simp only [bind, Except.bind, pure, Except.pure] at h
  cases h1 : findYieldStatement range lastStatement with
  | error e1 =>
    rw [h1] at h
    simp only [Except.error.injEq] at h
    subst h
    exact findYieldStatement_error _ _ _ h1
  | ok found =>
  obtain ⟨path, y⟩ := found
  rw [h1] at h
  simp only at h
  cases h2 : turnYieldIntLoopVarAssignment y assignment with
  | error e1 =>
    rw [h2] at h
    simp only [Except.error.injEq] at h
    subst h
    unfold turnYieldIntLoopVarAssignment at h2
    split at h2
    · simp at h2
    · simp only [Except.error.injEq] at h2
      subst h2
      rfl
  | ok a =>
  rw [h2] at h
  simp only at h
  cases h3 : deref (updateAtPath (fun _ => [a]) path range) with
  | error e1 =>
    rw [h3] at h
    simp only [Except.error.injEq] at h
    subst h
    exact deref_error _ _ h3
  | ok range1 =>
  rw [h3] at h
  simp only at h
  cases h4 : deref (deMoveBlockStatementsAfterStatement body path range1) with
  | error e1 =>
    rw [h4] at h
    simp only [Except.error.injEq] at h
    subst h
    exact deref_error _ _ h4
  | ok range2a =>
  rw [h4] at h
  simp only at h
  cases h5 : flattenSwitchTypeStatements range2a with
  | error e1 =>
    rw [h5] at h
    simp only [Except.error.injEq] at h
    subst h
    exact flattenSwitchTypeStatements_error _ _ h5
  | ok range3a => rw [h5] at h; simp at h
/-- A not-an-iterator error of `deInlineIterator` is raised by the check of the
call at its head. -/
theorem deInlineIterator_notIterator_from_check (ext : deExternals) (st : deState)
    (scopeBlock : deBlock) (block : List deStatement) (statement : Nat) (e : deError)
    (h : deInlineIterator ext st scopeBlock block statement = .error e)
    (he : e.isNotIterator = true) :
    ∃ foreachStatement, block.get? statement = some foreachStatement ∧
      checkIteratorCall (setInIterator st true) foreachStatement = .error e := by
  have hfalse : ∀ e1 : deError, e1.isNotIterator = false → e1 = e → False := by
    intro e1 h1 h2
    rw [h2, he] at h1
    cases h1
  unfold deInlineIterator at h
  simp only [bind, Except.bind, pure, Except.pure] at h
  cases h1 : deref (block.get? statement) with
  | error e1 =>
    rw [h1] at h
    simp only [Except.error.injEq] at h
    exact absurd h (fun hh => hfalse e1 (deref_error _ _ h1) hh)
  | ok foreachStatement =>
  rw [h1] at h
  simp only at h
  refine ⟨foreachStatement, deref_ok _ _ h1, ?_⟩
  cases h2 : checkIteratorCall (setInIterator st true) foreachStatement with
  | error e1 =>
    rw [h2] at h
    simp only [Except.error.injEq] at h
    rw [h]
  | ok checked =>
  exfalso
  obtain ⟨assignment, call, iterator, iteratorFn⟩ := checked
  rw [h2] at h
  simp only at h
  cases h3 : deref call.children.head? with
  | error e1 =>
    rw [h3] at h
    simp only [Except.error.injEq] at h
    exact hfalse e1 (deref_error _ _ h3) h
  | ok iteratorAccess =>
  rw [h3] at h
  simp only at h
  cases h4 : deref (call.children.get? 1) with
  | error e1 =>
    rw [h4] at h
    simp only [Except.error.injEq] at h
    exact hfalse e1 (deref_error _ _ h4) h
  | ok parameters =>
  rw [h4] at h
  simp only at h
  cases h5 : bindIteratorParameters block statement
      (deResolveBlockVariableNameConfligts ext iteratorFn.subBlock scopeBlock)
      iteratorAccess parameters (ext.deExpressionIsMethodCall iteratorAccess) with
  | error e1 =>
    rw [h5] at h
    simp only [Except.error.injEq] at h
    exact hfalse e1 (bindIteratorParameters_error _ _ _ _ _ _ _ h5) h
  | ok bound =>
  obtain ⟨blockB, lastAssignState⟩ := bound
  rw [h5] at h
  simp only at h
  cases h6 : deref foreachStatement.subBlock with
  | error e1 =>
    rw [h6] at h
    simp only [Except.error.injEq] at h
    exact hfalse e1 (deref_error _ _ h6) h
  | ok body =>
  rw [h6] at h
  simp only at h
  generalize hcopy : deCopyBlockStatementsAfterStatement
      (deResolveBlockVariableNameConfligts ext iteratorFn.subBlock scopeBlock)
      blockB lastAssignState = copy at h
  cases h7 : spliceLoopBody (List.take (copy.length - (block.length - (statement + 1))
      - (statement + 1)) (List.drop (statement + 1) copy)) body (block.get? (statement + 1))
      assignment with
  | error e1 =>
    rw [h7] at h
    simp only [Except.error.injEq] at h
    exact hfalse e1 (spliceLoopBody_error _ _ _ _ _ h7) h
  | ok spliced =>
  obtain ⟨range2, range3⟩ := spliced
  rw [h7] at h
  simp only at h
  cases hfirst : (List.drop (statement + 1) copy).head? with
  | none =>
    rw [hfirst] at h
    simp only at h
    by_cases h0 : statement = 0
    · simp [h0] at h
    · simp [h0] at h
  | some first0 =>
    rw [hfirst] at h
    simp only at h
    cases hhead : range2.head? with
    | none =>
      rw [hhead] at h
      simp only [Except.error.injEq] at h
      exact hfalse deError.destroyedHandle rfl h
    | some first =>
      rw [hhead] at h
      simp only at h
      cases hsw : isSwitchType first with
      | error e1 =>
        rw [hsw] at h
        simp only [Except.error.injEq] at h
        unfold isSwitchType at hsw
        split at hsw
        · simp at hsw
        · split at hsw
          · simp only [Except.error.injEq] at hsw
            subst hsw
            exact hfalse deError.nullHandle rfl h
          · simp at hsw
      | ok isSwitch =>
        rw [hsw] at h
        simp only at h
        cases isSwitch with
        | true =>
          simp only [if_true, Except.error.injEq] at h
          exact hfalse deError.destroyedHandle rfl h
        | false =>
          simp only [Bool.false_eq_true, if_false] at h
          by_cases h0 : statement = 0
          · simp [h0] at h
          · simp [h0] at h

/-- An error of the check of the call is the error of `deInlineIterator`. -/
theorem deInlineIterator_error_of_check (ext : deExternals) (st : deState)
    (scopeBlock : deBlock) (block : List deStatement) (statement : Nat)
    (foreachStatement : deStatement) (e : deError)
    (hget : block.get? statement = some foreachStatement)
    (h : checkIteratorCall (setInIterator st true) foreachStatement = .error e) :
    deInlineIterator ext st scopeBlock block statement = .error e := by
  unfold deInlineIterator
  simp only [bind, Except.bind, pure, Except.pure, hget, deref, h]

/-- The check of the call, for a foreach whose expression has a second child:
it raises the not-an-iterator error, at the line of that child, when the child
is no call expression or the function of the resolved signature is no
iterator, and no such error otherwise. -/
theorem checkIteratorCall_notIterator_iff (st : deState) (foreachStatement : deStatement)
    (assignment call : deExpression)
    (hexpr : foreachStatement.expression = some assignment)
    (hcall : assignment.children.get? 1 = some call) (e : deError) :
    (checkIteratorCall st foreachStatement = .error e ∧ e.isNotIterator = true) ↔
      (e = .notIterator call.line ∧
        (call.type ≠ .DE_EXPR_CALL ∨
          ∃ s sig fn, call.signature = some s ∧ st.signatures.get? s = some sig ∧
            st.functions.get? sig.uniquifiedFunction = some fn ∧
            fn.type ≠ .DE_FUNC_ITERATOR)) := by
  have hhead : ∃ access, assignment.children.head? = some access := by
    cases hc : assignment.children with
    | nil => rw [hc] at hcall; simp at hcall
    | cons x rest => exact ⟨x, rfl⟩
  obtain ⟨access, hacc⟩ := hhead
  unfold checkIteratorCall
  simp only [bind, Except.bind, pure, Except.pure, hexpr, deref, hacc, hcall]
  by_cases hty : call.type = .DE_EXPR_CALL
  · simp only [hty, ne_eq, not_true_eq_false, if_false, false_or]
    cases hsig : call.signature with
    | none =>
      simp only [throw, throwThe, MonadExceptOf.throw]
      constructor
      · rintro ⟨h1, h2⟩
        simp only [Except.error.injEq] at h1
        subst h1
        cases h2
      · rintro ⟨_, s, _, _, hs, _⟩
        cases hs
    | some s =>
      simp only
      cases hsg : st.signatures.get? s with
      | none =>
        simp only [deref]
        constructor
        · rintro ⟨h1, h2⟩
          simp only [Except.error.injEq] at h1
          subst h1
          cases h2
        · rintro ⟨_, s1, sig, _, hs, hsig1, _⟩
          simp only [Option.some.injEq] at hs
          subst hs
          rw [hsg] at hsig1
          cases hsig1
      | some sig =>
        simp only [deref]
        cases hfn : st.functions.get? sig.uniquifiedFunction with
        | none =>
          simp only [deref]
          constructor
          · rintro ⟨h1, h2⟩
            simp only [Except.error.injEq] at h1
            subst h1
            cases h2
          · rintro ⟨_, s1, sig1, fn, hs, hsig1, hfn1, _⟩
            simp only [Option.some.injEq] at hs
            subst hs
            rw [hsg] at hsig1
            simp only [Option.some.injEq] at hsig1
            subst hsig1
            rw [hfn] at hfn1
            cases hfn1
        | some fn =>
          simp only [deref]
          by_cases hft : fn.type = .DE_FUNC_ITERATOR
          · simp only [hft, ne_eq, not_true_eq_false, if_false]
            constructor
            · rintro ⟨h1, _⟩
              cases h1
            · rintro ⟨_, s1, sig1, fn1, hs, hsig1, hfn1, hne⟩
              simp only [Option.some.injEq] at hs
              subst hs
              rw [hsg] at hsig1
              simp only [Option.some.injEq] at hsig1
              subst hsig1
              rw [hfn] at hfn1
              simp only [Option.some.injEq] at hfn1
              subst hfn1
              exact absurd hft hne
          · simp only [hft, ne_eq, not_false_eq_true, if_true, throw, throwThe,
              MonadExceptOf.throw]
            constructor
            · rintro ⟨h1, _⟩
              simp only [Except.error.injEq] at h1
              exact ⟨h1.symm, s, sig, fn, rfl, hsg, hfn, hft⟩
            · rintro ⟨h1, _⟩
              subst h1
              exact ⟨rfl, rfl⟩
  · simp only [hty, ne_eq, not_false_eq_true, if_true, throw, throwThe, MonadExceptOf.throw,
      true_or, and_true]
    constructor
    · rintro ⟨h1, _⟩
      simp only [Except.error.injEq] at h1
      exact h1.symm
    · intro h1
      subst h1
      exact ⟨rfl, rfl⟩
/-- C10.  For a foreach whose expression has a second child: `deInlineIterator`
fails with the not-an-iterator error ("Expecting call to iterator here") if and
only if that second child is not a call expression or the function of the
call's resolved signature is not iterator-tagged; the error carries the line of
that child; and when the child is a call whose signature resolves to an
iterator-tagged function, the check at the head of `deInlineIterator` returns
normally, so that the inlining proceeds past step 1. -/
theorem deInlineIterator_notIterator_iff (ext : deExternals) (st : deState)
    (scopeBlock : deBlock) (block : List deStatement) (statement : Nat)
    (foreachStatement : deStatement) (assignment call : deExpression)
    (hget : block.get? statement = some foreachStatement)
    (hexpr : foreachStatement.expression = some assignment)
    (hcall : assignment.children.get? 1 = some call) :
    ((∃ line, deInlineIterator ext st scopeBlock block statement
        = .error (.notIterator line)) ↔
      (call.type ≠ .DE_EXPR_CALL ∨
        ∃ s sig fn, call.signature = some s ∧ st.signatures.get? s = some sig ∧
          st.functions.get? sig.uniquifiedFunction = some fn ∧
          fn.type ≠ .DE_FUNC_ITERATOR)) ∧
    (∀ line, deInlineIterator ext st scopeBlock block statement
        = .error (.notIterator line) → line = call.line) ∧
    (∀ s sig fn, call.type = .DE_EXPR_CALL → call.signature = some s →
      st.signatures.get? s = some sig →
      st.functions.get? sig.uniquifiedFunction = some fn →
      fn.type = .DE_FUNC_ITERATOR →
      checkIteratorCall (setInIterator st true) foreachStatement
        = .ok (assignment, call, sig.uniquifiedFunction, fn)) := by
  have hiff := fun e => checkIteratorCall_notIterator_iff (setInIterator st true)
    foreachStatement assignment call hexpr hcall e
  refine ⟨⟨?_, ?_⟩, ?_, ?_⟩
  · rintro ⟨line, h⟩
    obtain ⟨fs, hfs, hcheck⟩ :=
      deInlineIterator_notIterator_from_check ext st scopeBlock block statement _ h rfl
    rw [hget] at hfs
    simp only [Option.some.injEq] at hfs
    subst hfs
    exact ((hiff _).mp ⟨hcheck, rfl⟩).2
  · intro hcond
    have := (hiff (.notIterator call.line)).mpr ⟨rfl, hcond⟩
    exact ⟨call.line,
      deInlineIterator_error_of_check ext st scopeBlock block statement _ _ hget this.1⟩
  · intro line h
    obtain ⟨fs, hfs, hcheck⟩ :=
      deInlineIterator_notIterator_from_check ext st scopeBlock block statement _ h rfl
    rw [hget] at hfs
    simp only [Option.some.injEq] at hfs
    subst hfs
    have := ((hiff _).mp ⟨hcheck, rfl⟩).1
    simp only [deError.notIterator.injEq] at this
    exact this
  · intro s sig fn hty hsig hsg hfn hft
    have hhead : ∃ access, assignment.children.head? = some access := by
      cases hc : assignment.children with
      | nil => rw [hc] at hcall; simp at hcall
      | cons x rest => exact ⟨x, rfl⟩
    obtain ⟨access, hacc⟩ := hhead
    have hsg1 : (setInIterator st true).signatures.get? s = some sig := hsg
    have hfn1 : (setInIterator st true).functions.get? sig.uniquifiedFunction = some fn := hfn
    unfold checkIteratorCall
    simp only [bind, Except.bind, pure, Except.pure, hexpr, deref, hacc, hcall, hty, hsig,
      hsg1, hfn1, hft, ne_eq, not_true_eq_false, if_false]

/-- Witness of C10: `foreach x in range(3)` where `range` resolves to a
function that is no iterator. -/
theorem deInlineIterator_notIterator_iff_witness :
    [rangeForeach].get? 0 = some rangeForeach ∧
    ∃ line, deInlineIterator exampleExternals plainFunctionState exampleScope [rangeForeach] 0
      = .error (.notIterator line) :=
  ⟨rfl,
    (deInlineIterator_notIterator_iff exampleExternals plainFunctionState exampleScope
      [rangeForeach] 0 rangeForeach
      (.mk (.DE_EXPR_OTHER 1) 1 none false none [deIdentExpressionCreate "x" 1, rangeCall])
      rangeCall rfl rfl rfl).1.mpr
      (Or.inr ⟨0, ⟨0, true⟩, ⟨.DE_FUNC_OTHER 0, rangeIteratorBlock⟩, rfl, rfl, rfl,
        by decide⟩)⟩

/-! ## The iterator template -/

/-- Restoring the name of a variable that was renamed for a conflict, and had
no saved name before, gives the variable back. -/
theorem restoreVariableName_rename (ext : deExternals) (oldBlock : deBlock) (v : deVariable)
    (hv : v.savedName = none) :
    restoreVariableName (renameConflictingVariable ext oldBlock v) = v := by
  cases v with
  | mk sym isParameter init saved =>
    simp only at hv
    subst hv
    unfold renameConflictingVariable
    split
    · rfl
    · rfl

/-- The restore undoes the rename on a block without pending saved names. -/
theorem deRestoreBlockVariableNames_resolve (ext : deExternals) (newBlock oldBlock : deBlock)
    (hsaved : ∀ v ∈ newBlock.vars, v.savedName = none) :
    deRestoreBlockVariableNames (deResolveBlockVariableNameConfligts ext newBlock oldBlock)
      = newBlock := by
  cases newBlock with
  | mk vars statements =>
    simp only [deRestoreBlockVariableNames, deResolveBlockVariableNameConfligts, List.map_map,
      deBlock.mk.injEq, and_true]
    simp only at hsaved
    calc vars.map (restoreVariableName ∘ renameConflictingVariable ext oldBlock)
        = vars.map id := by
          apply List.map_congr_left
          intro v hv
          exact restoreVariableName_rename ext oldBlock v (hsaved v hv)
      _ = vars := List.map_id _

/-- What a normal return of the check of the call says about the arenas. -/
theorem checkIteratorCall_ok_function (st : deState) (foreachStatement : deStatement)
    (assignment call : deExpression) (iterator : Nat) (iteratorFn : deFunction)
    (h : checkIteratorCall st foreachStatement = .ok (assignment, call, iterator, iteratorFn)) :
    st.functions.get? iterator = some iteratorFn := by
  unfold checkIteratorCall at h
  simp only [bind, Except.bind, pure, Except.pure] at h
  cases h1 : deref foreachStatement.expression with
  | error e => rw [h1] at h; simp at h
  | ok a =>
  rw [h1] at h
  simp only at h
  cases h2 : deref a.children.head? with
  | error e => rw [h2] at h; simp at h
  | ok acc =>
  rw [h2] at h
  simp only at h
  cases h3 : deref (a.children.get? 1) with
  | error e => rw [h3] at h; simp at h
  | ok c =>
  rw [h3] at h
  simp only at h
  split at h
  · simp [throw, throwThe, MonadExceptOf.throw] at h
  · cases hsig : c.signature with
    | none => rw [hsig] at h; simp [throw, throwThe, MonadExceptOf.throw] at h
    | some s =>
      rw [hsig] at h
      simp only at h
      cases h4 : deref (st.signatures.get? s) with
      | error e => rw [h4] at h; simp at h
      | ok sig =>
      rw [h4] at h
      simp only at h
      cases h5 : deref (st.functions.get? sig.uniquifiedFunction) with
      | error e => rw [h5] at h; simp at h
      | ok fn =>
      rw [h5] at h
      simp only at h
      split at h
      · simp [throw, throwThe, MonadExceptOf.throw] at h
      · simp only [Except.ok.injEq, Prod.mk.injEq] at h
        obtain ⟨_, _, hi, hf⟩ := h
        subst hi hf
        exact deref_ok _ _ h5

/-- C9.  With the scope conflict resolver modelled as a rename that saves the
original name and a restore that puts it back, and no saved name pending in
any function block before the call: every call of `deInlineIterator` that
returns normally leaves the function arena as it was; in particular the
iterator block's statement sequence, its variables' names and its parameters'
default-value expressions are the same as before the call. -/
theorem deInlineIterator_template_intact (ext : deExternals) (st : deState)
    (scopeBlock : deBlock) (block : List deStatement) (statement : Nat)
    (st1 : deState) (block1 : List deStatement) (resume : Option Nat)
    (hsaved : ∀ fn ∈ st.functions, ∀ v ∈ fn.subBlock.vars, v.savedName = none)
    (h : deInlineIterator ext st scopeBlock block statement = .ok (st1, block1, resume)) :
    st1.functions = st.functions := by
  obtain ⟨fs, assignment, call, iterator, iteratorFn, _, _, _, _, _, _, _, _, hcall, _, _, _, _,
    _, _, hfun, _⟩ := deInlineIterator_ok_inv ext st scopeBlock _ _ st1 block1 resume h
  have hfn : st.functions.get? iterator = some iteratorFn :=
    checkIteratorCall_ok_function (setInIterator st true) fs assignment call iterator
      iteratorFn hcall
  have hmem : iteratorFn ∈ st.functions := List.get?_mem hfn
  rw [hfun, List.set_set, deRestoreBlockVariableNames_resolve ext iteratorFn.subBlock scopeBlock
    (hsaved iteratorFn hmem)]
  apply List.ext_getElem?
  intro n
  rw [List.getElem?_set]
  split
  · rename_i hn
    subst hn
    rw [List.get?_eq_getElem?] at hfn
    rw [hfn]
    split
    · rfl
    · rename_i hlt
      exfalso
      have : st.functions[iterator]? = none := List.getElem?_eq_none (by omega)
      rw [hfn] at this
      cases this
  · rfl

/-- Witness of C9: `foreach x in range(3)` inlined into a scope in which the
name `step` is taken, so that the parameter `step` of the iterator is renamed
during the inlining. -/
theorem deInlineIterator_template_intact_witness :
    (∀ fn ∈ rangeState.functions, ∀ v ∈ fn.subBlock.vars, v.savedName = none) ∧
    ∃ st1 block1 resume,
      deInlineIterator exampleExternals rangeState collidingScope [rangeForeach] 0
        = .ok (st1, block1, resume) ∧
      block1.get? 0 = some (assignmentStatement 1 "step_" (exampleLiteral "1")) ∧
      st1.functions = rangeState.functions :=
  ⟨by decide, _, _, _, rfl, rfl,
    deInlineIterator_template_intact exampleExternals rangeState collidingScope
      [rangeForeach] 0 _ _ _ (by decide) rfl⟩

/-! ## The switch flattener as the source writes it -/

/-- The fused walk over the case statements is `findSelectedCase` followed by
the flattening of the body of the case found. -/
theorem flattenSelectedCase_eq_find (caseStatements : List deStatement) :
    flattenSelectedCase caseStatements =
      match caseStatements.find? (fun caseStatement => caseStatement.instantiated) with
      | none => .error .noInstantiatedCase
      | some selectedCase =>
        match selectedCase.subBlock with
        | none => .error .nullHandle
        | some body => flattenSwitchTypeStatements body := by
  induction caseStatements with
  | nil =>
    unfold flattenSelectedCase
    rfl
  | cons c rest ih =>
    cases c with
    | mk t i l e b =>
      cases i with
      | true =>
        unfold flattenSelectedCase
        simp [List.find?, deStatement.instantiated, deStatement.subBlock]
      | false =>
        have hstep : flattenSelectedCase (.mk t false l e b :: rest)
            = flattenSelectedCase rest := by
          generalize hr : flattenSelectedCase rest = r
          unfold flattenSelectedCase
          simp [hr]
        rw [hstep, ih]
        simp [List.find?, deStatement.instantiated]

/-- The embedding of `flattenSwitchTypeStatement` read as the source is
written: test for a switch-type statement, call `findSelectedCase`, take the
sub-block of the selected case, and flatten it in place of the statement. -/
theorem flattenSwitchTypeStatement_eq_source (statement : deStatement) :
    flattenSwitchTypeStatement statement =
      match isSwitchType statement with
      | .error e => .error e
      | .ok false => .ok [statement]
      | .ok true =>
        match findSelectedCase statement with
        | .error e => .error e
        | .ok selectedCase =>
          match selectedCase.subBlock with
          | none => .error .nullHandle
          | some body => flattenSwitchTypeStatements body := by
  cases statement with
  | mk t i l e b =>
    unfold flattenSwitchTypeStatement isSwitchType findSelectedCase
    by_cases ht : t = .DE_STATEMENT_SWITCH
    · subst ht
      simp only [deStatement.type, ne_eq, not_true_eq_false, if_false, deStatement.expression,
        deStatement.subBlock]
      cases e with
      | none => rfl
      | some ex =>
        simp only
        cases hty : ex.isType with
        | false => simp
        | true =>
          simp only [Bool.true_eq_false, if_false]
          cases b with
          | none => rfl
          | some caseStatements =>
            simp only
            rw [flattenSelectedCase_eq_find]
            cases caseStatements.find? (fun caseStatement => caseStatement.instantiated) with
            | none => rfl
            | some c => rfl
    · simp [deStatement.type, ht]

/-- A statement that `isSwitchType` finds not to be a type-valued switch is kept
by the flattening as the head of the result. -/
theorem flattenSwitchTypeStatements_head_kept (first : deStatement)
    (rest r : List deStatement) (hsw : isSwitchType first = .ok false)
    (h : flattenSwitchTypeStatements (first :: rest) = .ok r) :
    ∃ r2, flattenSwitchTypeStatements rest = .ok r2 ∧ r = first :: r2 := by
  obtain ⟨r1, r2, h1, h2, hr⟩ := flattenSwitchTypeStatements_cons_ok first rest r h
  rw [flattenSwitchTypeStatement_eq_source, hsw] at h1
  simp only [Except.ok.injEq] at h1
  subst h1 hr
  exact ⟨r2, h2, rfl⟩

/-- What `queueStatements` leaves in the state: the range appended to the
queue, in order; nothing is bound yet and the rest of the state is kept. -/
theorem queueStatements_queue (range : List deStatement) :
    ∀ st : deState, (queueStatements st range).bindQueue = st.bindQueue ++ range ∧
      (queueStatements st range).bound = st.bound ∧
      (queueStatements st range).signatures = st.signatures ∧
      (queueStatements st range).deCurrentSignature = st.deCurrentSignature := by
  induction range with
  | nil => intro st; simp [queueStatements]
  | cons s rest ih =>
    intro st
    have := ih (deQueueStatement st s)
    simp only [queueStatements, List.foldl_cons] at this ⊢
    obtain ⟨h1, h2, h3, h4⟩ := this
    refine ⟨?_, h2, h3, h4⟩
    rw [h1]
    simp [deQueueStatement]

/-- What a normal return of `deInlineIterator` leaves of the block
`pre ++ foreach :: post`: the statements before the foreach, a non-empty range
whose head survived the flattening, and the statements after the foreach; the
handle returned is the position of that head; the range is what was queued and
bound. -/
theorem deInlineIterator_ok_split (ext : deExternals) (st : deState) (scopeBlock : deBlock)
    (pre post : List deStatement) (foreachStatement : deStatement)
    (st1 : deState) (block1 : List deStatement) (resume : Option Nat)
    (h : deInlineIterator ext st scopeBlock (pre ++ foreachStatement :: post) pre.length
      = .ok (st1, block1, resume)) :
    ∃ (assignment call : deExpression) (iterator : Nat) (iteratorFn : deFunction)
      (body es range2 : List deStatement) (first : deStatement) (rest : List deStatement),
      checkIteratorCall (setInIterator st true) foreachStatement
        = .ok (assignment, call, iterator, iteratorFn) ∧
      foreachStatement.subBlock = some body ∧
      (∀ e ∈ es, e.type = .DE_STATEMENT_ASSIGN ∧ e.line = foreachStatement.line ∧
        e.subBlock = none) ∧
      spliceLoopBody (es ++ iteratorFn.subBlock.statements) body post.head? assignment
        = .ok (range2, first :: rest) ∧
      range2.head? = some first ∧
      isSwitchType first = .ok false ∧
      block1 = pre ++ (first :: rest) ++ post ∧
      resume = some pre.length ∧
      st1.bound = st.bound ++ (st.bindQueue ++ (first :: rest)) ∧
      st1.bindQueue = [] ∧
      st1.signatures = st.signatures ∧
      st1.deCurrentSignature = st.deCurrentSignature := by
  obtain ⟨fs, assignment, call, iterator, iteratorFn, iteratorAccess, parameters, blockB,
    lastAssignState, body, range2, range3, hget, hcall, hacc, hpar, hbind, hbody, hsplice, hblock,
    _, _⟩ := deInlineIterator_ok_inv ext st scopeBlock _ _ st1 block1 resume h
  have hget0 := hget
  rw [get_after_front] at hget
  simp only [Option.some.injEq] at hget
  subst hget
  unfold deInlineIterator at h
  simp only [bind, Except.bind, pure, Except.pure] at h
  rw [hget0] at h
  simp only [deref] at h
  rw [hcall] at h
  simp only at h
  rw [hacc] at h
  simp only at h
  rw [hpar] at h
  simp only at h
  rw [hbind] at h
  simp only at h
  rw [hbody] at h
  simp only at h
  rw [hsplice] at h
  simp only at h
  obtain ⟨es, hblkB, hpos, hall⟩ := bindIteratorParameters_run _ _ _ _ _ _ _ _ _ hbind
  subst hblkB hpos
  have hstmts : (deResolveBlockVariableNameConfligts ext iteratorFn.subBlock scopeBlock).statements
      = iteratorFn.subBlock.statements := rfl
  have hlenA : (pre ++ foreachStatement :: es).length = pre.length + es.length + 1 := by
    simp; omega
  have hcopy : deCopyBlockStatementsAfterStatement
      (deResolveBlockVariableNameConfligts ext iteratorFn.subBlock scopeBlock)
      (pre ++ foreachStatement :: es ++ post) (pre.length + es.length)
      = (pre ++ [foreachStatement]) ++ ((es ++ iteratorFn.subBlock.statements) ++ post) := by
    unfold deCopyBlockStatementsAfterStatement
    rw [hstmts, List.take_left' hlenA, List.drop_left' hlenA]
    simp
  rw [hcopy] at hsplice hblock h
  have hlenB : (pre ++ [foreachStatement]).length = pre.length + 1 := by simp
  have hcount : ((pre ++ [foreachStatement]) ++ ((es ++ iteratorFn.subBlock.statements) ++ post)).length
      - ((pre ++ foreachStatement :: post).length - (pre.length + 1)) - (pre.length + 1)
      = (es ++ iteratorFn.subBlock.statements).length := by
    simp; omega
  rw [List.drop_left' hlenB, hcount, List.take_left] at hsplice
  have htake : List.take pre.length
      ((pre ++ [foreachStatement]) ++ ((es ++ iteratorFn.subBlock.statements) ++ post)) = pre := by
    rw [List.append_assoc, List.take_left]
  have hdrop : List.drop
      (((pre ++ [foreachStatement]) ++ ((es ++ iteratorFn.subBlock.statements) ++ post)).length
        - ((pre ++ foreachStatement :: post).length - (pre.length + 1)))
      ((pre ++ [foreachStatement]) ++ ((es ++ iteratorFn.subBlock.statements) ++ post)) = post := by
    have hl : ((pre ++ [foreachStatement]) ++ (es ++ iteratorFn.subBlock.statements)).length
        = ((pre ++ [foreachStatement]) ++ ((es ++ iteratorFn.subBlock.statements) ++ post)).length
          - ((pre ++ foreachStatement :: post).length - (pre.length + 1)) := by
      simp; omega
    have hassoc : (pre ++ [foreachStatement]) ++ ((es ++ iteratorFn.subBlock.statements) ++ post)
        = ((pre ++ [foreachStatement]) ++ (es ++ iteratorFn.subBlock.statements)) ++ post := by
      simp
    rw [hassoc] at hl ⊢
    exact List.drop_left' hl
  rw [htake, hdrop] at hblock
  have hlast : (pre ++ foreachStatement :: post).get? (pre.length + 1) = post.head? := by
    have : pre ++ foreachStatement :: post = (pre ++ [foreachStatement]) ++ post := by simp
    rw [this, List.get?_eq_getElem?, List.getElem?_append_right (by simp)]
    simp [List.head?_eq_getElem?]
  rw [hlast] at hsplice
  obtain ⟨path, y, a, hfind, hturn, hupd, hflat⟩ := spliceLoopBody_ok_inv _ _ _ _ _ _ hsplice
  have hne : (List.drop (pre.length + 1)
      ((pre ++ [foreachStatement]) ++ ((es ++ iteratorFn.subBlock.statements) ++ post))).head?
      ≠ none := by
    rw [List.drop_left' hlenB]
    cases hr : es ++ iteratorFn.subBlock.statements with
    | nil =>
      rw [hr] at hfind
      simp [findYieldStatement, findYieldStatementLoop] at hfind
    | cons x xs => simp
  cases hfirst : (List.drop (pre.length + 1)
      ((pre ++ [foreachStatement]) ++ ((es ++ iteratorFn.subBlock.statements) ++ post))).head? with
  | none => exact absurd hfirst hne
  | some first0 =>
  rw [htake, hdrop, hfirst] at h
  simp only at h
  cases range2 with
  | nil => simp at h
  | cons first r2 =>
    simp only [List.head?_cons] at h
    cases hsw : isSwitchType first with
    | error e => rw [hsw] at h; simp at h
    | ok isSwitch =>
      rw [hsw] at h
      simp only at h
      cases isSwitch with
      | true => simp at h
      | false =>
        simp only [Bool.false_eq_true, if_false] at h
        obtain ⟨rest, hrest, hr3⟩ := flattenSwitchTypeStatements_head_kept first r2 range3 hsw hflat
        subst hr3
        have hq := queueStatements_queue (first :: rest)
          (setFunctionSubBlock (setInIterator st true) iterator iteratorFn
            (deResolveBlockVariableNameConfligts ext iteratorFn.subBlock scopeBlock))
        obtain ⟨hq1, hq2, hq3, hq4⟩ := hq
        refine ⟨assignment, call, iterator, iteratorFn, body, es, first :: r2, first, rest,
          hcall, hbody, hall, hsplice, rfl, hsw, hblock, ?_⟩
        simp only [setFunctionSubBlock, setInIterator] at hq1 hq2 hq3 hq4
        by_cases h0 : pre.length = 0
        · simp only [h0, if_true, Except.ok.injEq, Prod.mk.injEq] at h
          obtain ⟨hst, _, hres⟩ := h
          subst hst
          refine ⟨?_, ?_, ?_, ?_, ?_⟩
          · rw [← hres, h0]; simp
          · simp only [setFunctionSubBlock, deBindAllSignatures, setInIterator, hq1, hq2]
          · simp only [setFunctionSubBlock, deBindAllSignatures]
          · simp only [setFunctionSubBlock, deBindAllSignatures, setInIterator, hq3]
          · simp only [setFunctionSubBlock, deBindAllSignatures, setInIterator, hq4]
        · simp only [h0, if_false, Except.ok.injEq, Prod.mk.injEq] at h
          obtain ⟨hst, _, hres⟩ := h
          subst hst
          refine ⟨?_, ?_, ?_, ?_, ?_⟩
          · rw [← hres]
            have : pre.length - 1 + 1 = pre.length := by omega
            rw [this]
            simp
          · simp only [setFunctionSubBlock, deBindAllSignatures, setInIterator, hq1, hq2]
          · simp only [setFunctionSubBlock, deBindAllSignatures, setInIterator]
          · simp only [setFunctionSubBlock, deBindAllSignatures, setInIterator, hq3]
          · simp only [setFunctionSubBlock, deBindAllSignatures, setInIterator, hq4]

mutual
/-- Every statement `flattenSwitchTypeStatement` leaves is one that it keeps as
it is. -/
theorem flattenSwitchTypeStatement_kept :
    ∀ (s : deStatement) (r : List deStatement),
      flattenSwitchTypeStatement s = .ok r →
      ∀ x ∈ r, flattenSwitchTypeStatement x = .ok [x]
  | .mk type instantiated line expression subBlock, r, h => by
    by_cases hs : isSwitchTypeStatement (.mk type instantiated line expression subBlock) = true
    · rw [flattenSwitchTypeStatement_of_switchType _ _ _ _ _ hs] at h
      cases subBlock with
      | none => simp at h
      | some caseStatements => exact flattenSelectedCase_kept caseStatements r h
    · have hs0 : isSwitchTypeStatement (.mk type instantiated line expression subBlock) = false := by
        simpa using hs
      have hr := flattenSwitchTypeStatement_of_not_switchType _ r hs0 h
      subst hr
      intro x hx
      simp only [List.mem_singleton] at hx
      subst hx
      exact h
/-- Every statement left of the selected case is one the flattening keeps. -/
theorem flattenSelectedCase_kept :
    ∀ (cases r : List deStatement),
      flattenSelectedCase cases = .ok r →
      ∀ x ∈ r, flattenSwitchTypeStatement x = .ok [x]
  | [], r, h => by simp [flattenSelectedCase] at h
  | .mk type instantiated line expression subBlock :: rest, r, h => by
    unfold flattenSelectedCase at h
    split at h
    · cases subBlock with
      | none => simp at h
      | some body => exact flattenSwitchTypeStatements_kept body r h
    · exact flattenSelectedCase_kept rest r h
/-- Every statement of a flattened range is one the flattening keeps. -/
theorem flattenSwitchTypeStatements_kept :
    ∀ (l r : List deStatement),
      flattenSwitchTypeStatements l = .ok r →
      ∀ x ∈ r, flattenSwitchTypeStatement x = .ok [x]
  | [], r, h => by
    simp only [flattenSwitchTypeStatements, Except.ok.injEq] at h
    subst h
    intro x hx
    simp at hx
  | s :: rest, r, h => by
    obtain ⟨r1, r2, h1, h2, hr⟩ := flattenSwitchTypeStatements_cons_ok s rest r h
    subst hr
    intro x hx
    rcases List.mem_append.mp hx with hx1 | hx2
    · exact flattenSwitchTypeStatement_kept s r1 h1 x hx1
    · exact flattenSwitchTypeStatements_kept rest r2 h2 x hx2
end

/-- A range of statements each of which the flattening keeps is left as it is. -/
theorem flattenSwitchTypeStatements_of_kept (l : List deStatement)
    (h : ∀ x ∈ l, flattenSwitchTypeStatement x = .ok [x]) :
    flattenSwitchTypeStatements l = .ok l := by
  induction l with
  | nil => rfl
  | cons s rest ih =>
    unfold flattenSwitchTypeStatements
    rw [h s (by simp), ih (fun x hx => h x (by simp [hx]))]
    rfl

/-- C13.  Switch flattening is idempotent: when `flattenSwitchTypeStatements`
completes on a range, running it a second time, over the range it produced,
completes and produces that same range, every statement with its sub-block as
it was. -/
theorem flattenSwitchTypeStatements_idempotent (range flattened : List deStatement)
    (h : flattenSwitchTypeStatements range = .ok flattened) :
    flattenSwitchTypeStatements flattened = .ok flattened :=
  flattenSwitchTypeStatements_of_kept flattened
    (flattenSwitchTypeStatements_kept range flattened h)

/-- Witness of C13: the loop body that is one type-valued switch flattens to
the statement of its selected case, and that range flattens to itself. -/
theorem flattenSwitchTypeStatements_idempotent_witness :
    flattenSwitchTypeStatements switchLoopBody = .ok exampleLoopBody ∧
    flattenSwitchTypeStatements exampleLoopBody = .ok exampleLoopBody :=
  ⟨rfl, flattenSwitchTypeStatements_idempotent switchLoopBody exampleLoopBody rfl⟩

mutual
/-- What `flattenSwitchTypeStatement` leaves of a statement is what the
description puts in its place. -/
theorem flattenSwitchTypeStatement_flattenedAs :
    ∀ (s : deStatement) (r rest flattenedRest : List deStatement),
      flattenSwitchTypeStatement s = .ok r → FlattenedAs rest flattenedRest →
      FlattenedAs (s :: rest) (r ++ flattenedRest)
  | .mk type instantiated line expression subBlock, r, rest, flattenedRest, h, hrest => by
    by_cases hs : isSwitchTypeStatement (.mk type instantiated line expression subBlock) = true
    · rw [flattenSwitchTypeStatement_of_switchType _ _ _ _ _ hs] at h
      cases subBlock with
      | none => simp at h
      | some caseStatements =>
        obtain ⟨selectedCase, body, hfind, hbody, hflat⟩ :=
          flattenSelectedCase_flattenedAs caseStatements r h
        exact FlattenedAs.replace _ selectedCase caseStatements body r rest flattenedRest hs rfl
          hfind hbody hflat hrest
    · have hs0 : isSwitchTypeStatement (.mk type instantiated line expression subBlock) = false := by
        simpa using hs
      have hr := flattenSwitchTypeStatement_of_not_switchType _ r hs0 h
      subst hr
      refine FlattenedAs.keep _ rest flattenedRest hs0 ?_ hrest
      intro ht hex
      simp only [deStatement.type] at ht
      simp only [deStatement.expression] at hex
      subst ht hex
      simp [flattenSwitchTypeStatement] at h
/-- The case walk selects the first instantiated case, and what it leaves is the
flattened body of that case. -/
theorem flattenSelectedCase_flattenedAs :
    ∀ (cases r : List deStatement),
      flattenSelectedCase cases = .ok r →
      ∃ selectedCase body,
        cases.find? (fun caseStatement => caseStatement.instantiated) = some selectedCase ∧
        selectedCase.subBlock = some body ∧ FlattenedAs body r
  | [], r, h => by simp [flattenSelectedCase] at h
  | .mk type instantiated line expression subBlock :: rest, r, h => by
    unfold flattenSelectedCase at h
    split at h
    · rename_i hi
      cases subBlock with
      | none => simp at h
      | some body =>
        refine ⟨.mk type instantiated line expression (some body), body, ?_, rfl,
          flattenSwitchTypeStatements_flattenedAs body r h⟩
        simp [List.find?, deStatement.instantiated, hi]
    · rename_i hi
      obtain ⟨selectedCase, body, hfind, hbody, hflat⟩ := flattenSelectedCase_flattenedAs rest r h
      refine ⟨selectedCase, body, ?_, hbody, hflat⟩
      simp only [Bool.not_eq_true] at hi
      rw [List.find?_cons]
      simp only [deStatement.instantiated, hi]
      exact hfind
/-- What `flattenSwitchTypeStatements` leaves of a range is what the description
puts in its place. -/
theorem flattenSwitchTypeStatements_flattenedAs :
    ∀ (l r : List deStatement),
      flattenSwitchTypeStatements l = .ok r → FlattenedAs l r
  | [], r, h => by
    simp only [flattenSwitchTypeStatements, Except.ok.injEq] at h
    subst h
    exact FlattenedAs.nil
  | s :: rest, r, h => by
    obtain ⟨r1, r2, h1, h2, hr⟩ := flattenSwitchTypeStatements_cons_ok s rest r h
    subst hr
    exact flattenSwitchTypeStatement_flattenedAs s r1 rest r2 h1
      (flattenSwitchTypeStatements_flattenedAs rest r2 h2)
end

/-- The sequence the description puts in place of a range is the one
`flattenSwitchTypeStatements` leaves. -/
theorem flattenSwitchTypeStatements_of_flattenedAs (l r : List deStatement)
    (h : FlattenedAs l r) : flattenSwitchTypeStatements l = .ok r := by
  induction h with
  | nil => rfl
  | keep statement rest flattenedRest hs hex _ ih =>
    have h1 : flattenSwitchTypeStatement statement = .ok [statement] := by
      rw [flattenSwitchTypeStatement_eq_source]
      have : isSwitchType statement = .ok false := by
        unfold isSwitchType
        by_cases ht : statement.type = .DE_STATEMENT_SWITCH
        · simp only [ht, ne_eq, not_true_eq_false, if_false]
          cases hexp : statement.expression with
          | none => exact absurd hexp (hex ht)
          | some ex =>
            simp only [isSwitchTypeStatement, ht, hexp, decide_True, Bool.true_and,
              Option.map_some', beq_eq_false_iff_ne, ne_eq, Option.some.injEq,
              Bool.not_eq_true] at hs
            simp [hs]
        · simp [ht]
      rw [this]
    unfold flattenSwitchTypeStatements
    rw [h1, ih]
    rfl
  | replace statement selectedCase caseStatements body flattenedBody rest flattenedRest hs hsub
      hfind hbody _ _ ihbody ihrest =>
    have h1 : flattenSwitchTypeStatement statement = .ok flattenedBody := by
      cases statement with
      | mk t i l e b =>
        rw [flattenSwitchTypeStatement_of_switchType _ _ _ _ _ hs]
        simp only [deStatement.subBlock] at hsub
        subst hsub
        simp only
        rw [flattenSelectedCase_eq_find, hfind]
        simp only
        rw [hbody]
        exact ihbody
    unfold flattenSwitchTypeStatements
    rw [h1, ihrest]

/-- C16.  The range `flattenSwitchTypeStatements` leaves is the sequence
obtained by replacing each top-level type-valued switch with the recursively
flattened body statements of its instantiated case, nothing when that body is
empty, and keeping every other statement of the range as it is and in order:
the function completes with a range exactly when that range is the sequence so
described, which exists when each type-valued switch encountered has an
instantiated case.  The function takes and returns the range only, so the
statements outside of it are not touched. -/
theorem flattenSwitchTypeStatements_replaces_top_level_switches
    (range flattened : List deStatement) :
    flattenSwitchTypeStatements range = .ok flattened ↔ FlattenedAs range flattened :=
  ⟨flattenSwitchTypeStatements_flattenedAs range flattened,
    flattenSwitchTypeStatements_of_flattenedAs range flattened⟩

/-- Witness of C16: the loop body that is one type-valued switch is replaced
with the statement of its instantiated case. -/
theorem flattenSwitchTypeStatements_replaces_top_level_switches_witness :
    flattenSwitchTypeStatements switchLoopBody = .ok exampleLoopBody ∧
    FlattenedAs switchLoopBody exampleLoopBody :=
  ⟨rfl, (flattenSwitchTypeStatements_replaces_top_level_switches switchLoopBody
    exampleLoopBody).mp rfl⟩
/-! ## Claims on what one inlining leaves -/

/-- C17, evaluated at a failing input.  `foreach x in range(3): body` is the
first statement of its block and `deInIterator` is false at entry: the call
returns normally, through the early return on line 231, and leaves the flag
true; the restore on line 233 is not reached.  With a statement before the
foreach the flag is false again at the return. -/
theorem deInlineIterator_first_statement_leaves_flag_set :
    rangeState.deInIterator = false ∧
    Except.map (fun r => r.1.deInIterator)
        (deInlineIterator exampleExternals rangeState exampleScope [rangeForeach] 0)
      = .ok true ∧
    Except.map (fun r => r.1.deInIterator)
        (deInlineIterator exampleExternals rangeState exampleScope
          (exampleLoopBody ++ [rangeForeach]) 1)
      = .ok false :=
  ⟨rfl, rfl, rfl⟩

/-- C18, evaluated at a failing input.  The body of the iterator `values` is
one type-valued switch, so the switch is the first statement of the range that
`foreach x in values(): body` materializes.  The flattened range is `x = v`
followed by the loop body; the switch was destroyed by the flattening, and the
handle of it, taken on line 215 before the flattening, is the one line 226
passes to `queueStatements`: a destroyed statement is read and nothing of the
flattened range is queued from a live handle. -/
theorem deInlineIterator_queues_from_destroyed_switch :
    valuesForeach.subBlock = some exampleLoopBody ∧
    valuesIteratorBlock.statements.head? = some yieldingSwitch ∧
    isSwitchType yieldingSwitch = .ok true ∧
    Except.map Prod.snd
        (spliceLoopBody valuesIteratorBlock.statements exampleLoopBody none valuesAssignment)
      = .ok (valuesLoopVarAssignment :: exampleLoopBody) ∧
    deInlineIterator exampleExternals valuesState exampleScope [valuesForeach] 0
      = .error .destroyedHandle :=
  ⟨rfl, rfl, rfl, rfl, rfl⟩

/-- C20, evaluated at a failing input.  On the range that is the one
type-valued switch `yieldingSwitch` the flattening completes and leaves the
statement of the selected case, `yield v`; the statement whose handle
`flattenSwitchTypeStatements` returns is the switch it was called with, which
line 153 destroyed, and not the first statement of the flattened range. -/
theorem flattenSwitchTypeStatements_returns_destroyed_switch :
    flattenSwitchTypeStatements [yieldingSwitch] = .ok [exampleYield "v"] ∧
    flattenSwitchTypeStatementsReturned [yieldingSwitch] none = .ok (some yieldingSwitch) ∧
    isSwitchType yieldingSwitch = .ok true ∧
    firstNonDestroyed [exampleYield "v"] none = some (exampleYield "v") ∧
    yieldingSwitch ≠ exampleYield "v" := by
  refine ⟨rfl, rfl, rfl, rfl, ?_⟩
  intro h
  simp [yieldingSwitch, exampleYield] at h

/-- C12, evaluated at a failing input.  The range is one statement that is no
switch and whose sub-block holds a type-valued switch: the flattening completes
and leaves the range as it is, the type-valued switch still in the sub-block.
Line 145 returns for a statement that is no type-valued switch without looking
at its sub-block. -/
theorem flattenSwitchTypeStatements_keeps_nested_switch :
    flattenSwitchTypeStatements nestedSwitchRange = .ok nestedSwitchRange ∧
    containsSwitchTypeBlock nestedSwitchRange = true :=
  ⟨rfl, rfl⟩

/-! ## The sweep -/

/-- A pass that ends with `inlinedIterator` false started with it false, met no
instantiated foreach, and left the block and the state as they were. -/
theorem inlineBlockIteratorsPass_false (ext : deExternals) (scopeBlock : deBlock) :
    ∀ (todo done : List deStatement) (st : deState) (inlinedIterator : Bool)
      (st1 : deState) (block1 : List deStatement),
      inlineBlockIteratorsPass ext scopeBlock done todo st inlinedIterator
        = .ok (st1, block1, false) →
      inlinedIterator = false ∧ st1 = st ∧ block1 = done ++ todo ∧
        ∀ s ∈ todo, isInstantiatedForeach s = false := by
  intro todo
  induction todo with
  | nil =>
    intro done st b st1 block1 h
    simp only [inlineBlockIteratorsPass, Except.ok.injEq, Prod.mk.injEq] at h
    obtain ⟨h1, h2, h3⟩ := h
    subst h1 h2 h3
    simp
  | cons s rest ih =>
    intro done st b st1 block1 h
    unfold inlineBlockIteratorsPass at h
    split at h
    · cases hin : deInlineIterator ext st scopeBlock (done ++ s :: rest) done.length with
      | error e => rw [hin] at h; simp at h
      | ok r =>
        obtain ⟨st2, block2, resume⟩ := r
        rw [hin] at h
        simp only at h
        have := (ih _ _ _ _ _ h).1
        simp at this
    · rename_i hno
      obtain ⟨hb, hst, hblock, hall⟩ := ih _ _ _ _ _ h
      refine ⟨hb, hst, by rw [hblock]; simp, ?_⟩
      intro x hx
      rcases List.mem_cons.mp hx with hx | hx
      · subst hx
        simp only [isInstantiatedForeach, Bool.and_eq_false_imp, decide_eq_true_eq]
        intro ht
        cases hi : x.instantiated with
        | false => rfl
        | true => exact absurd ⟨ht, hi⟩ hno
      · exact hall x hx

/-- When the `do` loop ends, no statement of the block is an instantiated
foreach. -/
theorem inlineBlockIteratorsLoop_ok (ext : deExternals) (scopeBlock : deBlock) :
    ∀ (fuel : Nat) (block : List deStatement) (st st1 : deState) (block1 : List deStatement),
      inlineBlockIteratorsLoop ext scopeBlock fuel block st = some (.ok (st1, block1)) →
      ∀ s ∈ block1, isInstantiatedForeach s = false := by
  intro fuel
  induction fuel with
  | zero => intro block st st1 block1 h; simp [inlineBlockIteratorsLoop] at h
  | succ fuel ih =>
    intro block st st1 block1 h
    unfold inlineBlockIteratorsLoop at h
    split at h
    · simp at h
    · exact ih _ _ _ _ h
    · rename_i st2 block2 hpass
      simp only [Option.some.injEq, Except.ok.injEq, Prod.mk.injEq] at h
      obtain ⟨h1, h2⟩ := h
      subst h1 h2
      obtain ⟨_, _, hblock, hall⟩ := inlineBlockIteratorsPass_false ext scopeBlock _ _ _ _ _ _ hpass
      rw [hblock]
      simpa using hall

/-- The loop over the sub-blocks keeps the statements of the block, each with
the sub-block the recursive call left: when the recursive call leaves no
instantiated foreach, none remains at any depth. -/
theorem inlineSubBlockIterators_ok
    (recurse : List deStatement → deState →
      Option (Except deError (deState × List deStatement)))
    (hrec : ∀ b st st1 b1, recurse b st = some (.ok (st1, b1)) →
      noInstantiatedForeachBlock b1 = true) :
    ∀ (block : List deStatement) (st st1 : deState) (block1 : List deStatement),
      inlineSubBlockIterators recurse block st = some (.ok (st1, block1)) →
      (∀ s ∈ block, isInstantiatedForeach s = false) →
      noInstantiatedForeachBlock block1 = true := by
  intro block
  induction block with
  | nil =>
    intro st st1 block1 h _
    simp only [inlineSubBlockIterators, Option.some.injEq, Except.ok.injEq, Prod.mk.injEq] at h
    rw [← h.2]
    rfl
  | cons s rest ih =>
    intro st st1 block1 h hall
    have hs := hall s (by simp)
    have hrest : ∀ x ∈ rest, isInstantiatedForeach x = false :=
      fun x hx => hall x (by simp [hx])
    cases s with
    | mk t i l e b =>
    have hs0 : isInstantiatedForeach (.mk t i l e none) = false := hs
    cases b with
    | none =>
      unfold inlineSubBlockIterators at h
      simp only at h
      cases hr : inlineSubBlockIterators recurse rest st with
      | none => rw [hr] at h; simp at h
      | some r =>
        cases r with
        | error e => rw [hr] at h; simp at h
        | ok r =>
          obtain ⟨st2, rest1⟩ := r
          rw [hr] at h
          simp only [Option.some.injEq, Except.ok.injEq, Prod.mk.injEq] at h
          obtain ⟨_, h2⟩ := h
          subst h2
          unfold noInstantiatedForeachBlock noInstantiatedForeachStatement
          rw [hs0, ih _ _ _ hr hrest]
          rfl
    | some sub =>
      unfold inlineSubBlockIterators at h
      simp only at h
      cases hsub : recurse sub st with
      | none => rw [hsub] at h; simp at h
      | some r0 =>
        cases r0 with
        | error e => rw [hsub] at h; simp at h
        | ok r0 =>
          obtain ⟨st2, sub1⟩ := r0
          rw [hsub] at h
          simp only at h
          cases hr : inlineSubBlockIterators recurse rest st2 with
          | none => rw [hr] at h; simp at h
          | some r =>
            cases r with
            | error e => rw [hr] at h; simp at h
            | ok r =>
              obtain ⟨st3, rest1⟩ := r
              rw [hr] at h
              simp only [Option.some.injEq, Except.ok.injEq, Prod.mk.injEq] at h
              obtain ⟨_, h2⟩ := h
              subst h2
              unfold noInstantiatedForeachBlock noInstantiatedForeachStatement
              rw [hs0, ih _ _ _ hr hrest]
              simp only [Bool.not_false, Bool.true_and, Bool.and_true]
              exact hrec _ _ _ _ hsub

/-- When `inlineBlockIterators` returns on a block, no instantiated foreach
remains in the block or in a sub-block reachable from it. -/
theorem inlineBlockIterators_ok (ext : deExternals) (scopeBlock : deBlock) :
    ∀ (fuel : Nat) (block : List deStatement) (st st1 : deState) (block1 : List deStatement),
      inlineBlockIterators ext scopeBlock fuel block st = some (.ok (st1, block1)) →
      noInstantiatedForeachBlock block1 = true := by
  intro fuel
  induction fuel with
  | zero => intro block st st1 block1 h; simp [inlineBlockIterators] at h
  | succ fuel ih =>
    intro block st st1 block1 h
    unfold inlineBlockIterators at h
    cases hloop : inlineBlockIteratorsLoop ext scopeBlock fuel block st with
    | none => rw [hloop] at h; simp at h
    | some r =>
      cases r with
      | error e => rw [hloop] at h; simp at h
      | ok r =>
        obtain ⟨st2, block2⟩ := r
        rw [hloop] at h
        simp only at h
        exact inlineSubBlockIterators_ok _ ih _ _ _ _ h
          (inlineBlockIteratorsLoop_ok ext scopeBlock _ _ _ _ _ hloop)

/-- C14.  Whenever the sweep `inlineBlockIterators` returns on a block, no
instantiated foreach statement remains in that block or in any sub-block
reachable from it, at any depth; this holds for whatever the inlined iterator
bodies brought in, a foreach over another iterator included. -/
theorem inlineBlockIterators_leaves_no_instantiated_foreach
    (ext : deExternals) (scopeBlock : deBlock) (fuel : Nat)
    (block : List deStatement) (st st1 : deState) (block1 : List deStatement)
    (h : inlineBlockIterators ext scopeBlock fuel block st = some (.ok (st1, block1))) :
    noInstantiatedForeachBlock block1 = true :=
  inlineBlockIterators_ok ext scopeBlock fuel block st st1 block1 h

/-- Witness of C14: the sweep returns on a block that holds, in a sub-block,
`foreach y in evens(7)`, where the body of `evens` is itself a foreach over
`range`. -/
theorem inlineBlockIterators_leaves_no_instantiated_foreach_witness :
    noInstantiatedForeachBlock nestedIteratorBlock = false ∧
    ∃ st1 block1,
      inlineBlockIterators exampleExternals exampleScope 5 nestedIteratorBlock
        nestedIteratorState = some (.ok (st1, block1)) ∧
      noInstantiatedForeachBlock block1 = true :=
  ⟨rfl, _, _, rfl,
    inlineBlockIterators_leaves_no_instantiated_foreach exampleExternals exampleScope 5
      nestedIteratorBlock nestedIteratorState _ _ rfl⟩

/-! ## Termination of the sweep -/

/-- The instantiated foreach statements of a list are those of its head and
those of its tail. -/
theorem instantiatedForeachBlock_cons (s : deStatement) (rest : List deStatement) :
    instantiatedForeachBlock (s :: rest)
      = instantiatedForeachStatement s ++ instantiatedForeachBlock rest := by
  rw [instantiatedForeachBlock]

/-- The instantiated foreach statements of a statement are the statement, if it
is one, and those of its sub-block. -/
theorem instantiatedForeachStatement_mk (t : deStatementType)
    (i : Bool) (l : deLine) (e : Option deExpression) (b : Option (List deStatement)) :
    instantiatedForeachStatement (.mk t i l e b) =
      (if isInstantiatedForeach (.mk t i l e none) = true then [.mk t i l e b] else []) ++
      (match b with
        | none => []
        | some subStatements => instantiatedForeachBlock subStatements) := by
  conv_lhs => unfold instantiatedForeachStatement

/-- The instantiated foreach statements of two lists put together. -/
theorem instantiatedForeachBlock_append (l1 l2 : List deStatement) :
    instantiatedForeachBlock (l1 ++ l2)
      = instantiatedForeachBlock l1 ++ instantiatedForeachBlock l2 := by
  induction l1 with
  | nil => simp [instantiatedForeachBlock]
  | cons s rest ih =>
    rw [List.cons_append, instantiatedForeachBlock_cons, instantiatedForeachBlock_cons, ih,
      List.append_assoc]

/-- The weight of two lists put together is the sum of their weights. -/
theorem foreachWeight_append (st : deState) (W : Nat → Nat) (l1 l2 : List deStatement) :
    foreachWeight st W (l1 ++ l2) = foreachWeight st W l1 + foreachWeight st W l2 := by
  unfold foreachWeight
  rw [instantiatedForeachBlock_append, List.map_append, List.sum_append]

/-- The empty list weighs nothing. -/
theorem foreachWeight_nil (st : deState) (W : Nat → Nat) : foreachWeight st W [] = 0 := rfl

/-- The weight of a list is the weight of its head and the weight of its
tail. -/
theorem foreachWeight_cons (st : deState) (W : Nat → Nat) (s : deStatement)
    (rest : List deStatement) :
    foreachWeight st W (s :: rest) = foreachWeight st W [s] + foreachWeight st W rest :=
  foreachWeight_append st W [s] rest

/-- The weight of a statement that is no instantiated foreach is the weight of
its sub-block. -/
theorem foreachWeight_of_not_foreach (st : deState) (W : Nat → Nat) (t : deStatementType)
    (i : Bool) (l : deLine) (e : Option deExpression) (b : Option (List deStatement))
    (h : isInstantiatedForeach (.mk t i l e none) = false) :
    foreachWeight st W [.mk t i l e b] =
      match b with
      | none => 0
      | some sub => foreachWeight st W sub := by
  unfold foreachWeight
  rw [instantiatedForeachBlock_cons, instantiatedForeachStatement_mk, h]
  cases b with
  | none => simp [instantiatedForeachBlock]
  | some sub => simp [instantiatedForeachBlock]

/-- The weight of an instantiated foreach is the weight of the iterator it
calls and the weight of its loop body. -/
theorem foreachWeight_of_foreach (st : deState) (W : Nat → Nat) (t : deStatementType)
    (i : Bool) (l : deLine) (e : Option deExpression) (b : Option (List deStatement))
    (h : isInstantiatedForeach (.mk t i l e none) = true) :
    foreachWeight st W [.mk t i l e b] =
      (match foreachIterator st (.mk t i l e b) with
        | some g => W g
        | none => 0) +
      match b with
      | none => 0
      | some sub => foreachWeight st W sub := by
  unfold foreachWeight
  rw [instantiatedForeachBlock_cons, instantiatedForeachStatement_mk, h]
  cases b with
  | none => simp [instantiatedForeachBlock]
  | some sub => simp [instantiatedForeachBlock]
/-- The path of a statement found inside the head of a list leads to it. -/
theorem statementAtPath_head (s : deStatement) (rest : List deStatement) (p : List Nat)
    (y : deStatement) (h0 : p = [] → y = s)
    (h1 : p ≠ [] → ∃ sub, s.subBlock = some sub ∧ statementAtPath p sub = some y) :
    statementAtPath (0 :: p) (s :: rest) = some y := by
  cases p with
  | nil =>
    rw [h0 rfl]
    simp [statementAtPath]
  | cons j q =>
    obtain ⟨sub, hsub, hat⟩ := h1 (List.cons_ne_nil _ _)
    cases s with
    | mk t i l e b =>
      simp only [deStatement.subBlock] at hsub
      subst hsub
      simpa [statementAtPath] using hat

mutual
/-- What `findStatementYieldStatement` returns is a yield statement, and the
path returned leads to it. -/
theorem findStatementYieldStatement_at :
    ∀ (s : deStatement) (p : List Nat) (y : deStatement),
      findStatementYieldStatement s = .ok (some (p, y)) →
      y.type = .DE_STATEMENT_YIELD ∧ (p = [] → y = s) ∧
        (p ≠ [] → ∃ sub, s.subBlock = some sub ∧ statementAtPath p sub = some y)
  | .mk type instantiated line expression subBlock, p, y, h => by
    unfold findStatementYieldStatement at h
    split at h
    · rename_i hy
      simp only [Except.ok.injEq, Option.some.injEq, Prod.mk.injEq] at h
      obtain ⟨hp, hy2⟩ := h
      subst hp hy2
      exact ⟨hy.1, fun _ => rfl, fun hne => absurd rfl hne⟩
    · cases subBlock with
      | none => simp at h
      | some sub =>
        simp only at h
        rcases findSubBlockYieldStatement_at sub instantiated 0 none p y h with hf | ⟨hy, i, q, hp, hat⟩
        · simp at hf
        · refine ⟨hy, ?_, fun _ => ⟨sub, rfl, ?_⟩⟩
          · intro hnil
            rw [hnil] at hp
            simp at hp
          · rw [hp, Nat.zero_add]
            exact hat
/-- What the loop over a sub-block returns is the yield it started with or a
yield statement of the sub-block that the returned path leads to. -/
theorem findSubBlockYieldStatement_at :
    ∀ (ss : List deStatement) (instantiated : Bool) (index : Nat)
      (first : Option (List Nat × deStatement)) (p : List Nat) (y : deStatement),
      findSubBlockYieldStatement instantiated ss index first = .ok (some (p, y)) →
      first = some (p, y) ∨
        (y.type = .DE_STATEMENT_YIELD ∧
          ∃ i q, p = (index + i) :: q ∧ statementAtPath (i :: q) ss = some y)
  | [], instantiated, index, first, p, y, h => by
    simp only [findSubBlockYieldStatement, Except.ok.injEq] at h
    exact Or.inl h
  | s :: rest, instantiated, index, first, p, y, h => by
    have shift : ∀ first1,
        findSubBlockYieldStatement instantiated rest (index + 1) first1 = .ok (some (p, y)) →
        first1 = some (p, y) ∨
          (y.type = .DE_STATEMENT_YIELD ∧
            ∃ i q, p = (index + i) :: q ∧ statementAtPath (i :: q) (s :: rest) = some y) := by
      intro first1 h1
      rcases findSubBlockYieldStatement_at rest instantiated (index + 1) first1 p y h1 with
        hf | ⟨hy, i, q, hp, hat⟩
      · exact Or.inl hf
      · refine Or.inr ⟨hy, i + 1, q, ?_, ?_⟩
        · rw [hp]
          congr 1
          omega
        · rw [statementAtPath_cons_succ]
          exact hat
    unfold findSubBlockYieldStatement at h
    cases hs : findStatementYieldStatement s with
    | error e => rw [hs] at h; simp at h
    | ok r =>
      rw [hs] at h
      cases r with
      | none =>
        simp only at h
        exact shift first h
      | some found =>
        obtain ⟨p1, y1⟩ := found
        simp only at h
        obtain ⟨hy1, h0, h1⟩ := findStatementYieldStatement_at s p1 y1 hs
        split at h
        · cases first with
          | some f => simp at h
          | none =>
            simp only at h
            rcases shift _ h with hf | hr
            · simp only [Option.some.injEq, Prod.mk.injEq] at hf
              obtain ⟨hp, hy⟩ := hf
              subst hp hy
              exact Or.inr ⟨hy1, 0, p1, rfl, statementAtPath_head s rest p1 y1 h0 h1⟩
            · exact Or.inr hr
        · exact shift first h
end

/-- The statement `findYieldStatement` returns is a yield statement of the
range, and the path returned leads to it. -/
theorem findYieldStatement_ok_at (range : List deStatement)
    (lastStatement : Option deStatement) (path : List Nat) (y : deStatement)
    (h : findYieldStatement range lastStatement = .ok (path, y)) :
    statementAtPath path range = some y ∧ y.type = .DE_STATEMENT_YIELD := by
  unfold findYieldStatement at h
  rw [findYieldStatementLoop_eq] at h
  cases hloop : findSubBlockYieldStatement true range 0 none with
  | error e => rw [hloop] at h; simp at h
  | ok r =>
    rw [hloop] at h
    cases r with
    | none => simp at h
    | some found =>
      simp only [Except.ok.injEq] at h
      subst h
      rcases findSubBlockYieldStatement_at range true 0 none path y hloop with
        hf | ⟨hy, i, q, hp, hat⟩
      · simp at hf
      · rw [hp, Nat.zero_add]
        exact ⟨hat, hy⟩
/-- The weight of a statement is a weight of its head, which does not depend on
the sub-block, and the weight of its sub-block. -/
theorem foreachWeight_statement (st : deState) (W : Nat → Nat) (t : deStatementType)
    (i : Bool) (l : deLine) (e : Option deExpression) :
    ∃ head, ∀ b : Option (List deStatement),
      foreachWeight st W [.mk t i l e b] = head +
        match b with
        | none => 0
        | some sub => foreachWeight st W sub := by
  cases h : isInstantiatedForeach (.mk t i l e none) with
  | false =>
    refine ⟨0, fun b => ?_⟩
    rw [foreachWeight_of_not_foreach st W t i l e b h, Nat.zero_add]
  | true =>
    refine ⟨match foreachIterator st (.mk t i l e none) with
      | some g => W g
      | none => 0, fun b => ?_⟩
    rw [foreachWeight_of_foreach st W t i l e b h]
    rfl

/-- Replacing the statement a path leads to changes the weight of the list by
the difference of the weights of the replacement and the statement. -/
theorem foreachWeight_updateAtPath (st : deState) (W : Nat → Nat)
    (f : deStatement → List deStatement) :
    ∀ (path : List Nat) (range range2 : List deStatement) (old : deStatement),
      updateAtPath f path range = some range2 →
      statementAtPath path range = some old →
      foreachWeight st W range2 + foreachWeight st W [old]
        = foreachWeight st W range + foreachWeight st W (f old) := by
  intro path
  induction path with
  | nil => intro range range2 old h; simp [updateAtPath] at h
  | cons i q ih =>
    intro range range2 old h hat
    cases hget : range.get? i with
    | none =>
      cases q with
      | nil => unfold updateAtPath at h; rw [hget] at h; simp at h
      | cons j q => unfold updateAtPath at h; rw [hget] at h; simp at h
    | some s =>
      obtain ⟨pre, post, hl, hlen⟩ := split_at_position range i s hget
      subst hl hlen
      cases q with
      | nil =>
        rw [updateAtPath_single] at h
        simp only [Option.some.injEq] at h
        subst h
        simp only [statementAtPath] at hat
        rw [hget] at hat
        simp only [Option.some.injEq] at hat
        subst hat
        rw [foreachWeight_append, foreachWeight_append, foreachWeight_append,
          foreachWeight_cons st W s post]
        omega
      | cons j q =>
        rw [updateAtPath_cons] at h
        cases s with
        | mk t ins l e b =>
          cases b with
          | none => simp at h
          | some sub =>
            simp only [Option.map_eq_some'] at h
            obtain ⟨sub2, hsub2, hr⟩ := h
            subst hr
            unfold statementAtPath at hat
            rw [hget] at hat
            simp only at hat
            have := ih sub sub2 old hsub2 hat
            obtain ⟨head, hhead⟩ := foreachWeight_statement st W t ins l e
            rw [foreachWeight_append, foreachWeight_append,
              foreachWeight_cons st W _ post, foreachWeight_cons st W _ post,
              hhead (some sub), hhead (some sub2)]
            simp only
            omega

/-- Statements without sub-block that are no foreach weigh nothing. -/
theorem foreachWeight_assignments (st : deState) (W : Nat → Nat) (es : List deStatement)
    (hall : ∀ e ∈ es, e.type = .DE_STATEMENT_ASSIGN ∧ e.subBlock = none) :
    foreachWeight st W es = 0 := by
  induction es with
  | nil => rfl
  | cons e rest ih =>
    rw [foreachWeight_cons, ih (fun x hx => hall x (by simp [hx]))]
    obtain ⟨ht, hb⟩ := hall e (by simp)
    cases e with
    | mk t i l ex b =>
      simp only [deStatement.type] at ht
      simp only [deStatement.subBlock] at hb
      subst ht hb
      rw [foreachWeight_of_not_foreach st W _ _ _ _ _
        (by simp [isInstantiatedForeach, deStatement.type])]

/-- A statement of a list weighs no more than the list. -/
theorem foreachWeight_mem (st : deState) (W : Nat → Nat) (l : List deStatement)
    (s : deStatement) (h : s ∈ l) : foreachWeight st W [s] ≤ foreachWeight st W l := by
  obtain ⟨pre, post, hl⟩ := List.append_of_mem h
  subst hl
  rw [foreachWeight_append, foreachWeight_cons st W s post]
  omega

/-- The sub-block of a statement weighs no more than the statement. -/
theorem foreachWeight_subBlock (st : deState) (W : Nat → Nat) (s : deStatement)
    (sub : List deStatement) (h : s.subBlock = some sub) :
    foreachWeight st W sub ≤ foreachWeight st W [s] := by
  cases s with
  | mk t i l e b =>
    simp only [deStatement.subBlock] at h
    subst h
    obtain ⟨head, hhead⟩ := foreachWeight_statement st W t i l e
    rw [hhead (some sub)]
    simp

/-- The flattening does not add weight. -/
theorem foreachWeight_flattenedAs (st : deState) (W : Nat → Nat) (l r : List deStatement)
    (h : FlattenedAs l r) : foreachWeight st W r ≤ foreachWeight st W l := by
  induction h with
  | nil => exact le_refl _
  | keep statement rest flattenedRest _ _ _ ih =>
    rw [foreachWeight_cons st W statement rest, foreachWeight_cons st W statement flattenedRest]
    omega
  | replace statement selectedCase caseStatements body flattenedBody rest flattenedRest _ hsub
      hfind hbody _ _ ihbody ihrest =>
    rw [foreachWeight_cons st W statement rest, foreachWeight_append]
    have h1 := foreachWeight_subBlock st W statement caseStatements hsub
    have h2 := foreachWeight_mem st W caseStatements selectedCase (List.mem_of_find?_eq_some hfind)
    have h3 := foreachWeight_subBlock st W selectedCase body hbody
    omega
/-- What makes `checkIteratorCall` return normally, and what it returns. -/
theorem checkIteratorCall_ok_iff (st : deState) (foreachStatement : deStatement)
    (assignment call : deExpression) (iterator : Nat) (iteratorFn : deFunction) :
    checkIteratorCall st foreachStatement = .ok (assignment, call, iterator, iteratorFn) ↔
    ∃ access signature sig,
      foreachStatement.expression = some assignment ∧
      assignment.children.head? = some access ∧
      assignment.children.get? 1 = some call ∧
      call.type = .DE_EXPR_CALL ∧
      call.signature = some signature ∧
      st.signatures.get? signature = some sig ∧
      sig.uniquifiedFunction = iterator ∧
      st.functions.get? iterator = some iteratorFn ∧
      iteratorFn.type = .DE_FUNC_ITERATOR := by
  constructor
  · intro h
    unfold checkIteratorCall at h
    simp only [bind, Except.bind, pure, Except.pure] at h
    cases h1 : deref foreachStatement.expression with
    | error e => rw [h1] at h; simp at h
    | ok a =>
    rw [h1] at h
    simp only at h
    cases h2 : deref a.children.head? with
    | error e => rw [h2] at h; simp at h
    | ok acc =>
    rw [h2] at h
    simp only at h
    cases h3 : deref (a.children.get? 1) with
    | error e => rw [h3] at h; simp at h
    | ok c =>
    rw [h3] at h
    simp only at h
    split at h
    · simp [throw, throwThe, MonadExceptOf.throw] at h
    · rename_i hct
      cases hsig : c.signature with
      | none => rw [hsig] at h; simp [throw, throwThe, MonadExceptOf.throw] at h
      | some s =>
        rw [hsig] at h
        simp only at h
        cases h4 : deref (st.signatures.get? s) with
        | error e => rw [h4] at h; simp at h
        | ok sig =>
        rw [h4] at h
        simp only at h
        cases h5 : deref (st.functions.get? sig.uniquifiedFunction) with
        | error e => rw [h5] at h; simp at h
        | ok fn =>
        rw [h5] at h
        simp only at h
        split at h
        · simp [throw, throwThe, MonadExceptOf.throw] at h
        · rename_i hft
          simp only [Except.ok.injEq, Prod.mk.injEq] at h
          obtain ⟨ha, hc, hi, hf⟩ := h
          subst ha hc hi hf
          refine ⟨acc, s, sig, deref_ok _ _ h1, deref_ok _ _ h2, deref_ok _ _ h3, ?_, hsig,
            deref_ok _ _ h4, rfl, deref_ok _ _ h5, ?_⟩
          · simpa using hct
          · simpa using hft
  · rintro ⟨access, signature, sig, h1, h2, h3, hct, hsig, h4, hi, h5, hft⟩
    subst hi
    unfold checkIteratorCall
    simp only [bind, Except.bind, pure, Except.pure]
    rw [h1]
    simp only [deref]
    rw [h2]
    simp only
    rw [h3]
    simp only
    rw [if_neg (by simp [hct]), hsig]
    simp only
    rw [h4]
    simp only
    rw [h5]
    simp only
    rw [if_neg (by simp [hft])]

/-- A position that holds a value still holds it after it is written there. -/
theorem set_of_get {α : Type} (l : List α) (i : Nat) (a : α) (h : l.get? i = some a) :
    l.set i a = l := by
  induction l generalizing i with
  | nil => rfl
  | cons x rest ih =>
    cases i with
    | zero =>
      simp at h
      subst h
      rfl
    | succ i =>
      simp only [List.get?_cons_succ] at h
      simp [ih i h]

/-- States with the same templates hold, at every handle, functions of the same
type and body statements. -/
theorem sameTemplates_get (st0 st : deState) (h : sameTemplates st0 st) (g : Nat)
    (fn : deFunction) (hfn : st.functions.get? g = some fn) :
    ∃ fn0, st0.functions.get? g = some fn0 ∧ fn0.type = fn.type ∧
      fn0.subBlock.statements = fn.subBlock.statements := by
  have hmap := congrArg (fun l => l.get? g) h.2
  simp only [List.get?_eq_getElem?, List.getElem?_map] at hmap hfn ⊢
  rw [hfn] at hmap
  cases h0 : st0.functions[g]? with
  | none => rw [h0] at hmap; simp at hmap
  | some fn0 =>
    rw [h0] at hmap
    simp only [Option.map_some', Option.some.injEq, Prod.mk.injEq] at hmap
    exact ⟨fn0, rfl, hmap.1.symm, hmap.2.symm⟩

/-- A state has the templates it has. -/
theorem sameTemplates_refl (st : deState) : sameTemplates st st := ⟨rfl, rfl⟩

/-- Having the same templates carries over two steps. -/
theorem sameTemplates_trans (st0 st1 st2 : deState) (h1 : sameTemplates st0 st1)
    (h2 : sameTemplates st1 st2) : sameTemplates st0 st2 :=
  ⟨h2.1.trans h1.1, h2.2.trans h1.2⟩

/-- A call that resolves to an iterator in a state resolves to the same iterator,
with the same body statements, in a state with the same templates. -/
theorem checkIteratorCall_sameTemplates (st0 st : deState) (h : sameTemplates st0 st)
    (foreachStatement : deStatement)
    (assignment call : deExpression) (iterator : Nat) (iteratorFn : deFunction)
    (hcall : checkIteratorCall st foreachStatement
      = .ok (assignment, call, iterator, iteratorFn)) :
    foreachIterator st0 foreachStatement = some iterator ∧
      ∃ fn0, st0.functions.get? iterator = some fn0 ∧ fn0.type = .DE_FUNC_ITERATOR ∧
        fn0.subBlock.statements = iteratorFn.subBlock.statements := by
  obtain ⟨access, signature, sig, h1, h2, h3, hct, hsig, h4, hi, h5, hft⟩ :=
    (checkIteratorCall_ok_iff _ _ _ _ _ _).mp hcall
  obtain ⟨fn0, hfn0, ht0, hs0⟩ := sameTemplates_get st0 st h iterator iteratorFn h5
  have hc0 : checkIteratorCall st0 foreachStatement = .ok (assignment, call, iterator, fn0) :=
    (checkIteratorCall_ok_iff _ _ _ _ _ _).mpr
      ⟨access, signature, sig, h1, h2, h3, hct, hsig, by rw [← h.1]; exact h4, hi, hfn0,
        by rw [ht0]; exact hft⟩
  refine ⟨?_, fn0, hfn0, by rw [ht0]; exact hft, hs0⟩
  unfold foreachIterator
  rw [hc0]

/-- A normal return of `deInlineIterator` leaves the templates as they were. -/
theorem deInlineIterator_sameTemplates (ext : deExternals) (st : deState) (scopeBlock : deBlock)
    (pre post : List deStatement) (foreachStatement : deStatement)
    (st1 : deState) (block1 : List deStatement) (resume : Option Nat)
    (h : deInlineIterator ext st scopeBlock (pre ++ foreachStatement :: post) pre.length
      = .ok (st1, block1, resume)) :
    sameTemplates st st1 := by
  obtain ⟨fs, assignment, call, iterator, iteratorFn, _, _, _, _, _, _, _, _, hcall, _, _, _, _,
    _, _, hfun, _⟩ := deInlineIterator_ok_inv ext st scopeBlock _ _ st1 block1 resume h
  obtain ⟨_, _, _, _, _, _, _, _, _, _, _, _, _, _, _, _, _, _, _, hsig, _⟩ :=
    deInlineIterator_ok_split ext st scopeBlock pre post foreachStatement st1 block1 resume h
  have hget : st.functions.get? iterator = some iteratorFn :=
    checkIteratorCall_ok_function _ _ _ _ _ _ hcall
  refine ⟨hsig, ?_⟩
  rw [hfun, List.map_set, List.map_set]
  simp only [deRestoreBlockVariableNames, deResolveBlockVariableNameConfligts]
  have hg : (st.functions.map (fun fn => (fn.type, fn.subBlock.statements))).get? iterator
      = some (iteratorFn.type, iteratorFn.subBlock.statements) := by
    rw [List.get?_eq_getElem?, List.getElem?_map, ← List.get?_eq_getElem?, hget]
    rfl
  rw [set_of_get _ _ _ hg, set_of_get _ _ _ hg]
/-- One inlining strictly lowers the weight of the block when every iterator
weighs more than its body, and leaves the templates as they were. -/
theorem deInlineIterator_weight (ext : deExternals) (st0 : deState) (W : Nat → Nat)
    (hW : ∀ g fn, st0.functions.get? g = some fn → fn.type = .DE_FUNC_ITERATOR →
      foreachWeight st0 W fn.subBlock.statements < W g)
    (st : deState) (scopeBlock : deBlock)
    (pre post : List deStatement) (foreachStatement : deStatement)
    (st1 : deState) (block1 : List deStatement) (resume : Option Nat)
    (hsame : sameTemplates st0 st)
    (hfe : isInstantiatedForeach foreachStatement = true)
    (h : deInlineIterator ext st scopeBlock (pre ++ foreachStatement :: post) pre.length
      = .ok (st1, block1, resume)) :
    sameTemplates st0 st1 ∧
      ∃ range, block1 = pre ++ range ++ post ∧
        foreachWeight st0 W range < foreachWeight st0 W [foreachStatement] := by
  obtain ⟨assignment, call, iterator, iteratorFn, body, es, range2, first, rest, hcall, hbody,
    hall, hsplice, _, _, hblock, _⟩ :=
    deInlineIterator_ok_split ext st scopeBlock pre post foreachStatement st1 block1 resume h
  refine ⟨sameTemplates_trans _ _ _ hsame (deInlineIterator_sameTemplates _ _ _ _ _ _ _ _ _ h),
    first :: rest, hblock, ?_⟩
  have hsame1 : sameTemplates st0 (setInIterator st true) := ⟨hsame.1, hsame.2⟩
  obtain ⟨hit, fn0, hfn0, ht0, hs0⟩ :=
    checkIteratorCall_sameTemplates st0 _ hsame1 _ _ _ _ _ hcall
  obtain ⟨path, y, a, hfind, hturn, hupd, hflat⟩ := spliceLoopBody_ok_inv _ _ _ _ _ _ hsplice
  obtain ⟨hat, hyt⟩ := findYieldStatement_ok_at _ _ _ _ hfind
  obtain ⟨access1, call2, rest2, yieldValue, hch, hye, hadef⟩ :=
    turnYieldIntLoopVarAssignment_ok_inv y assignment a hturn
  have hay : foreachWeight st0 W [a] = foreachWeight st0 W [y] := by
    cases y with
    | mk t i l e b =>
      simp only [deStatement.type] at hyt
      subst hyt
      rw [hadef]
      simp only [deStatement.instantiated, deStatement.line, deStatement.subBlock]
      rw [foreachWeight_of_not_foreach st0 W _ _ _ _ _
          (by simp [isInstantiatedForeach, deStatement.type]),
        foreachWeight_of_not_foreach st0 W _ _ _ _ _
          (by simp [isInstantiatedForeach, deStatement.type])]
  have hupdw := foreachWeight_updateAtPath st0 W (fun _ => a :: body) path _ range2 y hupd hat
  simp only at hupdw
  rw [foreachWeight_cons st0 W a body, foreachWeight_append,
    foreachWeight_assignments st0 W es (fun e he => ⟨(hall e he).1, (hall e he).2.2⟩),
    ← hs0] at hupdw
  have hflatw := foreachWeight_flattenedAs st0 W _ _
    (flattenSwitchTypeStatements_flattenedAs _ _ hflat)
  have hbodyw := hW iterator fn0 hfn0 ht0
  have hfsw : foreachWeight st0 W [foreachStatement] = W iterator + foreachWeight st0 W body := by
    cases foreachStatement with
    | mk t i l e b =>
      simp only [deStatement.subBlock] at hbody
      subst hbody
      rw [foreachWeight_of_foreach st0 W t i l e _ hfe, hit]
  omega
/-- The test of line 244 is `isInstantiatedForeach`. -/
theorem isInstantiatedForeach_iff (s : deStatement) :
    (s.type = .DE_STATEMENT_FOREACH ∧ s.instantiated = true) ↔
      isInstantiatedForeach s = true := by
  simp [isInstantiatedForeach]

/-- What the pass keeps before the cursor after an inlining: the statements
before the foreach and those that replaced it. -/
theorem take_before_rest (front rest : List deStatement) :
    (front ++ rest).take ((front ++ rest).length - rest.length) = front := by
  have : (front ++ rest).length - rest.length = front.length := by simp
  rw [this, List.take_left]

/-- A pass leaves the templates as they were and does not add weight; a pass
that inlined an iterator lowered the weight. -/
theorem inlineBlockIteratorsPass_weight (ext : deExternals) (scopeBlock : deBlock)
    (st0 : deState) (W : Nat → Nat)
    (hW : ∀ g fn, st0.functions.get? g = some fn → fn.type = .DE_FUNC_ITERATOR →
      foreachWeight st0 W fn.subBlock.statements < W g) :
    ∀ (todo done : List deStatement) (st : deState) (inlinedIterator : Bool)
      (st1 : deState) (block1 : List deStatement) (inlined1 : Bool),
      sameTemplates st0 st →
      inlineBlockIteratorsPass ext scopeBlock done todo st inlinedIterator
        = .ok (st1, block1, inlined1) →
      sameTemplates st0 st1 ∧
        foreachWeight st0 W block1 ≤ foreachWeight st0 W (done ++ todo) ∧
        (inlined1 = true → inlinedIterator = true ∨
          foreachWeight st0 W block1 < foreachWeight st0 W (done ++ todo)) := by
  intro todo
  induction todo with
  | nil =>
    intro done st b st1 block1 b1 hsame h
    simp only [inlineBlockIteratorsPass, Except.ok.injEq, Prod.mk.injEq] at h
    obtain ⟨h1, h2, h3⟩ := h
    subst h1 h2 h3
    simp only [List.append_nil, le_refl, true_and]
    exact ⟨hsame, fun hb => Or.inl hb⟩
  | cons s rest ih =>
    intro done st b st1 block1 b1 hsame h
    unfold inlineBlockIteratorsPass at h
    split at h
    · rename_i hfe
      cases hin : deInlineIterator ext st scopeBlock (done ++ s :: rest) done.length with
      | error e => rw [hin] at h; simp at h
      | ok r =>
        obtain ⟨st2, block2, resume⟩ := r
        rw [hin] at h
        simp only at h
        obtain ⟨hsame2, range, hblock2, hlt⟩ := deInlineIterator_weight ext st0 W hW st scopeBlock
          done rest s st2 block2 resume hsame ((isInstantiatedForeach_iff s).mp hfe) hin
        subst hblock2
        rw [take_before_rest] at h
        obtain ⟨hsame1, hle, _⟩ := ih _ _ _ _ _ _ hsame2 h
        have hlt2 : foreachWeight st0 W block1 < foreachWeight st0 W (done ++ s :: rest) := by
          rw [foreachWeight_append, foreachWeight_append] at hle
          rw [foreachWeight_append, foreachWeight_cons st0 W s rest]
          omega
        exact ⟨hsame1, le_of_lt hlt2, fun _ => Or.inr hlt2⟩
    · obtain ⟨hsame1, hle, hb⟩ := ih _ _ _ _ _ _ hsame h
      have heq : done ++ [s] ++ rest = done ++ s :: rest := by simp
      rw [heq] at hle hb
      exact ⟨hsame1, hle, hb⟩

/-- With more passes allowed than the block weighs, the `do` loop ends; it
leaves the templates as they were, and either lowered the weight or left the
block as it was. -/
theorem inlineBlockIteratorsLoop_ends (ext : deExternals) (scopeBlock : deBlock)
    (st0 : deState) (W : Nat → Nat)
    (hW : ∀ g fn, st0.functions.get? g = some fn → fn.type = .DE_FUNC_ITERATOR →
      foreachWeight st0 W fn.subBlock.statements < W g) :
    ∀ (fuel : Nat) (block : List deStatement) (st : deState),
      sameTemplates st0 st → foreachWeight st0 W block < fuel →
      ∃ r, inlineBlockIteratorsLoop ext scopeBlock fuel block st = some r ∧
        ∀ st1 block1, r = .ok (st1, block1) →
          sameTemplates st0 st1 ∧
            (foreachWeight st0 W block1 < foreachWeight st0 W block ∨ block1 = block) := by
  intro fuel
  induction fuel with
  | zero => intro block st _ h; omega
  | succ fuel ih =>
    intro block st hsame hlt
    unfold inlineBlockIteratorsLoop
    cases hpass : inlineBlockIteratorsPass ext scopeBlock [] block st false with
    | error e =>
      refine ⟨.error e, rfl, ?_⟩
      intro st1 block1 h
      simp at h
    | ok r =>
      obtain ⟨st1, block1, b1⟩ := r
      obtain ⟨hsame1, hle, hb⟩ :=
        inlineBlockIteratorsPass_weight ext scopeBlock st0 W hW _ _ _ _ _ _ _ hsame hpass
      rw [List.nil_append] at hle hb
      cases b1 with
      | true =>
        simp only
        have hlt1 : foreachWeight st0 W block1 < foreachWeight st0 W block := by
          rcases hb rfl with hf | hl
          · simp at hf
          · exact hl
        obtain ⟨r, hr, hprop⟩ := ih block1 st1 hsame1 (by omega)
        refine ⟨r, hr, ?_⟩
        intro st2 block2 h2
        obtain ⟨hs2, hw2⟩ := hprop st2 block2 h2
        refine ⟨hs2, Or.inl ?_⟩
        rcases hw2 with hw2 | hw2
        · omega
        · rw [hw2]; exact hlt1
      | false =>
        simp only
        refine ⟨.ok (st1, block1), rfl, ?_⟩
        intro st2 block2 h2
        simp only [Except.ok.injEq, Prod.mk.injEq] at h2
        obtain ⟨h21, h22⟩ := h2
        subst h21 h22
        obtain ⟨_, _, hblock, _⟩ :=
          inlineBlockIteratorsPass_false ext scopeBlock _ _ _ _ _ _ hpass
        exact ⟨hsame1, Or.inr (by simpa using hblock)⟩

/-- A `do` loop that ended within a bound ends the same way within a larger
one. -/
theorem inlineBlockIteratorsLoop_mono (ext : deExternals) (scopeBlock : deBlock) :
    ∀ (fuel : Nat) (block : List deStatement) (st : deState)
      (r : Except deError (deState × List deStatement)),
      inlineBlockIteratorsLoop ext scopeBlock fuel block st = some r →
      ∀ more, inlineBlockIteratorsLoop ext scopeBlock (fuel + more) block st = some r := by
  intro fuel
  induction fuel with
  | zero => intro block st r h; simp [inlineBlockIteratorsLoop] at h
  | succ fuel ih =>
    intro block st r h more
    have hadd : fuel + 1 + more = (fuel + more) + 1 := by omega
    rw [hadd]
    unfold inlineBlockIteratorsLoop at h ⊢
    cases hpass : inlineBlockIteratorsPass ext scopeBlock [] block st false with
    | error e => rw [hpass] at h; exact h
    | ok p =>
      obtain ⟨st1, block1, b1⟩ := p
      rw [hpass] at h
      cases b1 with
      | true => exact ih _ _ _ h more
      | false => exact h

/-- The loop over the sub-blocks, when it ended with one recursive call, ends
the same way with a recursive call that ends wherever that one does. -/
theorem inlineSubBlockIterators_mono
    (recurse recurse1 : List deStatement → deState →
      Option (Except deError (deState × List deStatement)))
    (hrec : ∀ b st r, recurse b st = some r → recurse1 b st = some r) :
    ∀ (block : List deStatement) (st : deState)
      (r : Except deError (deState × List deStatement)),
      inlineSubBlockIterators recurse block st = some r →
      inlineSubBlockIterators recurse1 block st = some r := by
  intro block
  induction block with
  | nil => intro st r h; exact h
  | cons s rest ih =>
    intro st r h
    cases s with
    | mk t i l e b =>
    cases b with
    | none =>
      unfold inlineSubBlockIterators at h ⊢
      simp only at h ⊢
      cases hr : inlineSubBlockIterators recurse rest st with
      | none => rw [hr] at h; simp at h
      | some r1 =>
        rw [hr] at h
        rw [ih _ _ hr]
        exact h
    | some sub =>
      unfold inlineSubBlockIterators at h ⊢
      simp only at h ⊢
      cases hsub : recurse sub st with
      | none => rw [hsub] at h; simp at h
      | some r0 =>
        rw [hsub] at h
        rw [hrec _ _ _ hsub]
        cases r0 with
        | error e => exact h
        | ok p =>
          obtain ⟨st1, sub1⟩ := p
          simp only at h ⊢
          cases hr : inlineSubBlockIterators recurse rest st1 with
          | none => rw [hr] at h; simp at h
          | some r1 =>
            rw [hr] at h
            rw [ih _ _ hr]
            exact h

/-- A sweep that ended within a bound ends the same way within a larger one. -/
theorem inlineBlockIterators_mono (ext : deExternals) (scopeBlock : deBlock) :
    ∀ (fuel : Nat) (block : List deStatement) (st : deState)
      (r : Except deError (deState × List deStatement)),
      inlineBlockIterators ext scopeBlock fuel block st = some r →
      ∀ more, inlineBlockIterators ext scopeBlock (fuel + more) block st = some r := by
  intro fuel
  induction fuel with
  | zero => intro block st r h; simp [inlineBlockIterators] at h
  | succ fuel ih =>
    intro block st r h more
    have hadd : fuel + 1 + more = (fuel + more) + 1 := by omega
    rw [hadd]
    unfold inlineBlockIterators at h ⊢
    cases hloop : inlineBlockIteratorsLoop ext scopeBlock fuel block st with
    | none => rw [hloop] at h; simp at h
    | some r0 =>
      rw [hloop] at h
      rw [inlineBlockIteratorsLoop_mono ext scopeBlock fuel block st r0 hloop more]
      cases r0 with
      | error e => exact h
      | ok p =>
        obtain ⟨st1, block1⟩ := p
        simp only at h ⊢
        exact inlineSubBlockIterators_mono _ _ (fun b st2 r2 h2 => ih b st2 r2 h2 more) _ _ _ h
/-- The `do` loop leaves the templates as they were. -/
theorem inlineBlockIteratorsLoop_sameTemplates (ext : deExternals) (scopeBlock : deBlock)
    (st0 : deState) (W : Nat → Nat)
    (hW : ∀ g fn, st0.functions.get? g = some fn → fn.type = .DE_FUNC_ITERATOR →
      foreachWeight st0 W fn.subBlock.statements < W g) :
    ∀ (fuel : Nat) (block : List deStatement) (st st1 : deState) (block1 : List deStatement),
      sameTemplates st0 st →
      inlineBlockIteratorsLoop ext scopeBlock fuel block st = some (.ok (st1, block1)) →
      sameTemplates st0 st1 := by
  intro fuel
  induction fuel with
  | zero => intro block st st1 block1 _ h; simp [inlineBlockIteratorsLoop] at h
  | succ fuel ih =>
    intro block st st1 block1 hsame h
    unfold inlineBlockIteratorsLoop at h
    cases hpass : inlineBlockIteratorsPass ext scopeBlock [] block st false with
    | error e => rw [hpass] at h; simp at h
    | ok p =>
      obtain ⟨st2, block2, b2⟩ := p
      rw [hpass] at h
      obtain ⟨hsame2, _, _⟩ :=
        inlineBlockIteratorsPass_weight ext scopeBlock st0 W hW _ _ _ _ _ _ _ hsame hpass
      cases b2 with
      | true => exact ih _ _ _ _ hsame2 h
      | false =>
        simp only [Option.some.injEq, Except.ok.injEq, Prod.mk.injEq] at h
        rw [← h.1]
        exact hsame2

/-- The loop over the sub-blocks leaves the templates as they were when the
recursive call does. -/
theorem inlineSubBlockIterators_sameTemplates (st0 : deState)
    (recurse : List deStatement → deState →
      Option (Except deError (deState × List deStatement)))
    (hrec : ∀ b st st1 b1, sameTemplates st0 st → recurse b st = some (.ok (st1, b1)) →
      sameTemplates st0 st1) :
    ∀ (block : List deStatement) (st st1 : deState) (block1 : List deStatement),
      sameTemplates st0 st →
      inlineSubBlockIterators recurse block st = some (.ok (st1, block1)) →
      sameTemplates st0 st1 := by
  intro block
  induction block with
  | nil =>
    intro st st1 block1 hsame h
    simp only [inlineSubBlockIterators, Option.some.injEq, Except.ok.injEq, Prod.mk.injEq] at h
    rw [← h.1]
    exact hsame
  | cons s rest ih =>
    intro st st1 block1 hsame h
    cases s with
    | mk t i l e b =>
    cases b with
    | none =>
      unfold inlineSubBlockIterators at h
      simp only at h
      cases hr : inlineSubBlockIterators recurse rest st with
      | none => rw [hr] at h; simp at h
      | some r =>
        cases r with
        | error e => rw [hr] at h; simp at h
        | ok r =>
          obtain ⟨st2, rest1⟩ := r
          rw [hr] at h
          simp only [Option.some.injEq, Except.ok.injEq, Prod.mk.injEq] at h
          rw [← h.1]
          exact ih _ _ _ hsame hr
    | some sub =>
      unfold inlineSubBlockIterators at h
      simp only at h
      cases hsub : recurse sub st with
      | none => rw [hsub] at h; simp at h
      | some r0 =>
        cases r0 with
        | error e => rw [hsub] at h; simp at h
        | ok r0 =>
          obtain ⟨st2, sub1⟩ := r0
          rw [hsub] at h
          simp only at h
          cases hr : inlineSubBlockIterators recurse rest st2 with
          | none => rw [hr] at h; simp at h
          | some r =>
            cases r with
            | error e => rw [hr] at h; simp at h
            | ok r =>
              obtain ⟨st3, rest1⟩ := r
              rw [hr] at h
              simp only [Option.some.injEq, Except.ok.injEq, Prod.mk.injEq] at h
              rw [← h.1]
              exact ih _ _ _ (hrec _ _ _ _ hsame hsub) hr

/-- The sweep leaves the templates as they were. -/
theorem inlineBlockIterators_sameTemplates (ext : deExternals) (scopeBlock : deBlock)
    (st0 : deState) (W : Nat → Nat)
    (hW : ∀ g fn, st0.functions.get? g = some fn → fn.type = .DE_FUNC_ITERATOR →
      foreachWeight st0 W fn.subBlock.statements < W g) :
    ∀ (fuel : Nat) (block : List deStatement) (st st1 : deState) (block1 : List deStatement),
      sameTemplates st0 st →
      inlineBlockIterators ext scopeBlock fuel block st = some (.ok (st1, block1)) →
      sameTemplates st0 st1 := by
  intro fuel
  induction fuel with
  | zero => intro block st st1 block1 _ h; simp [inlineBlockIterators] at h
  | succ fuel ih =>
    intro block st st1 block1 hsame h
    unfold inlineBlockIterators at h
    cases hloop : inlineBlockIteratorsLoop ext scopeBlock fuel block st with
    | none => rw [hloop] at h; simp at h
    | some r =>
      cases r with
      | error e => rw [hloop] at h; simp at h
      | ok r =>
        obtain ⟨st2, block2⟩ := r
        rw [hloop] at h
        simp only at h
        exact inlineSubBlockIterators_sameTemplates st0 _ ih _ _ _ _
          (inlineBlockIteratorsLoop_sameTemplates ext scopeBlock st0 W hW _ _ _ _ _ hsame hloop) h

/-- The loop over the sub-blocks ends when the sweep of every sub-block does. -/
theorem inlineSubBlockIterators_ends (ext : deExternals) (scopeBlock : deBlock)
    (st0 : deState) (W : Nat → Nat)
    (hW : ∀ g fn, st0.functions.get? g = some fn → fn.type = .DE_FUNC_ITERATOR →
      foreachWeight st0 W fn.subBlock.statements < W g) :
    ∀ (block : List deStatement),
      (∀ s ∈ block, ∀ sub, s.subBlock = some sub → ∀ st, sameTemplates st0 st →
        ∃ fuel r, inlineBlockIterators ext scopeBlock fuel sub st = some r) →
      ∀ st, sameTemplates st0 st →
        ∃ fuel r, inlineSubBlockIterators (inlineBlockIterators ext scopeBlock fuel) block st
          = some r := by
  intro block
  induction block with
  | nil => intro _ st _; exact ⟨0, _, rfl⟩
  | cons s rest ih =>
    intro hall st hsame
    have hrest := ih (fun x hx => hall x (by simp [hx]))
    cases s with
    | mk t i l e b =>
    cases b with
    | none =>
      obtain ⟨fuel, r, hr⟩ := hrest st hsame
      refine ⟨fuel, ?_⟩
      unfold inlineSubBlockIterators
      simp only
      rw [hr]
      cases r with
      | error e => exact ⟨_, rfl⟩
      | ok p => exact ⟨_, rfl⟩
    | some sub =>
      obtain ⟨fuel1, r1, hr1⟩ := hall (.mk t i l e (some sub)) (by simp) sub rfl st hsame
      cases r1 with
      | error e =>
        refine ⟨fuel1, .error e, ?_⟩
        unfold inlineSubBlockIterators
        simp only
        rw [hr1]
      | ok p =>
        obtain ⟨st1, sub1⟩ := p
        have hsame1 := inlineBlockIterators_sameTemplates ext scopeBlock st0 W hW _ _ _ _ _
          hsame hr1
        obtain ⟨fuel2, r2, hr2⟩ := hrest st1 hsame1
        have h1 := inlineBlockIterators_mono ext scopeBlock fuel1 sub st _ hr1 fuel2
        have h2 : inlineSubBlockIterators (inlineBlockIterators ext scopeBlock (fuel1 + fuel2))
            rest st1 = some r2 := by
          refine inlineSubBlockIterators_mono _ _ ?_ _ _ _ hr2
          intro b st2 r3 h3
          have := inlineBlockIterators_mono ext scopeBlock fuel2 b st2 r3 h3 fuel1
          rw [Nat.add_comm] at this
          exact this
        refine ⟨fuel1 + fuel2, ?_⟩
        unfold inlineSubBlockIterators
        simp only
        rw [h1]
        simp only
        rw [h2]
        cases r2 with
        | error e => exact ⟨_, rfl⟩
        | ok p => exact ⟨_, rfl⟩

/-- The sub-block of a statement of a list is less deep than the list. -/
theorem blockDepth_subBlock (block : List deStatement) (s : deStatement)
    (sub : List deStatement) (hs : s ∈ block) (hsub : s.subBlock = some sub) :
    blockDepth sub < blockDepth block := by
  induction block with
  | nil => simp at hs
  | cons x rest ih =>
    rw [blockDepth]
    rcases List.mem_cons.mp hs with hx | hx
    · subst hx
      cases s with
      | mk t i l e b =>
        simp only [deStatement.subBlock] at hsub
        subst hsub
        have : statementDepth (.mk t i l e (some sub)) = blockDepth sub + 1 := by
          conv_lhs => unfold statementDepth
        rw [this]
        omega
    · have := ih hx
      omega

/-- When every iterator weighs more than its body, the sweep ends on every
block. -/
theorem inlineBlockIterators_ends (ext : deExternals) (scopeBlock : deBlock)
    (st0 : deState) (W : Nat → Nat)
    (hW : ∀ g fn, st0.functions.get? g = some fn → fn.type = .DE_FUNC_ITERATOR →
      foreachWeight st0 W fn.subBlock.statements < W g) :
    ∀ (w d : Nat) (block : List deStatement) (st : deState),
      sameTemplates st0 st → foreachWeight st0 W block ≤ w → blockDepth block ≤ d →
      ∃ fuel r, inlineBlockIterators ext scopeBlock fuel block st = some r := by
  intro w
  induction w using Nat.strong_induction_on with
  | _ w ihw =>
  intro d
  induction d using Nat.strong_induction_on with
  | _ d ihd =>
  intro block st hsame hw hd
  obtain ⟨r, hr, hprop⟩ := inlineBlockIteratorsLoop_ends ext scopeBlock st0 W hW
    (foreachWeight st0 W block + 1) block st hsame (by omega)
  cases r with
  | error e =>
    refine ⟨foreachWeight st0 W block + 1 + 1, .error e, ?_⟩
    unfold inlineBlockIterators
    rw [hr]
  | ok p =>
    obtain ⟨st1, block1⟩ := p
    obtain ⟨hsame1, hcase⟩ := hprop st1 block1 rfl
    have hsubs : ∀ s ∈ block1, ∀ sub, s.subBlock = some sub → ∀ st2, sameTemplates st0 st2 →
        ∃ fuel r, inlineBlockIterators ext scopeBlock fuel sub st2 = some r := by
      intro s hs sub hsub st2 hsame2
      have hle : foreachWeight st0 W sub ≤ foreachWeight st0 W block1 :=
        le_trans (foreachWeight_subBlock st0 W s sub hsub) (foreachWeight_mem st0 W _ _ hs)
      rcases hcase with hlt | heq
      · exact ihw (foreachWeight st0 W sub) (by omega) (blockDepth sub) sub st2 hsame2
          (le_refl _) (le_refl _)
      · subst heq
        have := blockDepth_subBlock block1 s sub hs hsub
        exact ihd (blockDepth sub) (by omega) sub st2 hsame2 (by omega) (le_refl _)
    obtain ⟨fuel2, r2, hr2⟩ :=
      inlineSubBlockIterators_ends ext scopeBlock st0 W hW block1 hsubs st1 hsame1
    refine ⟨(foreachWeight st0 W block + 1 + fuel2) + 1, r2, ?_⟩
    unfold inlineBlockIterators
    rw [inlineBlockIteratorsLoop_mono ext scopeBlock _ block st _ hr fuel2]
    simp only
    refine inlineSubBlockIterators_mono _ _ ?_ _ _ _ hr2
    intro b st2 r3 h3
    have := inlineBlockIterators_mono ext scopeBlock fuel2 b st2 r3 h3
      (foreachWeight st0 W block + 1)
    rw [Nat.add_comm] at this
    exact this
/-- An iterator contained in the body of another is a function of the arena. -/
theorem containsForeachOver_lt (st : deState) (f g : Nat) (h : containsForeachOver st f g) :
    g < st.functions.length := by
  obtain ⟨fn, s, _, _, _, hit⟩ := h
  unfold foreachIterator at hit
  cases hc : checkIteratorCall st s with
  | error e => rw [hc] at hit; simp at hit
  | ok r =>
    obtain ⟨a, c, it, fn1⟩ := r
    rw [hc] at hit
    simp only [Option.some.injEq] at hit
    subst hit
    have := checkIteratorCall_ok_function st s a c it fn1 hc
    rw [List.get?_eq_getElem?] at this
    exact (List.getElem?_eq_some_iff.mp this).1

/-- An iterator reached along the relation is a function of the arena. -/
theorem transGen_containsForeachOver_lt (st : deState) (f g : Nat)
    (h : Relation.TransGen (containsForeachOver st) f g) : g < st.functions.length := by
  cases h with
  | single hr => exact containsForeachOver_lt st _ _ hr
  | tail _ hr => exact containsForeachOver_lt st _ _ hr

/-- A member of a list of numbers is at most their sum. -/
theorem le_sum_of_mem (l : List Nat) (x : Nat) (h : x ∈ l) : x ≤ l.sum := by
  induction l with
  | nil => simp at h
  | cons y rest ih =>
    rw [List.sum_cons]
    rcases List.mem_cons.mp h with hx | hx
    · omega
    · have := ih hx
      omega

/-- A sum of numbers each at most `b` is at most their count times `b`. -/
theorem sum_le_length_mul (l : List Nat) (b : Nat) (h : ∀ x ∈ l, x ≤ b) :
    l.sum ≤ l.length * b := by
  induction l with
  | nil => simp
  | cons y rest ih =>
    rw [List.sum_cons, List.length_cons, Nat.succ_mul]
    have h1 := h y (by simp)
    have h2 := ih (fun x hx => h x (by simp [hx]))
    omega

/-- When the relation "the body of iterator `f` contains a foreach over iterator
`g`" is acyclic, the iterators can be weighed so that each weighs more than its
body. -/
theorem weight_of_acyclic (st : deState)
    (hacyclic : ∀ f, ¬ Relation.TransGen (containsForeachOver st) f f) :
    ∃ W : Nat → Nat, ∀ g fn, st.functions.get? g = some fn → fn.type = .DE_FUNC_ITERATOR →
      foreachWeight st W fn.subBlock.statements < W g := by
  classical
  let desc : Nat → Finset Nat := fun f =>
    (Finset.range st.functions.length).filter
      (fun g => Relation.TransGen (containsForeachOver st) f g)
  have hrank : ∀ f g, containsForeachOver st f g → (desc g).card < (desc f).card := by
    intro f g hfg
    apply Finset.card_lt_card
    refine ⟨?_, ?_⟩
    · intro x hx
      simp only [desc, Finset.mem_filter, Finset.mem_range] at hx ⊢
      exact ⟨hx.1, Relation.TransGen.head hfg hx.2⟩
    · intro hsub
      have hg : g ∈ desc f := by
        simp only [desc, Finset.mem_filter, Finset.mem_range]
        exact ⟨containsForeachOver_lt st f g hfg, Relation.TransGen.single hfg⟩
      have := hsub hg
      simp only [desc, Finset.mem_filter, Finset.mem_range] at this
      exact hacyclic g this.2
  let c : Nat :=
    (st.functions.map
      (fun fn => (instantiatedForeachBlock fn.subBlock.statements).length)).sum
  refine ⟨fun g => (c + 1) ^ ((desc g).card + 1), ?_⟩
  intro g fn hfn hty
  have hcount : (instantiatedForeachBlock fn.subBlock.statements).length ≤ c := by
    apply le_sum_of_mem
    rw [List.mem_map]
    refine ⟨fn, ?_, rfl⟩
    rw [List.get?_eq_getElem?] at hfn
    exact List.mem_iff_getElem?.mpr ⟨g, hfn⟩
  have hbound : foreachWeight st (fun g => (c + 1) ^ ((desc g).card + 1))
      fn.subBlock.statements
      ≤ (instantiatedForeachBlock fn.subBlock.statements).length * (c + 1) ^ (desc g).card := by
    unfold foreachWeight
    have := sum_le_length_mul
      ((instantiatedForeachBlock fn.subBlock.statements).map
        (fun statement =>
          match foreachIterator st statement with
          | some g => (c + 1) ^ ((desc g).card + 1)
          | none => 0))
      ((c + 1) ^ (desc g).card) ?_
    · simpa using this
    · intro x hx
      rw [List.mem_map] at hx
      obtain ⟨s, hs, hxs⟩ := hx
      subst hxs
      cases hit : foreachIterator st s with
      | none => simp
      | some g1 =>
        simp only
        have hlt := hrank g g1 ⟨fn, s, hfn, hty, hs, hit⟩
        exact Nat.pow_le_pow_right (by omega) hlt
  have hpow : (c + 1) ^ ((desc g).card + 1) = (c + 1) ^ (desc g).card * (c + 1) := by
    rw [pow_succ]
  have hpos : 0 < (c + 1) ^ (desc g).card := Nat.pow_pos (by omega)
  show foreachWeight st (fun g => (c + 1) ^ ((desc g).card + 1)) fn.subBlock.statements
    < (c + 1) ^ ((desc g).card + 1)
  rw [hpow]
  calc foreachWeight st (fun g => (c + 1) ^ ((desc g).card + 1)) fn.subBlock.statements
      ≤ (instantiatedForeachBlock fn.subBlock.statements).length * (c + 1) ^ (desc g).card :=
        hbound
    _ ≤ c * (c + 1) ^ (desc g).card := Nat.mul_le_mul_right _ hcount
    _ < (c + 1) ^ (desc g).card * (c + 1) := by
        rw [Nat.mul_comm c]
        exact Nat.mul_lt_mul_of_pos_left (by omega) hpos

/-- C15.  In a state in which no iterator is directly or mutually
self-recursive, that is, the relation "the body of iterator `f` contains an
instantiated foreach over iterator `g`" has no cycle, the sweep
`inlineBlockIterators` terminates on every block: there is a bound on the number
of passes of each `do` loop and on the depth of the recursion into sub-blocks
within which the sweep ends, with a block or with an error, and it ends the
same way within any larger bound. -/
theorem inlineBlockIterators_terminates (ext : deExternals) (scopeBlock : deBlock)
    (st : deState) (block : List deStatement)
    (hacyclic : ∀ f, ¬ Relation.TransGen (containsForeachOver st) f f) :
    ∃ fuel r, ∀ more,
      inlineBlockIterators ext scopeBlock (fuel + more) block st = some r := by
  obtain ⟨W, hW⟩ := weight_of_acyclic st hacyclic
  obtain ⟨fuel, r, hr⟩ := inlineBlockIterators_ends ext scopeBlock st W hW
    (foreachWeight st W block) (blockDepth block) block st (sameTemplates_refl st)
    (le_refl _) (le_refl _)
  exact ⟨fuel, r, inlineBlockIterators_mono ext scopeBlock fuel block st r hr⟩

/-- A relation "contains a foreach over" along which a rank of the iterators
decreases has no cycle. -/
theorem acyclic_of_rank (st : deState) (rank : Nat → Nat)
    (h : ∀ f g, containsForeachOver st f g → rank g < rank f) :
    ∀ f, ¬ Relation.TransGen (containsForeachOver st) f f := by
  have hlt : ∀ f g, Relation.TransGen (containsForeachOver st) f g → rank g < rank f := by
    intro f g hfg
    induction hfg with
    | single hr => exact h _ _ hr
    | tail _ hr ih => exact lt_trans (h _ _ hr) ih
  intro f hf
  exact lt_irrefl _ (hlt f f hf)

/-- In the state of the iterators `range` and `evens`, the only pair of the
relation is `evens`, `range`. -/
theorem nestedIteratorState_contains (f g : Nat)
    (h : containsForeachOver nestedIteratorState f g) : g < f := by
  obtain ⟨fn, s, hfn, _, hs, hit⟩ := h
  match f with
  | 0 =>
    simp only [nestedIteratorState, List.get?_cons_zero, Option.some.injEq] at hfn
    subst hfn
    simp [rangeIteratorBlock, instantiatedForeachBlock, instantiatedForeachStatement,
      isInstantiatedForeach, deStatement.type] at hs
  | 1 =>
    simp only [nestedIteratorState, List.get?_cons_succ, List.get?_cons_zero,
      Option.some.injEq] at hfn
    subst hfn
    simp only [evensIteratorBlock, instantiatedForeachBlock, instantiatedForeachStatement,
      isInstantiatedForeach, deStatement.type, deStatement.instantiated, exampleYield,
      decide_True, Bool.and_self, if_true, List.append_nil, List.mem_singleton,
      List.singleton_append, List.mem_cons] at hs
    simp at hs
    subst hs
    have : foreachIterator nestedIteratorState
        (.mk .DE_STATEMENT_FOREACH true 4
          (some (.mk (.DE_EXPR_OTHER 1) 4 none false none
            [deIdentExpressionCreate "x" 4,
              .mk .DE_EXPR_CALL 4 none false (some 0)
                [deIdentExpressionCreate "range" 4,
                  .mk .DE_EXPR_LIST 4 none false none [deIdentExpressionCreate "start" 4]]]))
          (some [.mk .DE_STATEMENT_YIELD true 3 (some (deIdentExpressionCreate "x" 3)) none]))
        = some 0 := rfl
    rw [this] at hit
    simp only [Option.some.injEq] at hit
    omega
  | f + 2 =>
    simp [nestedIteratorState] at hfn

/-- Witness of C15: the iterators `range` and `evens`, the body of `evens` being
a foreach over `range`, make no cycle, and the sweep terminates on a block that
holds a foreach over `evens` in a sub-block. -/
theorem inlineBlockIterators_terminates_witness :
    (∀ f, ¬ Relation.TransGen (containsForeachOver nestedIteratorState) f f) ∧
    ∃ fuel r, ∀ more,
      inlineBlockIterators exampleExternals exampleScope (fuel + more) nestedIteratorBlock
        nestedIteratorState = some r :=
  ⟨acyclic_of_rank nestedIteratorState id nestedIteratorState_contains,
    inlineBlockIterators_terminates exampleExternals exampleScope nestedIteratorState
      nestedIteratorBlock
      (acyclic_of_rank nestedIteratorState id nestedIteratorState_contains)⟩

end Rune
